import Mathlib

/-!
# Somnia-Auto-Bot: the transaction submission and retry engine

A shallow embedding of `sendAndConfirmTransaction` and its call sites in
`scripts/swapping.js`.

* JavaScript strings are Lean strings; the counters of `txStats` and the clock
  readings are integers (the JavaScript numbers involved stay far below `2^53`).
* A JavaScript number is the rational it is, and an operation on numbers is
  the exact operation followed by the rounding to binary64; `Math.random()`
  is the draw of the random source, taken in `[0, 1)` where it matters.
* Each awaited network call either resolves to a value or rejects with an
  error carrying a string `message`; what the network, the clock and the
  random source answer during the successive passes through the loop is an
  explicit input, and what the call does to the outside world is recorded as a
  trace of events.
* The `while` loop is a total function: a pass either returns or increments
  `retryCount`, so `maxRetries - retryCount` decreases.
* The conversions of a decimal amount to wei are answers, like those of the
  network, since they throw when the amount is not a number; what they answer
  for a number is `computeAmountInWei` and `computeAmountOutMinimum`.
* The key file is what the file system answers (`existsSync`, `readFileSync`);
  `loadPrivateKeys` is modelled for `swapping.js` and for `mintping.js`.
* An entry point is modelled by whether its promise resolves or rejects, given
  which of its sink arguments are functions, and by which argument receives
  its panel and its log messages.
* `shuffleWallets` is a stable sort by the draws of `Math.random()`, one draw
  per key.
* The Solidity contract `NFTCollection` is a transition system on its storage:
  a call returns the new storage or reverts, and a reverted call changes
  nothing; arithmetic is checked, as under `pragma solidity ^0.8.19`.
-/

namespace Swapping

/-! ## Strings -/

/-- `String.prototype.includes` on the character lists of two strings: `pat`
occurs as a contiguous block somewhere in `s`. -/
def includesList : List Char → List Char → Bool
  | [], pat => pat.isEmpty
  | c :: cs, pat => pat.isPrefixOf (c :: cs) || includesList cs pat

/-- `s.includes(pat)`. -/
def includes (s pat : String) : Bool :=
  includesList s.data pat.data

/-- `s.toLowerCase()`.  The letters `A`..`Z` are mapped to `a`..`z`; every
other character is kept.  JavaScript also lowers letters outside ASCII; the
only ones whose lower-case form holds an ASCII letter are U+0130 (an `i`
followed by U+0307) and U+212A (a `k`), and neither can complete one of the
ASCII patterns searched for below, so the classification of a message is the
same. -/
def toLowerCase (s : String) : String :=
  ⟨s.data.map Char.toLower⟩

/-! ## Data model -/

/-- The shared statistics object `txStats`
(`{ success: 0, failed: 0, pending: 0, times: [] }` in `runSwapping`). -/
structure TxStats where
  success : Int
  failed : Int
  pending : Int
  times : List Int
  deriving DecidableEq, Repr

/-- The transaction skeleton `txParams`.  The fields `from_` and `to_` are the
source's `from` and `to`; `nonce` is absent until `sendAndConfirmTransaction` fills it in. -/
structure TxParams where
  from_ : String
  to_ : String
  gas : Nat
  gasPrice : Nat
  data : String
  chainId : Option Nat
  nonce : Option Nat
  deriving DecidableEq, Repr

/-- The part of a transaction receipt the code looks at. -/
structure Receipt where
  status : Bool
  transactionHash : String
  deriving DecidableEq, Repr

/-! ## Numbers

A JavaScript number is a binary64 value. The values are modelled as the
rationals they are, and an arithmetic operation of the code as the exact
operation followed by `binary64`, the rounding to the nearest value with 53
significant bits, ties to the even one. The range of the exponent is not
bounded: overflow to `Infinity` and subnormal values are out of the model. -/

/-- The nearest integer, the even one of the two when `x` is half-way. -/
def roundHalfEven (x : ℚ) : Int :=
  if x - ⌊x⌋ < 1 / 2 then ⌊x⌋
  else if 1 / 2 < x - ⌊x⌋ then ⌊x⌋ + 1
  else if ⌊x⌋ % 2 = 0 then ⌊x⌋ else ⌊x⌋ + 1

/-- The exponent of the last of the 53 significant bits of `x`. -/
def ulpExponent (x : ℚ) : Int := Int.log 2 |x| - 52

/-- The binary64 value nearest to `x`, ties to even: the result of an
arithmetic operation whose exact result is `x`. -/
def binary64 (x : ℚ) : ℚ := (roundHalfEven (x / 2 ^ ulpExponent x) : ℚ) * 2 ^ ulpExponent x

/-- The binary64 value next to `x` towards zero, `x` itself when it is one. -/
def truncate64 (x : ℚ) : ℚ := (⌊x / 2 ^ ulpExponent x⌋ : ℚ) * 2 ^ ulpExponent x

/-! ## Random integers -/

/-- `Math.random()`: a binary64 value, in `[0, 1)` when the draw is. The draw
of the random source is passed as a rational and is the value returned when it
is a binary64 value; any other draw stands for the binary64 value below it. -/
def mathRandom (draw : ℚ) : ℚ := truncate64 draw

/-- `getRandomInt(min, max)`: `Math.floor(Math.random() * (max - min + 1)) + min`,
with the draw of `Math.random()` passed as `random`. The difference, the two
sums and the product are binary64 operations; the result is an integer. -/
def getRandomInt (random : ℚ) (min max : Int) : Int :=
  let range := binary64 (binary64 ((max : ℚ) - min) + 1)
  let scaled := binary64 (mathRandom random * range)
  ⌊binary64 ((⌊scaled⌋ : ℚ) + min)⌋

/-! ## The conversion of an amount of tokens to wei -/

/-- `slippageTolerance = 0.95`: the number the literal denotes, the binary64
value nearest to `19/20`. -/
def slippageTolerance : ℚ := binary64 (19 / 20)

/-- `Math.floor(amountIn * (10 ** tokenInDecimals))`, the value `BigInt` gets
for `amountInWei` (and for `amountWeiToApprove` in `approveToken`) when
`amountIn` is a number: the power and the product are rounded to binary64. -/
def computeAmountInWei (amountIn : ℚ) (decimals : Nat) : Int :=
  ⌊binary64 (amountIn * binary64 (10 ^ decimals))⌋

/-- `Math.floor(amountIn * slippageTolerance * (10 ** tokenInDecimals))`, the
value `BigInt` gets for `amountOutMinimum`: the two products are made from left
to right and each is rounded to binary64. -/
def computeAmountOutMinimum (amountIn : ℚ) (decimals : Nat) : Int :=
  ⌊binary64 (binary64 (amountIn * slippageTolerance) * binary64 (10 ^ decimals))⌋

/-! ## Error classification -/

/-- The three branches of the `catch` block of `sendAndConfirmTransaction`. -/
inductive ErrorClass where
  | retryableNonceOrPrice
  | retryableTimeout
  | fatal
  deriving DecidableEq, Repr

/-- The `if` / `else if` / `else` chain of the `catch` block, applied to
`e.message`. -/
def classifyError (message : String) : ErrorClass :=
  let errorMessage := toLowerCase message
  if includes errorMessage "nonce too low"
      || includes errorMessage "transaction underpriced"
      || includes errorMessage "replacement transaction underpriced"
      || includes errorMessage "transaction already imported"
      || includes errorMessage "transaction with the same hash was already imported" then
    ErrorClass.retryableNonceOrPrice
  else if includes errorMessage "transaction was not mined within" then
    ErrorClass.retryableTimeout
  else
    ErrorClass.fatal

/-! ## Observable effects -/

deriving instance DecidableEq for Except

/-- The lines `sendAndConfirmTransaction` hands to `safeLog`, each with the
values it interpolates (wallet index and transaction type are fixed for a call
and left out). -/
inductive LogLine where
  | sending (attempt : Nat)
  | success (transactionHash : String)
  | reverted (transactionHash : String)
  | transactionError (attempt : Nat) (message : String)
  | retrying (delay : Int)
  | retryingTimeout (delay : Int)
  | failedPermanently (message : String)
  | failedAfterRetries
  deriving DecidableEq

/-- What one call of `sendAndConfirmTransaction` does to the outside world, in
order: the three network calls with their arguments, the back-off timers
(in milliseconds) and the log lines.  A network call is recorded with what it
answered: `Except.ok` the value it resolved to, `Except.error` the message it
rejected with. -/
inductive Event where
  | getTransactionCount (address : String) (block : String) (answer : Except String Nat)
  | signTransaction (txParams : TxParams) (answer : Except String String)
  | sendSignedTransaction (rawTransaction : String) (answer : Except String Receipt)
  | sleep (milliseconds : Int)
  | log (line : LogLine)
  deriving DecidableEq

/-- What the outside world answers during one pass through the body of the
`while` loop: the result of each of the three awaited calls (`Except.error`
carries `e.message` of the rejection), the reading of `Date.now()` and the
draw of `Math.random()`.  An answer is only looked at when the code reaches
the call. -/
structure Attempt where
  getTransactionCount : Except String Nat
  signTransaction : Except String String
  sendSignedTransaction : Except String Receipt
  now : Int
  random : ℚ

/-- The local variables of `sendAndConfirmTransaction` that change, together
with the events produced so far. -/
structure LoopState where
  retryCount : Nat
  txParams : TxParams
  txStats : TxStats
  trace : List Event
  deriving DecidableEq

/-- The value returned by `sendAndConfirmTransaction` (`none` is `null`) and
the state it leaves behind. -/
structure Result where
  returned : Option Receipt
  final : LoopState
  deriving DecidableEq

/-- One pass through the loop body either returns or goes back to the loop
test. -/
inductive Step where
  | done (result : Result)
  | again (state : LoopState)

/-- `const maxRetries = 5`. -/
def maxRetries : Nat := 5

/-- The `catch (e)` block, with `message` the value of `e.message`. -/
def catchBlock (a : Attempt) (message : String) (st : LoopState) : Step :=
  let st := { st with trace := st.trace ++ [Event.log (LogLine.transactionError (st.retryCount + 1) message)] }
  match classifyError message with
  | ErrorClass.retryableNonceOrPrice =>
    let retryCount := st.retryCount + 1
    let delay := getRandomInt a.random 5 10 * 2 ^ retryCount
    Step.again { st with
      retryCount := retryCount
      trace := st.trace ++ [Event.log (LogLine.retrying delay), Event.sleep (delay * 1000)] }
  | ErrorClass.retryableTimeout =>
    let retryCount := st.retryCount + 1
    let delay := getRandomInt a.random 10 20 * 2 ^ retryCount
    Step.again { st with
      retryCount := retryCount
      trace := st.trace ++ [Event.log (LogLine.retryingTimeout delay), Event.sleep (delay * 1000)] }
  | ErrorClass.fatal =>
    Step.done {
      returned := none
      final := { st with
        txStats := { st.txStats with pending := st.txStats.pending - 1, failed := st.txStats.failed + 1 }
        trace := st.trace ++ [Event.log (LogLine.failedPermanently message)] } }

/-- The body of the `while` loop: the `try` block, falling into `catchBlock`
at the first call that rejects. -/
def loopBody (startTime : Int) (a : Attempt) (st : LoopState) : Step :=
  let st := { st with trace := st.trace ++ [Event.getTransactionCount st.txParams.from_ "pending" a.getTransactionCount] }
  match a.getTransactionCount with
  | Except.error message => catchBlock a message st
  | Except.ok nonce =>
    let st := { st with
      txParams := { st.txParams with nonce := some nonce }
      trace := st.trace ++ [Event.log (LogLine.sending (st.retryCount + 1))] }
    let st := { st with trace := st.trace ++ [Event.signTransaction st.txParams a.signTransaction] }
    match a.signTransaction with
    | Except.error message => catchBlock a message st
    | Except.ok rawTransaction =>
      let st := { st with trace := st.trace ++ [Event.sendSignedTransaction rawTransaction a.sendSignedTransaction] }
      match a.sendSignedTransaction with
      | Except.error message => catchBlock a message st
      | Except.ok receipt =>
        if receipt.status then
          Step.done {
            returned := some receipt
            final := { st with
              txStats := { st.txStats with
                pending := st.txStats.pending - 1
                success := st.txStats.success + 1
                times := st.txStats.times ++ [a.now - startTime] }
              trace := st.trace ++ [Event.log (LogLine.success receipt.transactionHash)] } }
        else
          Step.done {
            returned := none
            final := { st with
              txStats := { st.txStats with pending := st.txStats.pending - 1, failed := st.txStats.failed + 1 }
              trace := st.trace ++ [Event.log (LogLine.reverted receipt.transactionHash)] } }

/-- The code after the loop, reached when the loop test fails. -/
def afterLoop (st : LoopState) : Result :=
  { returned := none
    final := { st with
      txStats := { st.txStats with pending := st.txStats.pending - 1, failed := st.txStats.failed + 1 }
      trace := st.trace ++ [Event.log LogLine.failedAfterRetries] } }

/-- The `while (retryCount < maxRetries)` loop followed by `afterLoop`.
`attempts 0` answers the pass that starts now, `attempts 1` the next one. -/
def sendLoop (startTime : Int) (attempts : Nat → Attempt) (st : LoopState) : Result :=
  if _hlt : st.retryCount < maxRetries then
    match h : loopBody startTime (attempts 0) st with
    | Step.done result => result
    | Step.again st' => sendLoop startTime (fun i => attempts (i + 1)) st'
  else
    afterLoop st
termination_by maxRetries - st.retryCount
decreasing_by
  have hinc : st'.retryCount = st.retryCount + 1 := by
    unfold loopBody catchBlock at h
    repeat' split at h
    all_goals (first | cases h; rfl | cases h)
  omega

/-- The function `sendAndConfirmTransaction(web3, txParams, privateKey, ..., txStats, txType)`:
`startTime` is the reading of `Date.now()` on entry and `attempts` the answers
of the network, clock and random source to the successive passes. -/
def sendAndConfirmTransaction (startTime : Int) (attempts : Nat → Attempt)
    (txParams : TxParams) (txStats : TxStats) : Result :=
  sendLoop startTime attempts { retryCount := 0, txParams := txParams, txStats := txStats, trace := [] }

/-- One submission as made by `approveToken` and `swapToken`:
`txStats.pending++` followed by the call of `sendAndConfirmTransaction`. -/
def submit (startTime : Int) (attempts : Nat → Attempt)
    (txParams : TxParams) (txStats : TxStats) : Result :=
  sendAndConfirmTransaction startTime attempts txParams
    { txStats with pending := txStats.pending + 1 }

/-! ## Vocabulary for the statements -/

/-- The message the `try` block throws with during a pass answered by `a`:
that of the first of the three awaited calls that rejects. -/
def Attempt.thrown (a : Attempt) : Option String :=
  match a.getTransactionCount with
  | Except.error message => some message
  | Except.ok _ =>
    match a.signTransaction with
    | Except.error message => some message
    | Except.ok _ =>
      match a.sendSignedTransaction with
      | Except.error message => some message
      | Except.ok _ => none

/-- The receipt a pass answered by `a` obtains, when none of the three calls
rejects. -/
def Attempt.receipt (a : Attempt) : Option Receipt :=
  match a.getTransactionCount, a.signTransaction, a.sendSignedTransaction with
  | Except.ok _, Except.ok _, Except.ok receipt => some receipt
  | _, _, _ => none

/-- A pass answered by `a` throws an error that the `catch` block retries. -/
def Attempt.retryable (a : Attempt) : Prop :=
  ∃ message, a.thrown = some message ∧ classifyError message ≠ ErrorClass.fatal

/-- The event is a call of `web3.eth.getTransactionCount`.  Every pass through
the loop body starts with exactly one. -/
def Event.isNonceCall : Event → Bool
  | Event.getTransactionCount _ _ _ => true
  | _ => false

/-- The event is a call of `getTransactionCount` that resolved to a value. -/
def Event.isNonceRead : Event → Bool
  | Event.getTransactionCount _ _ (Except.ok _) => true
  | _ => false

/-- The event is a call of `web3.eth.accounts.signTransaction`. -/
def Event.isSign : Event → Bool
  | Event.signTransaction _ _ => true
  | _ => false

/-- The event is a call of `web3.eth.sendSignedTransaction`. -/
def Event.isBroadcast : Event → Bool
  | Event.sendSignedTransaction _ _ => true
  | _ => false

/-- The event is a back-off timer. -/
def Event.isSleep : Event → Bool
  | Event.sleep _ => true
  | _ => false

/-- Number of passes through the loop body recorded in a trace. -/
def attemptCount (trace : List Event) : Nat :=
  trace.countP Event.isNonceCall

/-- Number of back-off timers recorded in a trace. -/
def sleepCount (trace : List Event) : Nat :=
  trace.countP Event.isSleep

/-- Number of broadcasts recorded in a trace. -/
def broadcastCount (trace : List Event) : Nat :=
  trace.countP Event.isBroadcast

/-- In a pass answered by `a` the nonce call and the signing both resolve, so
the pass gets as far as the broadcast. -/
def Attempt.reachesBroadcast (a : Attempt) : Prop :=
  ∃ nonce rawTransaction,
    a.getTransactionCount = Except.ok nonce ∧ a.signTransaction = Except.ok rawTransaction

/-- The statistics after a terminal failure: `pending--`, `failed++`. -/
def TxStats.recordFailure (s : TxStats) : TxStats :=
  { s with pending := s.pending - 1, failed := s.failed + 1 }

/-- The statistics after a success: `pending--`, `success++`,
`times.push(elapsed)`. -/
def TxStats.recordSuccess (s : TxStats) (elapsed : Int) : TxStats :=
  { s with pending := s.pending - 1, success := s.success + 1, times := s.times ++ [elapsed] }

/-- What must stand right before an event of a call for the skeleton `base`:
a nonce call asks for the pending count of `base.from_`; a signing comes right
after a nonce call that resolved (and the line announcing the attempt) and
signs `base` with the nonce just read; a broadcast comes right after the
signing that produced its raw transaction. -/
def wellPreceded (base : TxParams) (pre : List Event) : Event → Prop
  | Event.getTransactionCount address block _ => address = base.from_ ∧ block = "pending"
  | Event.signTransaction tx _ =>
    ∃ pre' nonce attempt,
      pre = pre' ++ [Event.getTransactionCount base.from_ "pending" (Except.ok nonce),
        Event.log (LogLine.sending attempt)] ∧
      tx = { base with nonce := some nonce }
  | Event.sendSignedTransaction rawTransaction _ =>
    ∃ pre' tx, pre = pre' ++ [Event.signTransaction tx (Except.ok rawTransaction)]
  | _ => True

/-- Every event of the trace is well preceded. -/
def FreshNonces (base : TxParams) (trace : List Event) : Prop :=
  ∀ pre e post, trace = pre ++ e :: post → wellPreceded base pre e

/-- The invariant of the loop for the nonce discipline: the skeleton differs
from `base` in its nonce only, every event so far is well preceded, and as many
nonce reads resolved as signings were started. -/
def NonceInv (base : TxParams) (st : LoopState) : Prop :=
  (∃ nonce, st.txParams = { base with nonce := nonce }) ∧
  FreshNonces base st.trace ∧
  st.trace.countP Event.isNonceRead = st.trace.countP Event.isSign

/-- The attempt number interpolated into a log line (`retryCount + 1` at the
time the line is written), if the line carries one. -/
def Event.attemptNumber : Event → Option Nat
  | Event.log (LogLine.sending attempt) => some attempt
  | Event.log (LogLine.transactionError attempt _) => some attempt
  | _ => none

/-- Every attempt number logged in the trace lies in `1..5`. -/
def LogsInRange (trace : List Event) : Prop :=
  ∀ e ∈ trace, ∀ k, e.attemptNumber = some k → 1 ≤ k ∧ k ≤ 5

/-- A property of the outcome of one pass: `onDone` of the result when the
pass returns, `onAgain` of the new state when it goes back to the loop test. -/
def Step.Satisfies (onDone : Result → Prop) (onAgain : LoopState → Prop) : Step → Prop
  | Step.done r => onDone r
  | Step.again st' => onAgain st'

/-- A pass that started in `st` has returned `r`: the counter is unchanged,
and the events appended hold `n` nonce calls, attempt numbers in range, and
end with something other than the line reporting exhausted retries. -/
def PassDone (n : Nat) (st : LoopState) (r : Result) : Prop :=
  r.final.retryCount = st.retryCount ∧
  ∃ es, r.final.trace = st.trace ++ es ∧ attemptCount es = n ∧ LogsInRange es ∧
    ∃ last, es.getLast? = some last ∧ last ≠ Event.log LogLine.failedAfterRetries

/-- A pass that started in `st` has gone back to the loop test in `st'`: the
counter is one higher, and the events appended hold `n` nonce calls and
attempt numbers in range. -/
def PassAgain (n : Nat) (st st' : LoopState) : Prop :=
  st'.retryCount = st.retryCount + 1 ∧
  ∃ es, st'.trace = st.trace ++ es ∧ attemptCount es = n ∧ LogsInRange es

/-- A sample transaction skeleton, as `swapToken` builds it. -/
def sampleTx : TxParams :=
  { from_ := "0x52908400098527886E0F7030069857D2E4169EE7"
    to_ := "0x6aac14f090a35eea150705f72d90e4cdc4a49b2c"
    gas := 3000000
    gasPrice := 6000000000
    data := "0x414bf389"
    chainId := some 50312
    nonce := none }

/-- The statistics object as `runSwapping` creates it. -/
def freshStats : TxStats :=
  { success := 0, failed := 0, pending := 0, times := [] }

/-- A pass in which the broadcast is rejected with a nonce error. -/
def nonceTooLow : Attempt :=
  { getTransactionCount := Except.ok 7
    signTransaction := Except.ok "0xf86c07"
    sendSignedTransaction := Except.error "Returned error: nonce too low"
    now := 1700000004000
    random := 0 }

/-- A pass in which the broadcast is rejected for lack of funds. -/
def insufficientFunds : Attempt :=
  { getTransactionCount := Except.ok 7
    signTransaction := Except.ok "0xf86c07"
    sendSignedTransaction := Except.error "Returned error: insufficient funds for gas * price + value"
    now := 1700000004000
    random := 0 }

/-- A pass in which the transaction is mined and succeeds. -/
def confirmed : Attempt :=
  { getTransactionCount := Except.ok 8
    signTransaction := Except.ok "0xf86c08"
    sendSignedTransaction := Except.ok { status := true, transactionHash := "0x5c504ed4" }
    now := 1700000031000
    random := 1 / 2 }

/-- A pass in which the transaction is mined and reverts. -/
def reverted : Attempt :=
  { getTransactionCount := Except.ok 8
    signTransaction := Except.ok "0xf86c08"
    sendSignedTransaction := Except.ok { status := false, transactionHash := "0x5c504ed4" }
    now := 1700000031000
    random := 1 / 2 }

/-- Two nonce errors, then a confirmed transaction. -/
def retryTwiceThenConfirm (i : Nat) : Attempt :=
  if i < 2 then nonceTooLow else confirmed

/-- A nonce error in a pass where `Math.random()` draws `1/2`. -/
def nonceTooLowMidDraw : Attempt :=
  { nonceTooLow with random := 1 / 2 }

/-- A nonce error in a pass where `Math.random()` draws `9/10`. -/
def nonceTooLowHighDraw : Attempt :=
  { nonceTooLow with random := 9 / 10 }

/-- A mining timeout in a pass where `Math.random()` draws `19/20`. -/
def notMinedHighDraw : Attempt :=
  { getTransactionCount := Except.ok 7
    signTransaction := Except.ok "0xf86c07"
    sendSignedTransaction := Except.error "Transaction was not mined within 750 seconds"
    now := 1700000750000
    random := 19 / 20 }

/-- The loop state on entry to `sendAndConfirmTransaction` for the sample
skeleton and fresh statistics. -/
def firstPass : LoopState :=
  { retryCount := 0, txParams := sampleTx, txStats := freshStats, trace := [] }

/-! ## `approveToken` and `swapToken` -/

/-- What the chain and the libraries answer during one call of `approveToken`,
in the order the code asks: the native balance of the owner in wei, the token
decimals, the conversion `BigInt(Math.floor(amountToApprove * (10 ** decimals)))`
(double arithmetic, left abstract; it throws when the product is not finite),
the current allowance, the token balance, the gas price, the encoding of the
`approve(spender, amount)` call, and the answers to the submission. -/
structure ApproveAnswers where
  getBalance : Except String Int
  decimals : Except String Nat
  amountWei : ℚ → Nat → Except String Int
  allowance : Except String Int
  balanceOf : Except String Int
  getGasPrice : Except String Nat
  encodeABI : String → Int → Except String String
  startTime : Int
  attempts : Nat → Attempt

/-- The three outcomes of the two tests `tokenBalance < amountWeiToApprove` and
`currentAllowance >= amountWeiToApprove` of `approveToken`. -/
inductive AllowanceDecision where
  | sufficient
  | insufficientBalance
  | needsApproval
  deriving DecidableEq, Repr

/-- The two tests of `approveToken`, in the order of the source: first the
token balance against the amount, then the allowance against the amount. -/
def approvalDecision (tokenBalance currentAllowance amountWeiToApprove : Int) :
    AllowanceDecision :=
  if tokenBalance < amountWeiToApprove then
    AllowanceDecision.insufficientBalance
  else if currentAllowance ≥ amountWeiToApprove then
    AllowanceDecision.sufficient
  else
    AllowanceDecision.needsApproval

/-- What a call of `approveToken` or `swapToken` leaves behind: the value
returned (`none` is `null`), the statistics, the successive values the
statistics took each time the call changed them, the transaction skeleton if
one was built, and the result of `sendAndConfirmTransaction` if it was
called. -/
structure CallResult where
  returned : Option String
  txStats : TxStats
  history : List TxStats
  built : Option TxParams
  submitted : Option Result
  deriving DecidableEq

/-- The `catch (e)` block of `approveToken` and `swapToken`: `return null`,
nothing else. It is only entered before the statistics are touched. -/
def caughtResult (txStats : TxStats) : CallResult :=
  { returned := none, txStats := txStats, history := [], built := none, submitted := none }

/-- The early exits `txStats.failed++; return null;` of `approveToken` and
`swapToken`. -/
def failedResult (txStats : TxStats) : CallResult :=
  { returned := none
    txStats := { txStats with failed := txStats.failed + 1 }
    history := [{ txStats with failed := txStats.failed + 1 }]
    built := none
    submitted := none }

/-- The tail shared by `approveToken` and `swapToken`: `txStats.pending++`,
the call of `sendAndConfirmTransaction`, and the return of the transaction hash
of the receipt, or of `null`. -/
def submitResult (startTime : Int) (attempts : Nat → Attempt) (txParams : TxParams)
    (txStats : TxStats) : CallResult :=
  let r := submit startTime attempts txParams txStats
  { returned := r.returned.map Receipt.transactionHash
    txStats := r.final.txStats
    history := [{ txStats with pending := txStats.pending + 1 }, r.final.txStats]
    built := some txParams
    submitted := some r }

/-- The function `approveToken(web3, privateKey, tokenAddress, spenderAddress,
ownerAddress, amountToApprove, ..., txStats)`. The test
`parseFloat(fromWei(balance)) < 0.001` is the test `balance < 10^15` on the
balance in wei. Log and panel output is left out. -/
def approveToken (tokenAddress spenderAddress ownerAddress : String) (amountToApprove : ℚ)
    (ans : ApproveAnswers) (txStats : TxStats) : CallResult :=
  match ans.getBalance with
  | Except.error _ => caughtResult txStats
  | Except.ok balance =>
    if balance < 10 ^ 15 then
      failedResult txStats
    else
      match ans.decimals with
      | Except.error _ => caughtResult txStats
      | Except.ok decimals =>
        match ans.amountWei amountToApprove decimals with
        | Except.error _ => caughtResult txStats
        | Except.ok amountWeiToApprove =>
          match ans.allowance with
          | Except.error _ => caughtResult txStats
          | Except.ok currentAllowance =>
            match ans.balanceOf with
            | Except.error _ => caughtResult txStats
            | Except.ok tokenBalance =>
              match approvalDecision tokenBalance currentAllowance amountWeiToApprove with
              | AllowanceDecision.insufficientBalance => failedResult txStats
              | AllowanceDecision.sufficient =>
                { returned := some "ALREADY_APPROVED", txStats := txStats, history := [],
                  built := none, submitted := none }
              | AllowanceDecision.needsApproval =>
                match ans.getGasPrice with
                | Except.error _ => caughtResult txStats
                | Except.ok gasPrice =>
                  match ans.encodeABI spenderAddress amountWeiToApprove with
                  | Except.error _ => caughtResult txStats
                  | Except.ok data =>
                    submitResult ans.startTime ans.attempts
                      { from_ := ownerAddress, to_ := tokenAddress, gas := 3000000,
                        gasPrice := gasPrice, data := data, chainId := none, nonce := none }
                      txStats

/-- The argument array of `swapRouter.methods.exactInputSingle`. -/
structure ExactInputSingle where
  tokenIn : String
  tokenOut : String
  fee : Nat
  recipient : String
  amountIn : Int
  amountOutMinimum : Int
  sqrtPriceLimitX96 : Nat
  deriving DecidableEq, Repr

/-- What the chain and the libraries answer during one call of `swapToken`, in
the order the code asks: the account of the private key, the decimals of the
input token, the conversions
`BigInt(Math.floor(amountIn * (10 ** tokenInDecimals)))` and
`BigInt(Math.floor(amountIn * slippageTolerance * (10 ** tokenInDecimals)))`
(double arithmetic, left abstract), the balances of the input and of the
output token, the gas price, the encoding of the router call, the chain id, and
the answers to the submission. -/
structure SwapAnswers where
  privateKeyToAccount : Except String String
  decimals : Except String Nat
  amountInWei : ℚ → Nat → Except String Int
  amountOutMinimum : ℚ → Nat → Except String Int
  balanceOfIn : Except String Int
  balanceOfOut : Except String Int
  getGasPrice : Except String Nat
  encodeABI : ExactInputSingle → Except String String
  getChainId : Except String Nat
  startTime : Int
  attempts : Nat → Attempt

/-- The address of the router, `swapRouterAddress` in `swapToken` and
`spenderAddress` in `runSwapping`. -/
def swapRouterAddress : String := "0x6aac14f090a35eea150705f72d90e4cdc4a49b2c"

/-- The function `swapToken(web3, privateKey, tokenIn, tokenOut, amountIn,
recipient, ..., txStats)`. Log and panel output is left out. -/
def swapToken (tokenIn tokenOut : String) (amountIn : ℚ) (recipient : String)
    (ans : SwapAnswers) (txStats : TxStats) : CallResult :=
  match ans.privateKeyToAccount with
  | Except.error _ => caughtResult txStats
  | Except.ok address =>
    match ans.decimals with
    | Except.error _ => caughtResult txStats
    | Except.ok tokenInDecimals =>
      match ans.amountInWei amountIn tokenInDecimals with
      | Except.error _ => caughtResult txStats
      | Except.ok amountInWei =>
        match ans.amountOutMinimum amountIn tokenInDecimals with
        | Except.error _ => caughtResult txStats
        | Except.ok amountOutMinimum =>
          match ans.balanceOfIn with
          | Except.error _ => caughtResult txStats
          | Except.ok tokenInBalance =>
            match ans.balanceOfOut with
            | Except.error _ => caughtResult txStats
            | Except.ok _ =>
              if tokenInBalance < amountInWei then
                failedResult txStats
              else
                match ans.getGasPrice with
                | Except.error _ => caughtResult txStats
                | Except.ok gasPrice =>
                  match ans.encodeABI
                      { tokenIn := tokenIn, tokenOut := tokenOut, fee := 500,
                        recipient := recipient, amountIn := amountInWei,
                        amountOutMinimum := amountOutMinimum, sqrtPriceLimitX96 := 0 } with
                  | Except.error _ => caughtResult txStats
                  | Except.ok data =>
                    match ans.getChainId with
                    | Except.error _ => caughtResult txStats
                    | Except.ok chainId =>
                      submitResult ans.startTime ans.attempts
                        { from_ := address, to_ := swapRouterAddress, gas := 3000000,
                          gasPrice := gasPrice, data := data, chainId := some chainId,
                          nonce := none }
                        txStats

/-! ## `runSwapping` -/

/-- What is answered while `runSwapping` processes one wallet: the account of
the private key, the answers to `approveToken`, the answers to the successive
calls of `swapToken`, and the draws of `Math.random()` for the pause after each
swap and for the pause after the wallet. -/
structure WalletAnswers where
  privateKeyToAccount : Except String String
  approve : ApproveAnswers
  swaps : Nat → SwapAnswers
  swapPause : Nat → ℚ
  walletPause : ℚ

/-- What is answered during one run of `runSwapping`: the keys as loaded by
`loadPrivateKeys` and shuffled (or the message of the error thrown), the two
values obtained from `requestInput`, the outcome of `connectWeb3`, and the
answers for the wallets in the order they are processed. -/
structure RunAnswers where
  privateKeys : Except String (List String)
  amount : Except String ℚ
  swapTimes : Except String ℚ
  connectWeb3 : Except String Unit
  wallets : Nat → WalletAnswers

/-- The two places where `runSwapping` pauses: after a swap that is not the
last one of its wallet, and after a wallet that is not the last one. -/
inductive Pause where
  | betweenSwaps
  | betweenWallets
  deriving DecidableEq, Repr

/-- The steps of a run, in order: a call of `approveToken` for a wallet (with
the amount asked for), a call of `swapToken` for a wallet (with the loop
counter `swapIter`), and a pause in seconds, with the place where it is made.
Wallets are numbered from 0. -/
inductive Op where
  | approve (wallet : Nat) (amountToApprove : ℚ) (result : CallResult)
  | swap (wallet : Nat) (swapIter : Nat) (result : CallResult)
  | pause (kind : Pause) (seconds : Int)
  deriving DecidableEq

/-- The variables of `runSwapping` that change while wallets are processed:
`txStats`, `successfulSwaps`, the successive values of `txStats`, the steps
made, and the message of an error thrown out of the loop. -/
structure RunState where
  txStats : TxStats
  successfulSwaps : Nat
  history : List TxStats
  ops : List Op
  thrown : Option String
  deriving DecidableEq

/-- JavaScript truthiness of a value that is `null` or a string. -/
def truthy : Option String → Bool
  | none => false
  | some s => s ≠ ""

/-- The token addresses fixed in `runSwapping`. -/
def tokenIn : String := "0x9beaA0016c22B646Ac311Ab171270B0ECf23098F"

/-- The token addresses fixed in `runSwapping`. -/
def tokenOut : String := "0x33E7fAB0a8a5da1A923180989bD617c9c2D1C493"

/-- The body of the inner loop of `runSwapping`: one call of `swapToken`, the
count of truthy results, and the pause unless this was the last swap. -/
def swapStep (amount swapTimes : ℚ) (wallet : Nat) (ownerAddress : String)
    (w : WalletAnswers) (swapIter : Nat) (st : RunState) : RunState :=
  let r := swapToken tokenIn tokenOut amount ownerAddress (w.swaps swapIter) st.txStats
  let st : RunState :=
    { st with
      txStats := r.txStats
      successfulSwaps := if truthy r.returned then st.successfulSwaps + 1 else st.successfulSwaps
      history := st.history ++ r.history
      ops := st.ops ++ [Op.swap wallet swapIter r] }
  if (swapIter : ℚ) < swapTimes - 1 then
    { st with
      ops := st.ops ++ [Op.pause Pause.betweenSwaps (getRandomInt (w.swapPause swapIter) 1 5)] }
  else
    st

/-- The inner loop `for (let swapIter = 0; swapIter < swapTimes; swapIter++)`,
entered at `swapIter`. -/
def swapLoop (amount swapTimes : ℚ) (wallet : Nat) (ownerAddress : String)
    (w : WalletAnswers) (swapIter : Nat) (st : RunState) : RunState :=
  if _h : (swapIter : ℚ) < swapTimes then
    swapLoop amount swapTimes wallet ownerAddress w (swapIter + 1)
      (swapStep amount swapTimes wallet ownerAddress w swapIter st)
  else
    st
termination_by ⌈swapTimes⌉₊ - swapIter
decreasing_by
  have hlt : swapIter < ⌈swapTimes⌉₊ := Nat.lt_ceil.mpr _h
  omega

/-- The outer loop `for (let i = 0; i < privateKeys.length; i++)`, entered at
`i` with the keys from `i` on still to process; `total` is
`privateKeys.length`. An error thrown by `privateKeyToAccount` leaves the
loop. -/
def walletLoop (amount swapTimes : ℚ) (wallets : Nat → WalletAnswers) (total : Nat) :
    Nat → List String → RunState → RunState
  | _, [], st => st
  | i, _ :: rest, st =>
    match (wallets i).privateKeyToAccount with
    | Except.error message => { st with thrown := some message }
    | Except.ok ownerAddress =>
      let r := approveToken tokenIn swapRouterAddress ownerAddress (amount * swapTimes)
        (wallets i).approve st.txStats
      let st : RunState :=
        { st with
          txStats := r.txStats
          history := st.history ++ r.history
          ops := st.ops ++ [Op.approve i (amount * swapTimes) r] }
      match r.returned with
      | none => walletLoop amount swapTimes wallets total (i + 1) rest st
      | some _ =>
        let st := swapLoop amount swapTimes i ownerAddress (wallets i) 0 st
        let st : RunState :=
          if i + 1 < total then
            { st with
              ops := st.ops ++
                [Op.pause Pause.betweenWallets (getRandomInt (wallets i).walletPause 30 90)] }
          else
            st
        walletLoop amount swapTimes wallets total (i + 1) rest st

/-- What a run of `runSwapping` leaves behind: `txStats` if the run got as far
as creating it, `successfulSwaps`, the successive values of `txStats`, the
steps made, and the message of the error handled by the final `catch`, if
any. The promise always resolves. -/
structure RunResult where
  txStats : Option TxStats
  successfulSwaps : Nat
  history : List TxStats
  ops : List Op
  caught : Option String
  deriving DecidableEq

/-- A run that ends before `txStats` is created. -/
def earlyExit (caught : Option String) : RunResult :=
  { txStats := none, successfulSwaps := 0, history := [], ops := [], caught := caught }

/-- The function `runSwapping`, from the loading of the keys on. Log and panel
output is left out. -/
def runSwapping (ans : RunAnswers) : RunResult :=
  match ans.privateKeys with
  | Except.error message => earlyExit (some message)
  | Except.ok privateKeys =>
    if privateKeys.length = 0 then
      earlyExit none
    else
      match ans.amount with
      | Except.error message => earlyExit (some message)
      | Except.ok amount =>
        match ans.swapTimes with
        | Except.error message => earlyExit (some message)
        | Except.ok swapTimes =>
          match ans.connectWeb3 with
          | Except.error message => earlyExit (some message)
          | Except.ok _ =>
            let st := walletLoop amount swapTimes ans.wallets privateKeys.length 0 privateKeys
              { txStats := { success := 0, failed := 0, pending := 0, times := [] }
                successfulSwaps := 0, history := [], ops := [], thrown := none }
            { txStats := some st.txStats
              successfulSwaps := st.successfulSwaps
              history := st.history
              ops := st.ops
              caught := st.thrown }

/-! ## Vocabulary for the statements about `approveToken`, `swapToken` and `runSwapping` -/

/-- The decision `approveToken` reaches with the answers `ans`, when it reaches
one: the native balance is read and is at least `10^15` wei, and the decimals,
the amount in wei, the allowance and the token balance are all obtained. -/
def ApproveAnswers.decision (ans : ApproveAnswers) (amountToApprove : ℚ) :
    Option AllowanceDecision :=
  match ans.getBalance, ans.decimals with
  | Except.ok balance, Except.ok decimals =>
    match ans.amountWei amountToApprove decimals, ans.allowance, ans.balanceOf with
    | Except.ok amountWeiToApprove, Except.ok currentAllowance, Except.ok tokenBalance =>
      if balance < 10 ^ 15 then none
      else some (approvalDecision tokenBalance currentAllowance amountWeiToApprove)
    | _, _, _ => none
  | _, _ => none

/-- The first pass of a submission obtains a receipt with truthy status. -/
def FirstAttemptSucceeds (attempts : Nat → Attempt) : Prop :=
  ∃ receipt, (attempts 0).receipt = some receipt ∧ receipt.status = true

/-- The answers to a call of `approveToken` in a run where every check passes
and every submission succeeds at once: a decision is reached, it is not
`insufficientBalance`, and when an approval is needed the gas price and the
encoding are obtained and the first attempt succeeds. -/
def ApproveAnswers.allPass (ans : ApproveAnswers) (spenderAddress : String)
    (amountToApprove : ℚ) : Prop :=
  ans.decision amountToApprove = some AllowanceDecision.sufficient ∨
  (ans.decision amountToApprove = some AllowanceDecision.needsApproval ∧
    (∃ gasPrice, ans.getGasPrice = Except.ok gasPrice) ∧
    (∀ amount, ∃ data, ans.encodeABI spenderAddress amount = Except.ok data) ∧
    FirstAttemptSucceeds ans.attempts)

/-- The answers to a call of `swapToken` in a run where every check passes and
every submission succeeds at once. -/
def SwapAnswers.allPass (ans : SwapAnswers) (amountIn : ℚ) : Prop :=
  ∃ address decimals amountInWei amountOutMinimum tokenInBalance tokenOutBalance gasPrice chainId,
    ans.privateKeyToAccount = Except.ok address ∧
    ans.decimals = Except.ok decimals ∧
    ans.amountInWei amountIn decimals = Except.ok amountInWei ∧
    ans.amountOutMinimum amountIn decimals = Except.ok amountOutMinimum ∧
    ans.balanceOfIn = Except.ok tokenInBalance ∧
    ans.balanceOfOut = Except.ok tokenOutBalance ∧
    amountInWei ≤ tokenInBalance ∧
    ans.getGasPrice = Except.ok gasPrice ∧
    (∀ call, ∃ data, ans.encodeABI call = Except.ok data) ∧
    ans.getChainId = Except.ok chainId ∧
    FirstAttemptSucceeds ans.attempts

/-- The answers for a wallet in a run with `k` swaps per wallet where every
check passes and every submission succeeds at once. -/
def WalletAnswers.allPass (w : WalletAnswers) (amount : ℚ) (k : Nat) : Prop :=
  (∃ ownerAddress, w.privateKeyToAccount = Except.ok ownerAddress) ∧
  w.approve.allPass swapRouterAddress (amount * k) ∧
  ∀ j, j < k → (w.swaps j).allPass amount

/-- Number of wallets among the first `total` that take the path on which the
approval is skipped because the allowance is already sufficient. -/
def skippedApprovals (wallets : Nat → WalletAnswers) (amountToApprove : ℚ) (total : Nat) : Nat :=
  (List.range total).countP
    (fun i => (wallets i).approve.decision amountToApprove = some AllowanceDecision.sufficient)

/-- A call keeps `pending`: it ends with the value it started with, and no
value taken in between is lower. -/
def KeepsPending (txStats : TxStats) (r : CallResult) : Prop :=
  r.txStats.pending = txStats.pending ∧ ∀ h ∈ r.history, txStats.pending ≤ h.pending

/-- The invariant of a run: nothing is pending between two calls, and
`pending` has never been negative. -/
def RunInv (st : RunState) : Prop :=
  st.txStats.pending = 0 ∧ ∀ h ∈ st.history, 0 ≤ h.pending

/-- Answers to `approveToken` for an owner with gas, 1000 tokens, and an
allowance of 500 tokens, asked to approve 1000 tokens; the approval goes
through at once. -/
def approveNeeded : ApproveAnswers :=
  { getBalance := Except.ok (2 * 10 ^ 18)
    decimals := Except.ok 18
    amountWei := fun _ _ => Except.ok (1000 * 10 ^ 18)
    allowance := Except.ok (500 * 10 ^ 18)
    balanceOf := Except.ok (1000 * 10 ^ 18)
    getGasPrice := Except.ok 6000000000
    encodeABI := fun _ _ => Except.ok "0x095ea7b3"
    startTime := 1700000000000
    attempts := fun _ => confirmed }

/-- The same owner with an allowance of 1000 tokens. -/
def approveSufficient : ApproveAnswers :=
  { approveNeeded with allowance := Except.ok (1000 * 10 ^ 18) }

/-- Answers to `swapToken` for a wallet holding 40 input tokens, asked to swap
100. -/
def swapShort : SwapAnswers :=
  { privateKeyToAccount := Except.ok "0x52908400098527886E0F7030069857D2E4169EE7"
    decimals := Except.ok 18
    amountInWei := fun _ _ => Except.ok (100 * 10 ^ 18)
    amountOutMinimum := fun _ _ => Except.ok (95 * 10 ^ 18)
    balanceOfIn := Except.ok (40 * 10 ^ 18)
    balanceOfOut := Except.ok 0
    getGasPrice := Except.ok 6000000000
    encodeABI := fun _ => Except.ok "0x414bf389"
    getChainId := Except.ok 50312
    startTime := 1700000000000
    attempts := fun _ => confirmed }

/-- The same wallet holding 1000 input tokens. -/
def swapFunded : SwapAnswers :=
  { swapShort with balanceOfIn := Except.ok (1000 * 10 ^ 18) }

/-- The same wallet when the read of the balance of the output token is
rejected. -/
def swapShortUnread : SwapAnswers :=
  { swapShort with balanceOfOut := Except.error "CONNECTION ERROR: Couldn't connect to node" }

/-- Answers to `approveToken` for an owner with gas and 1000 tokens, with the
allowance given; the amount is converted as the code converts it. -/
def approveConverted (allowance : Int) : ApproveAnswers :=
  { approveNeeded with
    amountWei := fun amountToApprove decimals =>
      Except.ok (computeAmountInWei amountToApprove decimals)
    allowance := Except.ok allowance }

/-- Answers to the call of `swapToken` with loop counter `swapIter`, for a
wallet that started with 1000 input tokens and swaps 100 at a time; the
amounts are converted as the code converts them. -/
def swapConverted (swapIter : Nat) : SwapAnswers :=
  { swapFunded with
    amountInWei := fun amountIn decimals => Except.ok (computeAmountInWei amountIn decimals)
    amountOutMinimum := fun amountIn decimals =>
      Except.ok (computeAmountOutMinimum amountIn decimals)
    balanceOfIn := Except.ok ((1000 - 100 * (swapIter : Int)) * 10 ^ 18)
    balanceOfOut := Except.ok (97 * (swapIter : Int) * 10 ^ 18) }

/-- Answers for a wallet on which everything passes; with `skip` the allowance
already covers the amount. -/
def passingWallet (skip : Bool) : WalletAnswers :=
  { privateKeyToAccount := Except.ok "0x52908400098527886E0F7030069857D2E4169EE7"
    approve := approveConverted (if skip then 1000 * 10 ^ 18 else 0)
    swaps := swapConverted
    swapPause := fun _ => 1 / 2
    walletPause := 1 / 2 }

/-- A run over three wallets, two swaps of 100 tokens each, in which everything
passes and the first wallet skips the approval. -/
def passingRun : RunAnswers :=
  { privateKeys := Except.ok
      ["0x1111111111111111111111111111111111111111111111111111111111111111",
        "0x2222222222222222222222222222222222222222222222222222222222222222",
        "0x3333333333333333333333333333333333333333333333333333333333333333"]
    amount := Except.ok 100
    swapTimes := Except.ok 2
    connectWeb3 := Except.ok ()
    wallets := fun i => passingWallet (i == 0) }

/-- A run over one wallet on which everything passes, with 100 tokens per swap
and `1.5` entered as the number of swaps. -/
def fractionalRun : RunAnswers :=
  { privateKeys := Except.ok
      ["0x1111111111111111111111111111111111111111111111111111111111111111"]
    amount := Except.ok 100
    swapTimes := Except.ok (3 / 2)
    connectWeb3 := Except.ok ()
    wallets := fun _ => passingWallet false }

/-! ## Private keys -/

/-- The code points `String.prototype.trim` removes: the `WhiteSpace` and
`LineTerminator` productions of ECMAScript. -/
def isTrimmed (c : Char) : Bool :=
  c.toNat = 0x09 ∨ c.toNat = 0x0A ∨ c.toNat = 0x0B ∨ c.toNat = 0x0C ∨ c.toNat = 0x0D ∨
  c.toNat = 0x20 ∨ c.toNat = 0xA0 ∨ c.toNat = 0x1680 ∨
  (0x2000 ≤ c.toNat ∧ c.toNat ≤ 0x200A) ∨
  c.toNat = 0x2028 ∨ c.toNat = 0x2029 ∨ c.toNat = 0x202F ∨ c.toNat = 0x205F ∨
  c.toNat = 0x3000 ∨ c.toNat = 0xFEFF

/-- `String.prototype.trim`. -/
def trim (s : String) : String :=
  String.mk ((s.data.dropWhile isTrimmed).rdropWhile isTrimmed)

/-- `String.prototype.startsWith` on the character lists of two strings. -/
def startsWithList : List Char → List Char → Bool
  | _, [] => true
  | [], _ :: _ => false
  | c :: cs, p :: ps => c = p ∧ startsWithList cs ps

/-- `String.prototype.startsWith`. -/
def startsWith (s searchString : String) : Bool :=
  startsWithList s.data searchString.data

/-- The character class `[a-fA-F0-9]`. -/
def isHexChar (c : Char) : Bool :=
  (97 ≤ c.toNat ∧ c.toNat ≤ 102) ∨ (65 ≤ c.toNat ∧ c.toNat ≤ 70) ∨
  (48 ≤ c.toNat ∧ c.toNat ≤ 57)

/-- The test `/^[a-fA-F0-9]{64}$/.test(s)` on the characters of `s`. -/
def hex64Pattern (s : List Char) : Bool :=
  s.length = 64 ∧ s.all isHexChar

/-- The test `/^0x[a-fA-F0-9]{64}$/.test(s)` on the characters of `s`. -/
def zeroXHex64Pattern : List Char → Bool
  | '0' :: 'x' :: rest => hex64Pattern rest
  | _ => false

/-- The function `isValidPrivateKey` of `swapping.js`: the key with `0x` in
front when the trimmed argument is 64 hexadecimal characters with or without
`0x`, and `none` for the JavaScript `false`. -/
def isValidPrivateKey (key : String) : Option String :=
  if key = "" then none
  else
    let key := trim key
    if key = "" then none
    else
      let cleanKey : String := if startsWith key "0x" then String.mk (key.data.drop 2) else key
      let isValid := hex64Pattern cleanKey.data
      if isValid then (if startsWith key "0x" then some key else some ("0x" ++ cleanKey))
      else none

/-- The function `isValidPrivateKey` of `mintping.js` and `nftcollection.js`,
which answers with a boolean. -/
def MintPing.isValidPrivateKey (key : String) : Bool :=
  let key := trim key
  let key := if ¬ startsWith key "0x" then "0x" ++ key else key
  zeroXHex64Pattern key.data

/-- The lines logged by `loadPrivateKeys`, with the values that are
interpolated into them: the 1-based line number and the trimmed line. -/
inductive KeyLog where
  | checking
  | fileNotFound
  | content (content : String)
  | readFailed (message : String)
  | skipping (line : Nat) (key : String)
  | validKey (line : Nat) (validatedKey : String)
  | invalidKey (line : Nat) (key : String)
  | noValidKeys
  | loaded (count : Nat)
  deriving DecidableEq, Repr

/-- What the file system answers: whether `pvkey.txt` exists, and its content
or the message of the error `readFileSync` throws. -/
structure KeyFile where
  existsSync : Bool
  readFileSync : Except String String

/-- What a call of `loadPrivateKeys` leaves behind: the keys returned or the
message of the error thrown, the content written to `pvkey.txt` if the file was
written, and the lines logged. -/
structure Loaded where
  result : Except String (List String)
  written : Option String
  log : List KeyLog
  deriving DecidableEq

/-- The template written by `loadPrivateKeys`. -/
def keyFileTemplate : String :=
  "# Add private keys here, one per line\n# Example: 0x1234567890abcdef1234567890abcdef1234567890abcdef1234567890abcdef\n"

/-- The replacement `.replace(/\r\n/g, '\n')`. -/
def replaceCRLF : List Char → List Char
  | '\r' :: '\n' :: rest => '\n' :: replaceCRLF rest
  | c :: rest => c :: replaceCRLF rest
  | [] => []

/-- The replacement `.replace(/\r/g, '\n')`. -/
def replaceCR (s : List Char) : List Char :=
  s.map (fun c => if c = '\r' then '\n' else c)

/-- The call `.split('\n')`. -/
def splitLines (s : List Char) : List String :=
  (s.splitOn '\n').map String.mk

/-- The method `forEach` with a callback that takes the element and its index
and updates the variables `acc` it closes over. -/
def forEachLine {σ : Type} (callback : Nat → String → σ → σ) : Nat → List String → σ → σ
  | _, [], acc => acc
  | idx, line :: rest, acc => forEachLine callback (idx + 1) rest (callback idx line acc)

/-- The callback of `lines.forEach` in `loadPrivateKeys` of `swapping.js`; the
variables are `validKeys` and the log. -/
def checkLine (idx : Nat) (line : String) (acc : List String × List KeyLog) :
    List String × List KeyLog :=
  let key := trim line
  if key = "" ∨ startsWith key "#" then
    if key ≠ "" then (acc.1, acc.2 ++ [KeyLog.skipping (idx + 1) key]) else acc
  else
    match isValidPrivateKey key with
    | some validatedKey =>
      (acc.1 ++ [validatedKey], acc.2 ++ [KeyLog.validKey (idx + 1) validatedKey])
    | none => (acc.1, acc.2 ++ [KeyLog.invalidKey (idx + 1) key])

/-- The function `loadPrivateKeys` of `swapping.js`. -/
def loadPrivateKeys (file : KeyFile) : Loaded :=
  if ¬ file.existsSync then
    { result := Except.error "pvkey.txt file not found"
      written := some keyFileTemplate
      log := [KeyLog.checking, KeyLog.fileNotFound] }
  else
    match file.readFileSync with
    | Except.error message =>
      { result := Except.error "Failed to read pvkey.txt"
        written := none
        log := [KeyLog.checking, KeyLog.readFailed message] }
    | Except.ok raw =>
      let content := replaceCR (replaceCRLF raw.data)
      let lines := splitLines content
      let acc := forEachLine checkLine 0 lines
        ([], [KeyLog.checking, KeyLog.content (String.mk content)])
      if acc.1.length = 0 then
        { result := Except.error "No valid private keys found"
          written := none
          log := acc.2 ++ [KeyLog.noValidKeys] }
      else
        { result := Except.ok acc.1
          written := none
          log := acc.2 ++ [KeyLog.loaded acc.1.length] }

/-- The callback of `lines.forEach` in `loadPrivateKeys` of `mintping.js`. -/
def MintPing.checkLine (idx : Nat) (line : String) (acc : List String × List KeyLog) :
    List String × List KeyLog :=
  let key := trim line
  if key ≠ "" ∧ ¬ startsWith key "#" then
    if MintPing.isValidPrivateKey key then
      let key := if ¬ startsWith key "0x" then "0x" ++ key else key
      (acc.1 ++ [key], acc.2)
    else
      (acc.1, acc.2 ++ [KeyLog.invalidKey (idx + 1) key])
  else
    acc

/-- The function `loadPrivateKeys` of `mintping.js`; an error thrown by
`readFileSync` is not handled inside it. -/
def MintPing.loadPrivateKeys (file : KeyFile) : Loaded :=
  if ¬ file.existsSync then
    { result := Except.error "pvkey.txt file not found"
      written := some keyFileTemplate
      log := [KeyLog.fileNotFound] }
  else
    match file.readFileSync with
    | Except.error message => { result := Except.error message, written := none, log := [] }
    | Except.ok raw =>
      let lines := splitLines raw.data
      let acc := forEachLine MintPing.checkLine 0 lines ([], [])
      if acc.1.length = 0 then
        { result := Except.error "No valid private keys found"
          written := none
          log := acc.2 ++ [KeyLog.noValidKeys] }
      else
        { result := Except.ok acc.1, written := none, log := acc.2 }

/-! ## Vocabulary for the statements about keys -/

/-- A key in the words of the specification: exactly 64 hexadecimal
characters, optionally preceded by `0x`. The value is those 64 characters. -/
def hexBody (s : String) : Option (List Char) :=
  if s.data.length = 64 ∧ s.data.all isHexChar then some s.data
  else
    match s.data with
    | '0' :: 'x' :: body => if body.length = 64 ∧ body.all isHexChar then some body else none
    | _ => none

/-- The normalized key: `0x` followed by the 64 characters. -/
def normalizedKey (body : List Char) : String :=
  String.mk ('0' :: 'x' :: body)

/-- The key a line of the key file contributes: the line is trimmed, is then
not empty, does not start with `#`, and is a key. -/
def keyOfLine (line : String) : Option String :=
  if trim line = "" ∨ startsWith (trim line) "#" then none
  else (hexBody (trim line)).map normalizedKey

/-- A line of the key file that is skipped with a warning: trimmed, it is not
empty, does not start with `#`, and is not a key. -/
def isInvalidLine (line : String) : Bool :=
  trim line ≠ "" ∧ ¬ startsWith (trim line) "#" ∧ hexBody (trim line) = none

/-- The warnings owed to the lines numbered from `idx + 1` on. -/
def warningsOf : Nat → List String → List KeyLog
  | _, [] => []
  | idx, line :: rest =>
    (if isInvalidLine line then [KeyLog.invalidKey (idx + 1) (trim line)] else [])
      ++ warningsOf (idx + 1) rest

/-- A warning about an invalid line. -/
def KeyLog.isWarning : KeyLog → Bool
  | KeyLog.invalidKey _ _ => true
  | _ => false

/-- The lines of a key file as `loadPrivateKeys` of `swapping.js` sees them. -/
def fileLines (raw : String) : List String :=
  splitLines (replaceCR (replaceCRLF raw.data))

/-- A 64-character key. -/
def sampleKey : String :=
  "1234567890abcdef1234567890abcdef1234567890abcdef1234567890ABCDEF"

/-! ## Entry points and their sinks -/

/-- What an entry point calls to report progress: an argument it was given,
which may or may not be a function, or its own fallback to `console.log`. -/
inductive Callee where
  | argument (isFunction : Bool)
  | consoleFallback
  deriving DecidableEq, Repr

/-- A call `f(message)`: it returns, or throws a `TypeError` when `f` is an
argument that is not a function. -/
def Callee.call (name : String) : Callee → Except String Unit
  | Callee.argument true => Except.ok ()
  | Callee.argument false => Except.error (name ++ " is not a function")
  | Callee.consoleFallback => Except.ok ()

/-- The expression `typeof f === 'function' ? f : (msg) => console.log(msg.replace(...))`. -/
def withFallback (isFunction : Bool) : Callee :=
  if isFunction then Callee.argument isFunction else Callee.consoleFallback

/-- The statement `try { body } catch (err) { handler }` in an `async`
function: the promise resolves when the body completes or the handler does,
and rejects with what the handler throws. -/
def tryCatch (body : Except String Unit) (handler : String → Except String Unit) :
    Except String Unit :=
  match body with
  | Except.ok _ => Except.ok ()
  | Except.error message => handler message

/-- The entry point `runSwapping(addLog, updatePanel, …)`: the two sinks are
resolved, then everything runs inside `try`; `rest` is what follows the first
two outputs, an error being the message of what is thrown there. -/
def EntryPoint.runSwapping (addLog updatePanel : Bool) (rest : Except String Unit) :
    Except String Unit :=
  let log := withFallback addLog
  let panelUpdate := withFallback updatePanel
  tryCatch
    (do
      panelUpdate.call "panelUpdate"
      log.call "log"
      rest)
    (fun _ => do
      log.call "log"
      panelUpdate.call "panelUpdate")

/-- The entry point `runMintSusdt(updatePanel, addLog, …)`. -/
def EntryPoint.runMintSusdt (updatePanel addLog : Bool) (rest : Except String Unit) :
    Except String Unit :=
  let log := withFallback addLog
  let panelUpdate := withFallback updatePanel
  tryCatch
    (do
      panelUpdate.call "panelUpdate"
      log.call "log"
      rest)
    (fun _ => do
      log.call "log"
      panelUpdate.call "panelUpdate")

/-- The entry point `runMintPing(updatePanel, addLog, …)`, which calls its
arguments as they are. -/
def EntryPoint.runMintPing (updatePanel addLog : Bool) (rest : Except String Unit) :
    Except String Unit :=
  tryCatch
    (do
      (Callee.argument updatePanel).call "updatePanel"
      (Callee.argument addLog).call "addLog"
      rest)
    (fun _ => do
      (Callee.argument addLog).call "addLog"
      (Callee.argument updatePanel).call "updatePanel")

/-- The entry point `runNFTCollection(updatePanel, addLog, …)`, which calls its
arguments as they are. -/
def EntryPoint.runNFTCollection (updatePanel addLog : Bool) (rest : Except String Unit) :
    Except String Unit :=
  tryCatch
    (do
      (Callee.argument updatePanel).call "updatePanel"
      (Callee.argument addLog).call "addLog"
      rest)
    (fun _ => do
      (Callee.argument addLog).call "addLog"
      (Callee.argument updatePanel).call "updatePanel")

/-! ## The arguments of the entry points -/

/-- The two kinds of output of an entry point: a condensed message for the
panel, passed to `updatePanel` (or to its stand-in `panelUpdate`), and a
detailed message for the log, passed to `addLog` (or to its stand-in `log`). -/
inductive Channel where
  | panel
  | log
  deriving DecidableEq, Repr

/-- The two outputs that open the `try` block of `runSwapping(addLog,
updatePanel, closeUI, requestInput)`, each with the argument that receives it;
both arguments are functions. Every later output is bound the same way. -/
def EntryPoint.runSwappingOutput {α : Type} (addLog updatePanel : α) : List (α × Channel) :=
  let log := addLog
  let panelUpdate := updatePanel
  [(panelUpdate, Channel.panel), (log, Channel.log)]

/-- The two outputs that open the `try` block of `runMintSusdt(updatePanel,
addLog, closeUI, requestInput)`. -/
def EntryPoint.runMintSusdtOutput {α : Type} (updatePanel addLog : α) : List (α × Channel) :=
  let log := addLog
  let panelUpdate := updatePanel
  [(panelUpdate, Channel.panel), (log, Channel.log)]

/-- The two outputs that open the `try` block of `runMintPing(updatePanel,
addLog, closeUI, requestInput)`. -/
def EntryPoint.runMintPingOutput {α : Type} (updatePanel addLog : α) : List (α × Channel) :=
  [(updatePanel, Channel.panel), (addLog, Channel.log)]

/-- The two outputs that open the `try` block of `runNFTCollection(updatePanel,
addLog, closeUI, requestInput)`. -/
def EntryPoint.runNFTCollectionOutput {α : Type} (updatePanel addLog : α) :
    List (α × Channel) :=
  [(updatePanel, Channel.panel), (addLog, Channel.log)]

/-! ## The call data of the `$PING` mint -/

/-- The call `s.replace(pattern, "")` with a string pattern: the first
occurrence of the pattern is removed. -/
def removeFirst : List Char → List Char → List Char
  | [], _ => []
  | c :: cs, pattern =>
    if startsWithList (c :: cs) pattern then (c :: cs).drop pattern.length
    else c :: removeFirst cs pattern

/-- The function `bytecodeMintPongPing` of `mintping.js`. -/
def MintPing.bytecodeMintPongPing (address : String) : String :=
  let addressClean := toLowerCase (String.mk (removeFirst address.data "0x".data))
  "0x1249c58b000000000000000000000000" ++ addressClean
    ++ "00000000000000000000000000000000000000000000003635c9adc5dea00000"

/-- The hexadecimal digit of a number below 16, in lower case. -/
def hexDigit (n : Nat) : Char :=
  if n < 10 then Char.ofNat (48 + n) else Char.ofNat (87 + n)

/-- The big-endian encoding of `n` in `width` hexadecimal digits. -/
def hexEncode : Nat → Nat → List Char
  | 0, _ => []
  | width + 1, n => hexEncode width (n / 16) ++ [hexDigit (n % 16)]

/-- A lower-case hexadecimal digit. -/
def isLowerHexChar (c : Char) : Bool :=
  (97 ≤ c.toNat ∧ c.toNat ≤ 102) ∨ (48 ≤ c.toNat ∧ c.toNat ≤ 57)

/-! ## The other copies of the key validator -/

/-- The function `isValidPrivateKey` of `mintsusdt.js`. -/
def MintSusdt.isValidPrivateKey (key : String) : Bool :=
  let key := trim key
  let key := if ¬ startsWith key "0x" then "0x" ++ key else key
  zeroXHex64Pattern key.data

/-- The function `isValidPrivateKey` of `nftcollection.js`. -/
def NFTCollection.isValidPrivateKey (key : String) : Bool :=
  let key := trim key
  let key := if ¬ startsWith key "0x" then "0x" ++ key else key
  zeroXHex64Pattern key.data

/-- The callback of `lines.forEach` in `loadPrivateKeys` of `mintsusdt.js`,
which stores the line number with the key. -/
def MintSusdt.checkLine (idx : Nat) (line : String)
    (acc : List (Nat × String) × List KeyLog) : List (Nat × String) × List KeyLog :=
  let key := trim line
  if key ≠ "" ∧ ¬ startsWith key "#" then
    if MintSusdt.isValidPrivateKey key then
      let key := if ¬ startsWith key "0x" then "0x" ++ key else key
      (acc.1 ++ [(idx + 1, key)], acc.2 ++ [KeyLog.validKey (idx + 1) key])
    else
      (acc.1, acc.2 ++ [KeyLog.invalidKey (idx + 1) key])
  else
    acc

/-- The callback of `lines.forEach` in `loadPrivateKeys` of
`nftcollection.js`, which stores the line number with the key. -/
def NFTCollection.checkLine (idx : Nat) (line : String)
    (acc : List (Nat × String) × List KeyLog) : List (Nat × String) × List KeyLog :=
  let key := trim line
  if key ≠ "" ∧ ¬ startsWith key "#" then
    if NFTCollection.isValidPrivateKey key then
      let key := if ¬ startsWith key "0x" then "0x" ++ key else key
      (acc.1 ++ [(idx + 1, key)], acc.2)
    else
      (acc.1, acc.2 ++ [KeyLog.invalidKey (idx + 1) key])
  else
    acc

/-! ## Shuffling the wallets -/

/-- The function `shuffleWallets` of `swapping.js`: every key is paired with a
draw of `Math.random()`, the draws being made in the order of the keys; the
pairs are sorted by `(a, b) => a.sort - b.sort`; the keys are read off. The
array sorted is the one `map` has just created. `Array.prototype.sort` is
stable, and the stable sort of a list by a total preorder is unique, so the
way it sorts does not matter. -/
def shuffleWallets (keys : List String) (random : Nat → ℚ) : List String :=
  ((keys.enum.map (fun p => (p.2, random p.1))).insertionSort
    (fun a b => a.2 ≤ b.2)).map Prod.fst

/-- The function `shuffleWallets` of `mintping.js`. -/
def MintPing.shuffleWallets (keys : List String) (random : Nat → ℚ) : List String :=
  ((keys.enum.map (fun p => (p.2, random p.1))).insertionSort
    (fun a b => a.2 ≤ b.2)).map Prod.fst

/-! ## Vocabulary for the statements about the order of a run -/

/-- What a step of a run is for one wallet: its approval, with whether
`approveToken` returned `null`, or one of its swaps, with the loop counter. -/
inductive WalletStep where
  | approval (returnedNull : Bool)
  | swap (swapIter : Nat)
  deriving DecidableEq, Repr

/-- The step of wallet `i` a step of the run is, if it is one. -/
def Op.stepOf (i : Nat) : Op → Option WalletStep
  | Op.approve wallet _ result =>
    if wallet = i then some (WalletStep.approval result.returned.isNone) else none
  | Op.swap wallet swapIter _ => if wallet = i then some (WalletStep.swap swapIter) else none
  | Op.pause _ _ => none

/-- A call of `swapToken`. -/
def Op.isSwap : Op → Bool
  | Op.swap _ _ _ => true
  | _ => false

/-- The pauses of a run are those the code draws: 1 to 5 seconds between two
swaps, 30 to 90 seconds between two wallets. -/
def Op.pauseInRange : Op → Prop
  | Op.pause Pause.betweenSwaps seconds => 1 ≤ seconds ∧ seconds ≤ 5
  | Op.pause Pause.betweenWallets seconds => 30 ≤ seconds ∧ seconds ≤ 90
  | _ => True

/-- The statistics agree with each other: one elapsed time per success. -/
def TxStats.timesMatch (txStats : TxStats) : Prop :=
  (txStats.times.length : Int) = txStats.success

/-- A call keeps the elapsed times in step with the successes and never lowers
`success`. -/
def KeepsTimes (txStats : TxStats) (r : CallResult) : Prop :=
  (txStats.timesMatch → r.txStats.timesMatch ∧ ∀ h ∈ r.history, h.timesMatch) ∧
  txStats.success ≤ r.txStats.success

/-- The invariant of a run for the counters of successes: one elapsed time per
success, now and at every earlier value of `txStats`; no more successful
swaps counted than successes; no more than calls of `swapToken` made. -/
def TimesInv (st : RunState) : Prop :=
  st.txStats.timesMatch ∧ (∀ h ∈ st.history, h.timesMatch) ∧
  (st.successfulSwaps : Int) ≤ st.txStats.success ∧
  st.successfulSwaps ≤ st.ops.countP Op.isSwap

/-- Answers to `approveToken` for an owner with gas and 150 tokens, asked to
approve 200 tokens. -/
def approveUnderfunded : ApproveAnswers :=
  { approveNeeded with
    amountWei := fun _ _ => Except.ok (200 * 10 ^ 18)
    balanceOf := Except.ok (150 * 10 ^ 18) }

/-- Answers for a wallet that holds 150 tokens, enough for one swap of 100. -/
def underfundedWallet : WalletAnswers :=
  { passingWallet false with approve := approveUnderfunded }

/-- Answers to `swapToken` when the call of `decimals()` is rejected. -/
def swapUnreachable : SwapAnswers :=
  { swapFunded with decimals := Except.error "CONNECTION ERROR: Couldn't connect to node" }

/-! ## The `NFTCollection` contract -/

/-- The value `type(uint256).max`. -/
def uint256Max : Nat := 2 ^ 256 - 1

/-- The value a list of writes, the latest first, leaves at a key; a key never
written holds the default, 0. -/
def lookupEntry : List (Nat × Nat) → Nat → Nat
  | [], _ => 0
  | (k, v) :: rest, key => if key = k then v else lookupEntry rest key

/-- A Solidity `mapping` from `uint256` or `address` to `uint256` or `address`,
as the writes made to it, the latest first. Addresses are numbers;
`address(0)` is 0. -/
structure Mapping where
  entries : List (Nat × Nat)
  deriving DecidableEq, Repr

/-- The read `m[key]`. -/
def Mapping.get (m : Mapping) (key : Nat) : Nat :=
  lookupEntry m.entries key

/-- The write `m[key] = value`; `delete m[key]` is the write of 0. -/
def Mapping.set (m : Mapping) (key value : Nat) : Mapping :=
  { entries := (key, value) :: m.entries }

/-- The keys of a mapping that hold a value other than 0. -/
def Mapping.support (m : Mapping) : Finset Nat :=
  (m.entries.map Prod.fst).toFinset.filter (fun key => m.get key ≠ 0)

/-- The storage of the contract `NFTCollection` of `NFT_CONTRACT_SOURCE`:
`owner`, `maxSupply`, `totalSupply`, `_owners` and `_balances`. The strings
`name`, `symbol` and `_tokenURIs` and the events are left out; no `require`
reads them. -/
structure NFTCollection.Storage where
  owner : Nat
  maxSupply : Nat
  totalSupply : Nat
  owners : Mapping
  balances : Mapping
  deriving DecidableEq, Repr

/-- The constructor, called by `sender` with `_maxSupply`. -/
def NFTCollection.deploy (sender maxSupply : Nat) : NFTCollection.Storage :=
  { owner := sender
    maxSupply := maxSupply
    totalSupply := 99
    owners := { entries := [] }
    balances := { entries := [] } }

/-- The function `mint(to, tokenId, tokenURI)` called by `sender`: the new
storage, or the reason of the revert. Under `pragma solidity ^0.8.19` the
increments `_balances[to]++` and `totalSupply++` revert on overflow. -/
def NFTCollection.mint (sender to_ tokenId : Nat) (c : NFTCollection.Storage) :
    Except String NFTCollection.Storage :=
  if sender ≠ c.owner then Except.error "Not the contract owner"
  else if to_ = 0 then Except.error "Cannot mint to zero address"
  else if c.owners.get tokenId ≠ 0 then Except.error "Token already exists"
  else if ¬ c.totalSupply < c.maxSupply then Except.error "Maximum supply reached"
  else if c.balances.get to_ = uint256Max then Except.error "Panic(0x11)"
  else if c.totalSupply = uint256Max then Except.error "Panic(0x11)"
  else
    Except.ok
      { c with
        owners := c.owners.set tokenId to_
        balances := c.balances.set to_ (c.balances.get to_ + 1)
        totalSupply := c.totalSupply + 1 }

/-- The function `burn(tokenId)` called by `sender`: the new storage, or the
reason of the revert. The decrements `_balances[tokenOwner]--` and
`totalSupply--` revert on underflow. -/
def NFTCollection.burn (sender tokenId : Nat) (c : NFTCollection.Storage) :
    Except String NFTCollection.Storage :=
  if c.owners.get tokenId = 0 then Except.error "Token doesn't exist"
  else
    let tokenOwner := c.owners.get tokenId
    if ¬ (sender = tokenOwner ∨ sender = c.owner) then Except.error "Not authorized to burn"
    else if c.balances.get tokenOwner = 0 then Except.error "Panic(0x11)"
    else if c.totalSupply = 0 then Except.error "Panic(0x11)"
    else
      Except.ok
        { c with
          owners := c.owners.set tokenId 0
          balances := c.balances.set tokenOwner (c.balances.get tokenOwner - 1)
          totalSupply := c.totalSupply - 1 }

/-- A transaction sent to the contract. -/
inductive NFTCollection.Call where
  | mint (sender to_ tokenId : Nat)
  | burn (sender tokenId : Nat)
  deriving DecidableEq, Repr

/-- The storage after a transaction: a call that reverts leaves it as it
was. -/
def NFTCollection.call (c : NFTCollection.Storage) : NFTCollection.Call → NFTCollection.Storage
  | NFTCollection.Call.mint sender to_ tokenId =>
    match NFTCollection.mint sender to_ tokenId c with
    | Except.ok c' => c'
    | Except.error _ => c
  | NFTCollection.Call.burn sender tokenId =>
    match NFTCollection.burn sender tokenId c with
    | Except.ok c' => c'
    | Except.error _ => c

/-- The storage after a sequence of transactions. -/
def NFTCollection.run (c : NFTCollection.Storage) (calls : List NFTCollection.Call) :
    NFTCollection.Storage :=
  calls.foldl NFTCollection.call c

/-- The token ids that currently have an owner. -/
def NFTCollection.existing (c : NFTCollection.Storage) : Finset Nat :=
  c.owners.support

/-! ## Unfolding the loop -/

theorem sendLoop_eq (startTime : Int) (attempts : Nat → Attempt) (st : LoopState) :
    sendLoop startTime attempts st =
      if st.retryCount < maxRetries then
        match loopBody startTime (attempts 0) st with
        | Step.done result => result
        | Step.again st' => sendLoop startTime (fun i => attempts (i + 1)) st'
      else afterLoop st := by
  rw [sendLoop]
  split
  · split <;> rename_i h <;> simp [h]
  · rfl

/-- A pass that goes back to the loop test has incremented `retryCount` and
left the statistics alone. -/
theorem loopBody_again {startTime : Int} {a : Attempt} {st st' : LoopState}
    (h : loopBody startTime a st = Step.again st') :
    st'.retryCount = st.retryCount + 1 ∧ st'.txStats = st.txStats := by
  unfold loopBody catchBlock at h
  repeat' split at h
  all_goals (first | (cases h; exact ⟨rfl, rfl⟩) | cases h)

/-- A pass that returns has recorded a failure and returns `null`, or has
recorded a success with the elapsed time and returns the receipt. -/
theorem loopBody_done {startTime : Int} {a : Attempt} {st : LoopState} {r : Result}
    (h : loopBody startTime a st = Step.done r) :
    (r.returned = none ∧ r.final.txStats = st.txStats.recordFailure) ∨
    (∃ receipt, a.receipt = some receipt ∧ receipt.status = true ∧ r.returned = some receipt ∧
      r.final.txStats = st.txStats.recordSuccess (a.now - startTime)) := by
  unfold loopBody catchBlock at h
  repeat' split at h
  all_goals first
    | (cases h; left; exact ⟨rfl, rfl⟩)
    | (cases h; right; exact ⟨_, by simp [Attempt.receipt, *], by assumption, rfl, rfl⟩)
    | cases h

/-- Induction along the passes of the loop. -/
theorem sendLoop_induction (startTime : Int)
    (P : (Nat → Attempt) → LoopState → Result → Prop)
    (hexit : ∀ a st, ¬ st.retryCount < maxRetries → P a st (afterLoop st))
    (hdone : ∀ a st r, st.retryCount < maxRetries →
      loopBody startTime (a 0) st = Step.done r → P a st r)
    (hagain : ∀ a st st', st.retryCount < maxRetries →
      loopBody startTime (a 0) st = Step.again st' →
      P (fun i => a (i + 1)) st' (sendLoop startTime (fun i => a (i + 1)) st') →
      P a st (sendLoop startTime (fun i => a (i + 1)) st')) :
    ∀ a st, P a st (sendLoop startTime a st) := by
  intro a st
  generalize hn : maxRetries - st.retryCount = n
  induction n using Nat.strong_induction_on generalizing a st with
  | _ n ih =>
    rw [sendLoop_eq]
    split
    · rename_i hlt
      split
      · rename_i r hr
        exact hdone a st r hlt hr
      · rename_i st' hr
        apply hagain a st st' hlt hr
        apply ih (maxRetries - st'.retryCount) _ _ _ rfl
        have := (loopBody_again hr).1
        omega
    · rename_i hlt
      exact hexit a st hlt

/-- Whatever the network answers, the loop records exactly one terminal
outcome. -/
theorem sendLoop_stats (startTime : Int) (attempts : Nat → Attempt) (st : LoopState) :
    ((sendLoop startTime attempts st).returned = none ∧
      (sendLoop startTime attempts st).final.txStats = st.txStats.recordFailure) ∨
    (∃ receipt elapsed, receipt.status = true ∧
      (sendLoop startTime attempts st).returned = some receipt ∧
      (sendLoop startTime attempts st).final.txStats = st.txStats.recordSuccess elapsed) := by
  refine sendLoop_induction startTime
    (fun _ st r => (r.returned = none ∧ r.final.txStats = st.txStats.recordFailure) ∨
      (∃ receipt elapsed, receipt.status = true ∧ r.returned = some receipt ∧
        r.final.txStats = st.txStats.recordSuccess elapsed)) ?_ ?_ ?_ attempts st
  · intro a st _
    left
    exact ⟨rfl, rfl⟩
  · intro a st r _ hr
    rcases loopBody_done hr with h | ⟨receipt, _, hs, hret, hst⟩
    · left; exact h
    · right; exact ⟨receipt, _, hs, hret, hst⟩
  · intro a st st' _ hr ih
    rw [← (loopBody_again hr).2]
    exact ih

theorem attemptCount_append (l₁ l₂ : List Event) :
    attemptCount (l₁ ++ l₂) = attemptCount l₁ + attemptCount l₂ := by
  simp [attemptCount, List.countP_append]

theorem sleepCount_append (l₁ l₂ : List Event) :
    sleepCount (l₁ ++ l₂) = sleepCount l₁ + sleepCount l₂ := by
  simp [sleepCount, List.countP_append]

/-- A pass whose error is retried goes back to the loop test with the counter
incremented, the statistics untouched, one more nonce call and one more
back-off timer in the trace. -/
theorem loopBody_retryable (startTime : Int) {a : Attempt} (st : LoopState)
    (h : a.retryable) :
    ∃ st', loopBody startTime a st = Step.again st' ∧
      st'.retryCount = st.retryCount + 1 ∧ st'.txStats = st.txStats ∧
      st'.txParams.from_ = st.txParams.from_ ∧
      attemptCount st'.trace = attemptCount st.trace + 1 ∧
      sleepCount st'.trace = sleepCount st.trace + 1 ∧
      (a.reachesBroadcast → broadcastCount st'.trace = broadcastCount st.trace + 1) := by
  obtain ⟨message, hthrown, hclass⟩ := h
  unfold Attempt.thrown at hthrown
  rcases hg : a.getTransactionCount with m₁ | nonce <;> rw [hg] at hthrown
  · cases hthrown
    rcases hc : classifyError message <;>
      simp [loopBody, catchBlock, hg, hc, attemptCount, sleepCount, broadcastCount,
        Attempt.reachesBroadcast, List.countP_append, List.countP_cons, Event.isNonceCall,
        Event.isSleep, Event.isBroadcast] at hclass ⊢
  · rcases hs : a.signTransaction with m₂ | raw <;> rw [hs] at hthrown
    · cases hthrown
      rcases hc : classifyError message <;>
        simp [loopBody, catchBlock, hg, hs, hc, attemptCount, sleepCount, broadcastCount,
          Attempt.reachesBroadcast, List.countP_append, List.countP_cons, Event.isNonceCall,
          Event.isSleep, Event.isBroadcast] at hclass ⊢
    · rcases hb : a.sendSignedTransaction with m₃ | receipt <;> rw [hb] at hthrown
      · cases hthrown
        rcases hc : classifyError message <;>
          simp [loopBody, catchBlock, hg, hs, hb, hc, attemptCount, sleepCount, broadcastCount,
            Attempt.reachesBroadcast, List.countP_append, List.countP_cons, Event.isNonceCall,
            Event.isSleep, Event.isBroadcast] at hclass ⊢
      · cases hthrown

/-- A pass that obtains a receipt with truthy status returns it and records
the success with the time elapsed since `startTime`. -/
theorem loopBody_success (startTime : Int) {a : Attempt} (st : LoopState) {receipt : Receipt}
    (h : a.receipt = some receipt) (hstatus : receipt.status = true) :
    ∃ r, loopBody startTime a st = Step.done r ∧ r.returned = some receipt ∧
      r.final.txStats = st.txStats.recordSuccess (a.now - startTime) ∧
      r.final.retryCount = st.retryCount := by
  unfold Attempt.receipt at h
  rcases hg : a.getTransactionCount with m₁ | nonce <;> rw [hg] at h
  · cases h
  · rcases hs : a.signTransaction with m₂ | raw <;> rw [hs] at h
    · cases h
    · rcases hb : a.sendSignedTransaction with m₃ | rc <;> rw [hb] at h
      · cases h
      · cases h
        simp [loopBody, hg, hs, hb, hstatus, TxStats.recordSuccess]

/-- When the first `k` passes all throw retried errors and the counter allows
`k` more passes, the loop continues from pass `k` with the counter raised by
`k` and the statistics untouched. -/
theorem sendLoop_skip_retried (startTime : Int) (k : Nat) :
    ∀ (attempts : Nat → Attempt) (st : LoopState),
      st.retryCount + k ≤ maxRetries → (∀ i, i < k → (attempts i).retryable) →
      ∃ st', sendLoop startTime attempts st = sendLoop startTime (fun i => attempts (i + k)) st' ∧
        st'.retryCount = st.retryCount + k ∧ st'.txStats = st.txStats ∧
        st'.txParams.from_ = st.txParams.from_ ∧
        attemptCount st'.trace = attemptCount st.trace + k ∧
        sleepCount st'.trace = sleepCount st.trace + k ∧
        ((∀ i, i < k → (attempts i).reachesBroadcast) →
          broadcastCount st'.trace = broadcastCount st.trace + k) := by
  induction k with
  | zero =>
    intro attempts st _ _
    exact ⟨st, rfl, rfl, rfl, rfl, rfl, rfl, fun _ => rfl⟩
  | succ k ih =>
    intro attempts st hle hretry
    obtain ⟨st₁, hbody, hcount, hstats, hfrom, hatt, hsl, hbr⟩ :=
      loopBody_retryable startTime st (hretry 0 (Nat.succ_pos k))
    obtain ⟨st₂, hloop, hcount₂, hstats₂, hfrom₂, hatt₂, hsl₂, hbr₂⟩ :=
      ih (fun i => attempts (i + 1)) st₁ (by omega)
        (fun i hi => hretry (i + 1) (Nat.succ_lt_succ hi))
    refine ⟨st₂, ?_, by omega, by rw [hstats₂, hstats], by rw [hfrom₂, hfrom], by omega, by omega,
      fun hall => by
        have h₁ := hbr (hall 0 (Nat.succ_pos k))
        have h₂ := hbr₂ (fun i hi => hall (i + 1) (Nat.succ_lt_succ hi))
        omega⟩
    rw [sendLoop_eq, if_pos (by omega), hbody]
    simp only
    rw [hloop]
    rfl

/-! ## C1 -/

/-- C1. For every sequence of network answers, one submission (`txStats.pending++`
at the call site followed by `sendAndConfirmTransaction`) increments exactly one
of `success` and `failed` by exactly 1, leaves the other unchanged, and leaves
`pending` at its value from before the submission; the call of
`sendAndConfirmTransaction` alone lowers `pending` by exactly 1. -/
theorem submit_records_exactly_one_outcome (startTime : Int) (attempts : Nat → Attempt)
    (txParams : TxParams) (txStats : TxStats) :
    (submit startTime attempts txParams txStats).final.txStats.pending = txStats.pending ∧
    (sendAndConfirmTransaction startTime attempts txParams txStats).final.txStats.pending
      = txStats.pending - 1 ∧
    (((submit startTime attempts txParams txStats).final.txStats.success = txStats.success + 1 ∧
        (submit startTime attempts txParams txStats).final.txStats.failed = txStats.failed) ∨
      ((submit startTime attempts txParams txStats).final.txStats.success = txStats.success ∧
        (submit startTime attempts txParams txStats).final.txStats.failed = txStats.failed + 1)) := by
  refine ⟨?_, ?_, ?_⟩
  · unfold submit sendAndConfirmTransaction
    rcases sendLoop_stats startTime attempts
      { retryCount := 0, txParams := txParams,
        txStats := { txStats with pending := txStats.pending + 1 }, trace := [] } with
      ⟨_, h⟩ | ⟨_, _, _, _, h⟩ <;> rw [h] <;>
      simp [TxStats.recordFailure, TxStats.recordSuccess]
  · unfold sendAndConfirmTransaction
    rcases sendLoop_stats startTime attempts
      { retryCount := 0, txParams := txParams, txStats := txStats, trace := [] } with
      ⟨_, h⟩ | ⟨_, _, _, _, h⟩ <;> rw [h] <;>
      simp [TxStats.recordFailure, TxStats.recordSuccess]
  · unfold submit sendAndConfirmTransaction
    rcases sendLoop_stats startTime attempts
      { retryCount := 0, txParams := txParams,
        txStats := { txStats with pending := txStats.pending + 1 }, trace := [] } with
      ⟨_, h⟩ | ⟨_, _, _, _, h⟩ <;> rw [h] <;>
      simp [TxStats.recordFailure, TxStats.recordSuccess]

/-! ## C2 -/

/-- C2. When each of the five passes throws an error of the retried nonce/price
class, `sendAndConfirmTransaction` makes exactly `maxRetries = 5` attempts (and
5 broadcasts when it is the broadcast that throws each time) and returns
`null`; `failed` goes up by exactly 1, `success` is unchanged, and `pending`,
incremented at the call site, is back at its value from before the
submission. -/
theorem nonce_errors_exhaust_five_attempts (startTime : Int) (attempts : Nat → Attempt)
    (txParams : TxParams) (txStats : TxStats)
    (h : ∀ i, i < 5 → ∃ message, (attempts i).thrown = some message ∧
      classifyError message = ErrorClass.retryableNonceOrPrice) :
    (sendAndConfirmTransaction startTime attempts txParams txStats).returned = none ∧
    attemptCount (sendAndConfirmTransaction startTime attempts txParams txStats).final.trace = 5 ∧
    ((∀ i, i < 5 → (attempts i).reachesBroadcast) →
      broadcastCount
        (sendAndConfirmTransaction startTime attempts txParams txStats).final.trace = 5) ∧
    (sendAndConfirmTransaction startTime attempts txParams txStats).final.txStats =
      { success := txStats.success, failed := txStats.failed + 1,
        pending := txStats.pending - 1, times := txStats.times } ∧
    (submit startTime attempts txParams txStats).final.txStats =
      { success := txStats.success, failed := txStats.failed + 1,
        pending := txStats.pending, times := txStats.times } := by
  have hretry : ∀ i, i < 5 → (attempts i).retryable := by
    intro i hi
    obtain ⟨message, hthrown, hclass⟩ := h i hi
    exact ⟨message, hthrown, by rw [hclass]; decide⟩
  have key : ∀ stats : TxStats,
      (sendAndConfirmTransaction startTime attempts txParams stats).returned = none ∧
      attemptCount (sendAndConfirmTransaction startTime attempts txParams stats).final.trace = 5 ∧
      ((∀ i, i < 5 → (attempts i).reachesBroadcast) →
        broadcastCount
          (sendAndConfirmTransaction startTime attempts txParams stats).final.trace = 5) ∧
      (sendAndConfirmTransaction startTime attempts txParams stats).final.txStats =
        stats.recordFailure := by
    intro stats
    unfold sendAndConfirmTransaction
    obtain ⟨st', hloop, hcount, hstats, _, hatt, _, hbr⟩ :=
      sendLoop_skip_retried startTime 5 attempts
        { retryCount := 0, txParams := txParams, txStats := stats, trace := [] }
        (by simp [maxRetries]) hretry
    rw [hloop, sendLoop_eq, if_neg (by simp [maxRetries, hcount])]
    refine ⟨rfl, ?_, ?_, ?_⟩
    · simp only [afterLoop, attemptCount_append, hatt]
      simp [attemptCount, Event.isNonceCall]
    · intro hall
      have := hbr hall
      simp only [broadcastCount] at this
      simp [afterLoop, broadcastCount, List.countP_append, this, Event.isBroadcast]
    · simp [afterLoop, hstats, TxStats.recordFailure]
  refine ⟨(key txStats).1, (key txStats).2.1, (key txStats).2.2.1, ?_, ?_⟩
  · rw [(key txStats).2.2.2]
    rfl
  · unfold submit
    rw [(key _).2.2.2]
    simp [TxStats.recordFailure]

/-- C2 at five passes that each end in `nonce too low`. -/
theorem nonce_errors_exhaust_five_attempts_witness :
    (∀ i, i < 5 → ∃ message, ((fun _ => nonceTooLow) i).thrown = some message ∧
      classifyError message = ErrorClass.retryableNonceOrPrice) ∧
    (sendAndConfirmTransaction 1700000000000 (fun _ => nonceTooLow) sampleTx freshStats).returned
      = none ∧
    attemptCount
      (sendAndConfirmTransaction 1700000000000 (fun _ => nonceTooLow) sampleTx freshStats).final.trace
      = 5 ∧
    ((∀ i, i < 5 → ((fun _ => nonceTooLow) i : Attempt).reachesBroadcast) →
      broadcastCount
        (sendAndConfirmTransaction 1700000000000 (fun _ => nonceTooLow) sampleTx
          freshStats).final.trace = 5) ∧
    (sendAndConfirmTransaction 1700000000000 (fun _ => nonceTooLow) sampleTx freshStats).final.txStats =
      { success := freshStats.success, failed := freshStats.failed + 1,
        pending := freshStats.pending - 1, times := freshStats.times } ∧
    (submit 1700000000000 (fun _ => nonceTooLow) sampleTx freshStats).final.txStats =
      { success := freshStats.success, failed := freshStats.failed + 1,
        pending := freshStats.pending, times := freshStats.times } :=
  ⟨fun _ _ => ⟨"Returned error: nonce too low", rfl, by decide⟩,
    nonce_errors_exhaust_five_attempts 1700000000000 (fun _ => nonceTooLow) sampleTx freshStats
      (fun _ _ => ⟨"Returned error: nonce too low", rfl, by decide⟩)⟩

/-! ## C3 -/

/-- C3. When the first pass broadcasts and the receipt status is falsy, the
call returns `null` after that single pass: the trace holds one nonce read, one
signing, one broadcast and no timer, `retryCount` is still 0, `pending` is
decremented by 1 and `failed` incremented by 1. -/
theorem revert_on_first_attempt_is_terminal (startTime : Int) (attempts : Nat → Attempt)
    (txParams : TxParams) (txStats : TxStats) (nonce : Nat) (rawTransaction : String)
    (receipt : Receipt)
    (hnonce : (attempts 0).getTransactionCount = Except.ok nonce)
    (hsign : (attempts 0).signTransaction = Except.ok rawTransaction)
    (hsend : (attempts 0).sendSignedTransaction = Except.ok receipt)
    (hstatus : receipt.status = false) :
    sendAndConfirmTransaction startTime attempts txParams txStats =
      { returned := none
        final :=
          { retryCount := 0
            txParams := { txParams with nonce := some nonce }
            txStats :=
              { success := txStats.success, failed := txStats.failed + 1,
                pending := txStats.pending - 1, times := txStats.times }
            trace :=
              [Event.getTransactionCount txParams.from_ "pending" (Except.ok nonce),
                Event.log (LogLine.sending 1),
                Event.signTransaction { txParams with nonce := some nonce } (Except.ok rawTransaction),
                Event.sendSignedTransaction rawTransaction (Except.ok receipt),
                Event.log (LogLine.reverted receipt.transactionHash)] } } := by
  simp [sendAndConfirmTransaction, sendLoop_eq, maxRetries, loopBody, hnonce, hsign, hsend, hstatus]

/-- C3 at a first pass whose transaction reverts. -/
theorem revert_on_first_attempt_is_terminal_witness :
    sendAndConfirmTransaction 1700000000000 (fun _ => reverted) sampleTx freshStats =
      { returned := none
        final :=
          { retryCount := 0
            txParams := { sampleTx with nonce := some 8 }
            txStats :=
              { success := freshStats.success, failed := freshStats.failed + 1,
                pending := freshStats.pending - 1, times := freshStats.times }
            trace :=
              [Event.getTransactionCount sampleTx.from_ "pending" (Except.ok 8),
                Event.log (LogLine.sending 1),
                Event.signTransaction { sampleTx with nonce := some 8 } (Except.ok "0xf86c08"),
                Event.sendSignedTransaction "0xf86c08"
                  (Except.ok { status := false, transactionHash := "0x5c504ed4" }),
                Event.log (LogLine.reverted
                  (Receipt.mk false "0x5c504ed4").transactionHash)] } } :=
  revert_on_first_attempt_is_terminal 1700000000000 (fun _ => reverted) sampleTx freshStats 8
    "0xf86c08" { status := false, transactionHash := "0x5c504ed4" } rfl rfl rfl rfl

/-! ## C4 -/

/-- C4. When the first pass throws an error whose lower-cased message contains
none of the retried patterns (`classifyError` puts it in the fatal class), the
call returns `null` after that single pass, starts no timer, increments
`failed` by exactly 1 and decrements `pending` by 1. -/
theorem fatal_error_on_first_attempt_is_terminal (startTime : Int) (attempts : Nat → Attempt)
    (txParams : TxParams) (txStats : TxStats) (message : String)
    (hthrown : (attempts 0).thrown = some message)
    (hfatal : classifyError message = ErrorClass.fatal) :
    (sendAndConfirmTransaction startTime attempts txParams txStats).returned = none ∧
    attemptCount (sendAndConfirmTransaction startTime attempts txParams txStats).final.trace = 1 ∧
    sleepCount (sendAndConfirmTransaction startTime attempts txParams txStats).final.trace = 0 ∧
    (sendAndConfirmTransaction startTime attempts txParams txStats).final.retryCount = 0 ∧
    (sendAndConfirmTransaction startTime attempts txParams txStats).final.txStats =
      { success := txStats.success, failed := txStats.failed + 1,
        pending := txStats.pending - 1, times := txStats.times } := by
  unfold Attempt.thrown at hthrown
  rcases hg : (attempts 0).getTransactionCount with m₁ | nonce <;> rw [hg] at hthrown
  · cases hthrown
    simp [sendAndConfirmTransaction, sendLoop_eq, maxRetries, loopBody, catchBlock, hg, hfatal,
      attemptCount, sleepCount, Event.isNonceCall, Event.isSleep]
  · rcases hs : (attempts 0).signTransaction with m₂ | raw <;> rw [hs] at hthrown
    · cases hthrown
      simp [sendAndConfirmTransaction, sendLoop_eq, maxRetries, loopBody, catchBlock, hg, hs,
        hfatal, attemptCount, sleepCount, Event.isNonceCall, Event.isSleep]
    · rcases hb : (attempts 0).sendSignedTransaction with m₃ | receipt <;> rw [hb] at hthrown
      · cases hthrown
        simp [sendAndConfirmTransaction, sendLoop_eq, maxRetries, loopBody, catchBlock, hg, hs,
          hb, hfatal, attemptCount, sleepCount, Event.isNonceCall, Event.isSleep]
      · cases hthrown

/-- C4 at a first pass rejected with `insufficient funds`. -/
theorem fatal_error_on_first_attempt_is_terminal_witness :
    ((fun _ => insufficientFunds) 0 : Attempt).thrown
      = some "Returned error: insufficient funds for gas * price + value" ∧
    classifyError "Returned error: insufficient funds for gas * price + value"
      = ErrorClass.fatal ∧
    (sendAndConfirmTransaction 1700000000000 (fun _ => insufficientFunds) sampleTx
      freshStats).returned = none ∧
    attemptCount (sendAndConfirmTransaction 1700000000000 (fun _ => insufficientFunds) sampleTx
      freshStats).final.trace = 1 ∧
    sleepCount (sendAndConfirmTransaction 1700000000000 (fun _ => insufficientFunds) sampleTx
      freshStats).final.trace = 0 ∧
    (sendAndConfirmTransaction 1700000000000 (fun _ => insufficientFunds) sampleTx
      freshStats).final.retryCount = 0 ∧
    (sendAndConfirmTransaction 1700000000000 (fun _ => insufficientFunds) sampleTx
      freshStats).final.txStats =
      { success := freshStats.success, failed := freshStats.failed + 1,
        pending := freshStats.pending - 1, times := freshStats.times } :=
  ⟨rfl, by decide,
    fatal_error_on_first_attempt_is_terminal 1700000000000 (fun _ => insufficientFunds) sampleTx
      freshStats "Returned error: insufficient funds for gas * price + value" rfl (by decide)⟩

/-! ## C5 -/

/-- C5. Whenever a pass, the first or a later one reached through retried
errors, obtains a receipt with truthy status, the call returns that receipt,
decrements `pending` by 1, increments `success` by 1, leaves `failed`
unchanged and appends to `times` exactly one element: the clock reading of that
pass minus the reading taken when the call started. -/
theorem success_returns_receipt_and_records_elapsed (startTime : Int)
    (attempts : Nat → Attempt) (txParams : TxParams) (txStats : TxStats) (k : Nat)
    (receipt : Receipt)
    (hk : k < 5) (hretry : ∀ i, i < k → (attempts i).retryable)
    (hreceipt : (attempts k).receipt = some receipt) (hstatus : receipt.status = true) :
    (sendAndConfirmTransaction startTime attempts txParams txStats).returned = some receipt ∧
    (sendAndConfirmTransaction startTime attempts txParams txStats).final.txStats =
      { success := txStats.success + 1, failed := txStats.failed,
        pending := txStats.pending - 1,
        times := txStats.times ++ [(attempts k).now - startTime] } := by
  unfold sendAndConfirmTransaction
  obtain ⟨st', hloop, hcount, hstats, _, _, _⟩ :=
    sendLoop_skip_retried startTime k attempts
      { retryCount := 0, txParams := txParams, txStats := txStats, trace := [] }
      (by simp only [maxRetries]; omega) hretry
  obtain ⟨r, hbody, hret, hst, _⟩ :=
    loopBody_success startTime st' (a := attempts k) hreceipt hstatus
  have hbody' : loopBody startTime (attempts (0 + k)) st' = Step.done r := by
    rw [Nat.zero_add]
    exact hbody
  rw [hloop, sendLoop_eq, if_pos (by simp only [maxRetries, hcount]; omega)]
  simp only [hbody']
  refine ⟨hret, ?_⟩
  rw [hst, hstats]
  rfl

/-- C5 at a call whose third pass succeeds, 31 seconds after the call began. -/
theorem success_returns_receipt_and_records_elapsed_witness :
    (2 < 5) ∧ (∀ i, i < 2 → (retryTwiceThenConfirm i).retryable) ∧
    (sendAndConfirmTransaction 1700000000000 retryTwiceThenConfirm sampleTx freshStats).returned
      = some { status := true, transactionHash := "0x5c504ed4" } ∧
    (sendAndConfirmTransaction 1700000000000 retryTwiceThenConfirm sampleTx freshStats).final.txStats
      = { success := freshStats.success + 1, failed := freshStats.failed,
          pending := freshStats.pending - 1,
          times := freshStats.times ++ [(retryTwiceThenConfirm 2).now - 1700000000000] } :=
  have hretry : ∀ i, i < 2 → (retryTwiceThenConfirm i).retryable := fun i hi => by
    have hi' : retryTwiceThenConfirm i = nonceTooLow := by simp [retryTwiceThenConfirm, hi]
    rw [hi']
    exact ⟨"Returned error: nonce too low", rfl, by decide⟩
  ⟨by decide, hretry,
    success_returns_receipt_and_records_elapsed 1700000000000 retryTwiceThenConfirm sampleTx
      freshStats 2 { status := true, transactionHash := "0x5c504ed4" } (by decide) hretry
      rfl rfl⟩

/-! ## Rounding to binary64 -/

theorem two_zpow_pos (e : Int) : (0 : ℚ) < 2 ^ e := zpow_pos (by norm_num) e

theorem roundHalfEven_le (x : ℚ) : (roundHalfEven x : ℚ) ≤ x + 1 / 2 := by
  have h₁ := Int.floor_le x
  unfold roundHalfEven
  split_ifs with h h' h''
  · linarith
  · push_cast; linarith [Int.lt_floor_add_one x]
  · linarith
  · push_cast; linarith

theorem le_roundHalfEven (x : ℚ) : x - 1 / 2 ≤ (roundHalfEven x : ℚ) := by
  have h₁ := Int.lt_floor_add_one x
  unfold roundHalfEven
  split_ifs with h h' h''
  · linarith
  · push_cast; linarith
  · linarith
  · push_cast; linarith

theorem roundHalfEven_intCast (z : Int) : roundHalfEven (z : ℚ) = z := by
  unfold roundHalfEven
  rw [Int.floor_intCast, if_pos (by norm_num)]

theorem roundHalfEven_nonneg (x : ℚ) (h : 0 ≤ x) : 0 ≤ roundHalfEven x := by
  have h₁ : 0 ≤ ⌊x⌋ := Int.floor_nonneg.mpr h
  unfold roundHalfEven
  split_ifs <;> omega

/-- Within less than a half of an integer, that integer is the rounding. -/
theorem roundHalfEven_eq_of_near (x : ℚ) (m : Int) (h₁ : (m : ℚ) - 1 / 2 < x)
    (h₂ : x < (m : ℚ) + 1 / 2) : roundHalfEven x = m := by
  by_cases hx : (m : ℚ) ≤ x
  · have hf : ⌊x⌋ = m := Int.floor_eq_iff.mpr ⟨hx, by linarith⟩
    unfold roundHalfEven
    rw [hf, if_pos (by linarith)]
  · have hf : ⌊x⌋ = m - 1 := Int.floor_eq_iff.mpr ⟨by push_cast; linarith, by push_cast; linarith⟩
    unfold roundHalfEven
    rw [hf, if_neg (by push_cast; linarith), if_pos (by push_cast; linarith)]
    omega

/-- Half-way between two integers the rounding is the even one. -/
theorem roundHalfEven_tie (m : Int) :
    roundHalfEven ((m : ℚ) + 1 / 2) = if m % 2 = 0 then m else m + 1 := by
  have hf : ⌊(m : ℚ) + 1 / 2⌋ = m := Int.floor_eq_iff.mpr ⟨by linarith, by linarith⟩
  unfold roundHalfEven
  rw [hf, if_neg (by linarith), if_neg (by linarith)]

theorem ulpExponent_eq (x : ℚ) (k : Int) (h₁ : (2 : ℚ) ^ k ≤ |x|) (h₂ : |x| < (2 : ℚ) ^ (k + 1)) :
    ulpExponent x = k - 52 := by
  have hpos : 0 < |x| := lt_of_lt_of_le (two_zpow_pos k) h₁
  have hle : k ≤ Int.log 2 |x| := (Int.zpow_le_iff_le_log (by norm_num) hpos).mp (by exact_mod_cast h₁)
  have hlt : Int.log 2 |x| < k + 1 := (Int.lt_zpow_iff_log_lt (by norm_num) hpos).mp (by exact_mod_cast h₂)
  unfold ulpExponent
  omega

theorem zpow_ulpExponent_le (x : ℚ) (hx : x ≠ 0) :
    (2 : ℚ) ^ (ulpExponent x + 52) ≤ |x| := by
  have h := Int.zpow_log_le_self (b := 2) (r := |x|) (by norm_num) (abs_pos.mpr hx)
  unfold ulpExponent
  rw [sub_add_cancel]
  exact_mod_cast h

theorem lt_zpow_ulpExponent (x : ℚ) : |x| < (2 : ℚ) ^ (ulpExponent x + 53) := by
  have h := Int.lt_zpow_succ_log_self (b := 2) (by norm_num) |x|
  unfold ulpExponent
  have : Int.log 2 |x| - 52 + 53 = Int.log 2 |x| + 1 := by ring
  rw [this]
  exact_mod_cast h

theorem zpow_add_52 (e : Int) : (2 : ℚ) ^ (e + 52) = 2 ^ e * 2 ^ 52 := by
  rw [zpow_add₀ (by norm_num)]; norm_cast

theorem zpow_add_53 (e : Int) : (2 : ℚ) ^ (e + 53) = 2 ^ e * 2 ^ 53 := by
  rw [zpow_add₀ (by norm_num)]; norm_cast

@[simp] theorem binary64_zero : binary64 0 = 0 := by
  simp [binary64, roundHalfEven]

@[simp] theorem truncate64_zero : truncate64 0 = 0 := by
  simp [truncate64]

theorem binary64_nonneg (x : ℚ) (h : 0 ≤ x) : 0 ≤ binary64 x := by
  unfold binary64
  have hp := two_zpow_pos (ulpExponent x)
  have := roundHalfEven_nonneg (x / 2 ^ ulpExponent x) (div_nonneg h hp.le)
  exact mul_nonneg (by exact_mod_cast this) hp.le

/-- The rounding of a binary64 operation moves its result by at most a
fraction `2 ^ (-53)` of it: upwards. -/
theorem binary64_le (x : ℚ) (h : 0 ≤ x) : binary64 x ≤ x * (1 + 1 / 2 ^ 53) := by
  rcases eq_or_lt_of_le h with h0 | hpos
  · rw [← h0]; simp
  have hp := two_zpow_pos (ulpExponent x)
  have hr := roundHalfEven_le (x / 2 ^ ulpExponent x)
  have hu := zpow_ulpExponent_le x hpos.ne'
  rw [abs_of_pos hpos, zpow_add_52] at hu
  unfold binary64
  have h₁ : (roundHalfEven (x / 2 ^ ulpExponent x) : ℚ) * 2 ^ ulpExponent x
      ≤ (x / 2 ^ ulpExponent x + 1 / 2) * 2 ^ ulpExponent x :=
    mul_le_mul_of_nonneg_right hr hp.le
  have h₂ : (x / 2 ^ ulpExponent x + 1 / 2) * 2 ^ ulpExponent x = x + 2 ^ ulpExponent x / 2 := by
    field_simp
    ring
  rw [h₂] at h₁
  norm_num at hu ⊢
  linarith

/-- The rounding of a binary64 operation moves its result by at most a
fraction `2 ^ (-53)` of it: downwards. -/
theorem le_binary64 (x : ℚ) (h : 0 ≤ x) : x * (1 - 1 / 2 ^ 53) ≤ binary64 x := by
  rcases eq_or_lt_of_le h with h0 | hpos
  · rw [← h0]; simp
  have hp := two_zpow_pos (ulpExponent x)
  have hr := le_roundHalfEven (x / 2 ^ ulpExponent x)
  have hu := zpow_ulpExponent_le x hpos.ne'
  rw [abs_of_pos hpos, zpow_add_52] at hu
  unfold binary64
  have h₁ : (x / 2 ^ ulpExponent x - 1 / 2) * 2 ^ ulpExponent x
      ≤ (roundHalfEven (x / 2 ^ ulpExponent x) : ℚ) * 2 ^ ulpExponent x :=
    mul_le_mul_of_nonneg_right hr hp.le
  have h₂ : (x / 2 ^ ulpExponent x - 1 / 2) * 2 ^ ulpExponent x = x - 2 ^ ulpExponent x / 2 := by
    field_simp
    ring
  rw [h₂] at h₁
  norm_num at hu ⊢
  linarith

theorem truncate64_nonneg (x : ℚ) (h : 0 ≤ x) : 0 ≤ truncate64 x := by
  unfold truncate64
  have hp := two_zpow_pos (ulpExponent x)
  have : 0 ≤ ⌊x / 2 ^ ulpExponent x⌋ := Int.floor_nonneg.mpr (div_nonneg h hp.le)
  exact mul_nonneg (by exact_mod_cast this) hp.le

theorem truncate64_le (x : ℚ) : truncate64 x ≤ x := by
  unfold truncate64
  have hp := two_zpow_pos (ulpExponent x)
  have h₁ := mul_le_mul_of_nonneg_right (Int.floor_le (x / 2 ^ ulpExponent x)) hp.le
  rwa [div_mul_cancel₀ _ hp.ne'] at h₁

theorem le_truncate64 (x : ℚ) (h : 0 ≤ x) : x * (1 - 1 / 2 ^ 52) ≤ truncate64 x := by
  rcases eq_or_lt_of_le h with h0 | hpos
  · rw [← h0]; simp
  have hp := two_zpow_pos (ulpExponent x)
  have hu := zpow_ulpExponent_le x hpos.ne'
  rw [abs_of_pos hpos, zpow_add_52] at hu
  unfold truncate64
  have h₁ : (x / 2 ^ ulpExponent x - 1) * 2 ^ ulpExponent x
      ≤ (⌊x / 2 ^ ulpExponent x⌋ : ℚ) * 2 ^ ulpExponent x :=
    mul_le_mul_of_nonneg_right (by linarith [Int.lt_floor_add_one (x / 2 ^ ulpExponent x)]) hp.le
  have h₂ : (x / 2 ^ ulpExponent x - 1) * 2 ^ ulpExponent x = x - 2 ^ ulpExponent x := by
    field_simp
  rw [h₂] at h₁
  norm_num at hu ⊢
  linarith

/-- A draw below 1 stays below 1 as a binary64 value: at most `1 - 2 ^ (-53)`. -/
theorem truncate64_lt_one (x : ℚ) (h0 : 0 ≤ x) (h1 : x < 1) : truncate64 x ≤ 1 - 1 / 2 ^ 53 := by
  rcases eq_or_lt_of_le h0 with h | hpos
  · rw [← h]; norm_num
  have hp := two_zpow_pos (ulpExponent x)
  have hu := zpow_ulpExponent_le x hpos.ne'
  have hl := lt_zpow_ulpExponent x
  rw [abs_of_pos hpos] at hu hl
  -- the exponent is at most -53
  have he : ulpExponent x + 52 < 0 := by
    by_contra hcon
    have : (1 : ℚ) ≤ 2 ^ (ulpExponent x + 52) := one_le_zpow₀ (by norm_num) (not_lt.mp hcon)
    linarith
  have he' : (2 : ℚ) ^ (ulpExponent x + 53) ≤ 1 := by
    have := zpow_le_one_of_nonpos₀ (a := (2 : ℚ)) (by norm_num) (show ulpExponent x + 53 ≤ 0 by omega)
    exact this
  rw [zpow_add_53] at he' hl
  -- the significand is at most 2 ^ 53 - 1
  have hq : x / 2 ^ ulpExponent x < 2 ^ 53 := by
    rw [div_lt_iff₀ hp]; linarith
  have hfl : ⌊x / 2 ^ ulpExponent x⌋ ≤ 2 ^ 53 - 1 := by
    have : ⌊x / 2 ^ ulpExponent x⌋ < 2 ^ 53 := Int.floor_lt.mpr (by exact_mod_cast hq)
    omega
  have hfl' : (⌊x / 2 ^ ulpExponent x⌋ : ℚ) ≤ 2 ^ 53 - 1 := by exact_mod_cast hfl
  unfold truncate64
  have h₁ := mul_le_mul_of_nonneg_right hfl' hp.le
  norm_num at he' h₁ ⊢
  nlinarith

/-- A number with at most 53 significant bits is a binary64 value. -/
theorem binary64_of_significand (z : Int) (e : Int) (hz : |z| < 2 ^ 53) :
    binary64 ((z : ℚ) * 2 ^ e) = (z : ℚ) * 2 ^ e := by
  by_cases h0 : z = 0
  · subst h0; simp
  have hpe := two_zpow_pos e
  have hx : (z : ℚ) * 2 ^ e ≠ 0 := mul_ne_zero (by exact_mod_cast h0) hpe.ne'
  set u := ulpExponent ((z : ℚ) * 2 ^ e) with hu
  have hp := two_zpow_pos u
  -- the exponent of the last bit is at most `e`
  have hle : u ≤ e := by
    by_contra hcon
    have h₁ := zpow_ulpExponent_le _ hx
    rw [← hu, abs_mul, abs_of_pos hpe] at h₁
    have h₂ : (2 : ℚ) ^ (e + 53) ≤ 2 ^ (u + 52) :=
      zpow_le_zpow_right₀ (by norm_num) (by omega)
    rw [zpow_add_53] at h₂
    have h₃ : ((|z| : Int) : ℚ) < 2 ^ 53 := by exact_mod_cast hz
    have := mul_lt_mul_of_pos_right h₃ hpe
    rw [← Int.cast_abs] at h₁
    linarith
  obtain ⟨n, hn⟩ : ∃ n : Nat, e = u + n := ⟨(e - u).toNat, by omega⟩
  have hq : (z : ℚ) * 2 ^ e / 2 ^ u = ((z * 2 ^ n : Int) : ℚ) := by
    rw [hn, zpow_add₀ (by norm_num)]
    field_simp
    ring
  unfold binary64
  rw [← hu, hq, roundHalfEven_intCast, ← hq, div_mul_cancel₀ _ hp.ne']

/-- A number with at most 53 significant bits is its own truncation. -/
theorem truncate64_of_significand (z : Int) (e : Int) (hz : |z| < 2 ^ 53) :
    truncate64 ((z : ℚ) * 2 ^ e) = (z : ℚ) * 2 ^ e := by
  by_cases h0 : z = 0
  · subst h0; simp
  have hpe := two_zpow_pos e
  have hx : (z : ℚ) * 2 ^ e ≠ 0 := mul_ne_zero (by exact_mod_cast h0) hpe.ne'
  set u := ulpExponent ((z : ℚ) * 2 ^ e) with hu
  have hp := two_zpow_pos u
  have hle : u ≤ e := by
    by_contra hcon
    have h₁ := zpow_ulpExponent_le _ hx
    rw [← hu, abs_mul, abs_of_pos hpe] at h₁
    have h₂ : (2 : ℚ) ^ (e + 53) ≤ 2 ^ (u + 52) :=
      zpow_le_zpow_right₀ (by norm_num) (by omega)
    rw [zpow_add_53] at h₂
    have h₃ : ((|z| : Int) : ℚ) < 2 ^ 53 := by exact_mod_cast hz
    have := mul_lt_mul_of_pos_right h₃ hpe
    rw [← Int.cast_abs] at h₁
    linarith
  obtain ⟨n, hn⟩ : ∃ n : Nat, e = u + n := ⟨(e - u).toNat, by omega⟩
  have hq : (z : ℚ) * 2 ^ e / 2 ^ u = ((z * 2 ^ n : Int) : ℚ) := by
    rw [hn, zpow_add₀ (by norm_num)]
    field_simp
    ring
  unfold truncate64
  rw [← hu, hq, Int.floor_intCast, ← hq, div_mul_cancel₀ _ hp.ne']

/-- The rounding of a number between `2 ^ k` and `2 ^ (k + 1)` that is within
less than half a unit of the last place of `m * 2 ^ (k - 52)`. -/
theorem binary64_eq_of_near (x : ℚ) (k m : Int) (h₁ : (2 : ℚ) ^ k ≤ x) (h₂ : x < (2 : ℚ) ^ (k + 1))
    (hlo : (m : ℚ) - 1 / 2 < x / 2 ^ (k - 52)) (hhi : x / 2 ^ (k - 52) < (m : ℚ) + 1 / 2) :
    binary64 x = (m : ℚ) * 2 ^ (k - 52) := by
  have hpos : 0 < x := lt_of_lt_of_le (two_zpow_pos k) h₁
  have hu := ulpExponent_eq x k (by rwa [abs_of_pos hpos]) (by rwa [abs_of_pos hpos])
  unfold binary64
  rw [hu, roundHalfEven_eq_of_near _ m hlo hhi]

/-- The rounding of a number half-way between two neighbours. -/
theorem binary64_eq_of_tie (x : ℚ) (k m : Int) (h₁ : (2 : ℚ) ^ k ≤ x) (h₂ : x < (2 : ℚ) ^ (k + 1))
    (hmid : x / 2 ^ (k - 52) = (m : ℚ) + 1 / 2) :
    binary64 x = ((if m % 2 = 0 then m else m + 1 : Int) : ℚ) * 2 ^ (k - 52) := by
  have hpos : 0 < x := lt_of_lt_of_le (two_zpow_pos k) h₁
  have hu := ulpExponent_eq x k (by rwa [abs_of_pos hpos]) (by rwa [abs_of_pos hpos])
  unfold binary64
  rw [hu, hmid, roundHalfEven_tie]

/-! ## Random integers and conversions in binary64 -/

/-- A number with at most 53 significant bits is a binary64 value, with the
significand and the exponent given apart. -/
theorem binary64_eq_self (x : ℚ) (z e : Int) (hz : |z| < 2 ^ 53) (hx : x = (z : ℚ) * 2 ^ e) :
    binary64 x = x := by
  rw [hx]
  exact binary64_of_significand z e hz

theorem truncate64_eq_self (x : ℚ) (z e : Int) (hz : |z| < 2 ^ 53) (hx : x = (z : ℚ) * 2 ^ e) :
    truncate64 x = x := by
  rw [hx]
  exact truncate64_of_significand z e hz

/-- An integer below `2 ^ 53` in absolute value is a binary64 value. -/
theorem binary64_intCast (z : Int) (hz : |z| < 2 ^ 53) : binary64 (z : ℚ) = z :=
  binary64_eq_self _ z 0 hz (by simp)

/-- A binary64 value is its own truncation. -/
theorem truncate64_of_binary64 (x : ℚ) (h : binary64 x = x) : truncate64 x = x := by
  have hp := two_zpow_pos (ulpExponent x)
  have hq : x / 2 ^ ulpExponent x = ((roundHalfEven (x / 2 ^ ulpExponent x) : Int) : ℚ) := by
    rw [eq_comm, eq_div_iff hp.ne']
    exact h
  unfold truncate64
  rw [hq, Int.floor_intCast, ← hq, div_mul_cancel₀ _ hp.ne']

/-- The draw scaled to a range of `n` integers, after the rounding of the
product and `Math.floor`, is one of `0, ..., n - 1`. -/
theorem floor_scaled_draw (random : ℚ) (n : Int) (h0 : 0 ≤ random) (h1 : random < 1)
    (hn : 1 ≤ n) :
    0 ≤ ⌊binary64 (mathRandom random * (n : ℚ))⌋ ∧
      ⌊binary64 (mathRandom random * (n : ℚ))⌋ ≤ n - 1 := by
  have ht0 : 0 ≤ mathRandom random := truncate64_nonneg random h0
  have ht1 : mathRandom random ≤ 1 - 1 / 2 ^ 53 := truncate64_lt_one random h0 h1
  have hn' : (1 : ℚ) ≤ n := by exact_mod_cast hn
  have hx : 0 ≤ mathRandom random * (n : ℚ) := mul_nonneg ht0 (by linarith)
  have hb0 := binary64_nonneg _ hx
  have hb1 := binary64_le _ hx
  have hlt : binary64 (mathRandom random * (n : ℚ)) < n := by
    have h₁ : mathRandom random * (n : ℚ) ≤ (1 - 1 / 2 ^ 53) * n :=
      mul_le_mul_of_nonneg_right ht1 (by linarith)
    have h₂ : mathRandom random * (n : ℚ) * (1 + 1 / 2 ^ 53)
        ≤ (1 - 1 / 2 ^ 53) * n * (1 + 1 / 2 ^ 53) :=
      mul_le_mul_of_nonneg_right h₁ (by norm_num)
    have h₃ : (1 - 1 / 2 ^ 53) * (n : ℚ) * (1 + 1 / 2 ^ 53) < n := by
      have : (1 - 1 / 2 ^ 53) * (n : ℚ) * (1 + 1 / 2 ^ 53) = n - n / 2 ^ 106 := by ring
      rw [this]
      have : (0 : ℚ) < n / 2 ^ 106 := div_pos (by linarith) (by norm_num)
      linarith
    linarith
  refine ⟨Int.floor_nonneg.mpr hb0, ?_⟩
  have : ⌊binary64 (mathRandom random * (n : ℚ))⌋ < n := Int.floor_lt.mpr hlt
  omega

/-- For integers of the size the code uses, only the product of
`getRandomInt` is rounded: the difference and the sums are exact. -/
theorem getRandomInt_eq (random : ℚ) (min max : Int) (h0 : 0 ≤ random) (h1 : random < 1)
    (hmm : min ≤ max) (hmin : -2 ^ 51 ≤ min) (hmax : max ≤ 2 ^ 51) :
    getRandomInt random min max
      = ⌊binary64 (mathRandom random * ((max - min + 1 : Int) : ℚ))⌋ + min := by
  have h₁ : binary64 ((max : ℚ) - min) = ((max - min : Int) : ℚ) := by
    rw [← Int.cast_sub]
    exact binary64_intCast _ (by rw [abs_lt]; constructor <;> omega)
  have h₂ : binary64 (((max - min : Int) : ℚ) + 1) = ((max - min + 1 : Int) : ℚ) := by
    have : ((max - min : Int) : ℚ) + 1 = ((max - min + 1 : Int) : ℚ) := by push_cast; ring
    rw [this]
    exact binary64_intCast _ (by rw [abs_lt]; constructor <;> omega)
  obtain ⟨hlo, hhi⟩ := floor_scaled_draw random (max - min + 1) h0 h1 (by omega)
  unfold getRandomInt
  simp only []
  rw [h₁, h₂, ← Int.cast_add, binary64_intCast _ (by rw [abs_lt]; constructor <;> omega),
    Int.floor_intCast]

/-- For a draw in `[0, 1)` and `min ≤ max`, `getRandomInt` lands in the closed
range `[min, max]`. -/
theorem getRandomInt_mem_range (random : ℚ) (min max : Int)
    (h0 : 0 ≤ random) (h1 : random < 1) (hmm : min ≤ max)
    (hmin : -2 ^ 51 ≤ min) (hmax : max ≤ 2 ^ 51) :
    min ≤ getRandomInt random min max ∧ getRandomInt random min max ≤ max := by
  obtain ⟨hlo, hhi⟩ := floor_scaled_draw random (max - min + 1) h0 h1 (by omega)
  rw [getRandomInt_eq random min max h0 h1 hmm hmin hmax]
  constructor <;> omega

/-- The draw 0 gives `min`. -/
theorem getRandomInt_zero (min max : Int) (hmm : min ≤ max)
    (hmin : -2 ^ 51 ≤ min) (hmax : max ≤ 2 ^ 51) : getRandomInt 0 min max = min := by
  rw [getRandomInt_eq 0 min max (le_refl 0) (by norm_num) hmm hmin hmax]
  simp [mathRandom]

/-- Where the rounded product of a draw lies gives the result. -/
theorem getRandomInt_eq_of_mem (random : ℚ) (min max n : Int) (h0 : 0 ≤ random)
    (h1 : random < 1) (hmm : min ≤ max) (hmin : -2 ^ 51 ≤ min) (hmax : max ≤ 2 ^ 51)
    (hlo : ((n - min : Int) : ℚ) ≤ mathRandom random * ((max - min + 1 : Int) : ℚ) * (1 - 1 / 2 ^ 53))
    (hhi : mathRandom random * ((max - min + 1 : Int) : ℚ) * (1 + 1 / 2 ^ 53)
      < ((n - min + 1 : Int) : ℚ)) :
    getRandomInt random min max = n := by
  have ht0 : 0 ≤ mathRandom random := truncate64_nonneg random h0
  have hN : (0 : ℚ) ≤ ((max - min + 1 : Int) : ℚ) := by
    have : (0 : Int) ≤ max - min + 1 := by omega
    exact_mod_cast this
  have hx := mul_nonneg ht0 hN
  have hb0 := le_binary64 _ hx
  have hb1 := binary64_le _ hx
  rw [getRandomInt_eq random min max h0 h1 hmm hmin hmax]
  have : ⌊binary64 (mathRandom random * ((max - min + 1 : Int) : ℚ))⌋ = n - min :=
    Int.floor_eq_iff.mpr ⟨by linarith, by push_cast at hhi hb1 ⊢; linarith⟩
  omega

theorem getRandomInt_nine_tenths : getRandomInt (9 / 10) 5 10 = 10 := by
  have l := le_truncate64 (9 / 10) (by norm_num)
  have u := truncate64_le (9 / 10)
  refine getRandomInt_eq_of_mem (9 / 10) 5 10 10 (by norm_num) (by norm_num) (by norm_num)
    (by norm_num) (by norm_num) ?_ ?_
  · unfold mathRandom
    norm_num at l ⊢
    linarith
  · unfold mathRandom
    norm_num at u ⊢
    linarith

theorem getRandomInt_nineteen_twentieths : getRandomInt (19 / 20) 10 20 = 20 := by
  have l := le_truncate64 (19 / 20) (by norm_num)
  have u := truncate64_le (19 / 20)
  refine getRandomInt_eq_of_mem (19 / 20) 10 20 20 (by norm_num) (by norm_num) (by norm_num)
    (by norm_num) (by norm_num) ?_ ?_
  · unfold mathRandom
    norm_num at l ⊢
    linarith
  · unfold mathRandom
    norm_num at u ⊢
    linarith

/-- Every integer of a range of the size the code uses is the result of
`getRandomInt` at some binary64 draw in `[0, 1)`. -/
theorem getRandomInt_onto (min max n : Int) (hmm : min ≤ max) (hmin : -2 ^ 24 ≤ min)
    (hmax : max ≤ 2 ^ 24) (hn₁ : min ≤ n) (hn₂ : n ≤ max) :
    ∃ r : ℚ, 0 ≤ r ∧ r < 1 ∧ binary64 r = r ∧ getRandomInt r min max = n := by
  have hN : 0 < max - min + 1 := by omega
  set j : Int := ((n - min) * 134217728 + (max - min + 1) - 1) / (max - min + 1) with hj
  have hj0 : 0 ≤ j := Int.ediv_nonneg (by omega) (by omega)
  have hjle : j * (max - min + 1) ≤ (n - min) * 134217728 + (max - min + 1) - 1 :=
    Int.ediv_mul_le _ (by omega)
  have hjlt : (n - min) * 134217728 + (max - min + 1) - 1 < (j + 1) * (max - min + 1) :=
    Int.lt_ediv_add_one_mul_self _ hN
  have hjlt' : (n - min) * 134217728 ≤ j * (max - min + 1) := by
    have : (j + 1) * (max - min + 1) = j * (max - min + 1) + (max - min + 1) := by ring
    omega
  have hj1 : j < 134217728 := by
    by_contra hcon
    have : 134217728 * (max - min + 1) ≤ j * (max - min + 1) :=
      mul_le_mul_of_nonneg_right (by omega) (by omega)
    omega
  have hp53 : j * (max - min + 1) < 2 ^ 53 := by
    norm_num
    omega
  have h27 : (2 : ℚ) ^ (-27 : Int) = 1 / 134217728 := by norm_num
  have hr0 : (0 : ℚ) ≤ (j : ℚ) * 2 ^ (-27 : Int) := by
    rw [h27]
    have : (0 : ℚ) ≤ j := by exact_mod_cast hj0
    positivity
  have hr1 : (j : ℚ) * 2 ^ (-27 : Int) < 1 := by
    rw [h27]
    have : (j : ℚ) < 134217728 := by exact_mod_cast hj1
    linarith
  have hrep : binary64 ((j : ℚ) * 2 ^ (-27 : Int)) = (j : ℚ) * 2 ^ (-27 : Int) :=
    binary64_of_significand j (-27) (by rw [abs_lt]; constructor <;> [omega; (norm_num; omega)])
  have hprod : mathRandom ((j : ℚ) * 2 ^ (-27 : Int)) * ((max - min + 1 : Int) : ℚ)
      = ((j * (max - min + 1) : Int) : ℚ) * 2 ^ (-27 : Int) := by
    rw [mathRandom, truncate64_of_binary64 _ hrep]
    push_cast
    ring
  refine ⟨(j : ℚ) * 2 ^ (-27 : Int), hr0, hr1, hrep, ?_⟩
  rw [getRandomInt_eq _ min max hr0 hr1 hmm (by norm_num at hmin ⊢; omega)
    (by norm_num at hmax ⊢; omega), hprod,
    binary64_of_significand _ (-27) (by
      rw [abs_lt]
      constructor
      · have : 0 ≤ j * (max - min + 1) := mul_nonneg hj0 (by omega)
        omega
      · exact hp53)]
  have hfloor : ⌊((j * (max - min + 1) : Int) : ℚ) * 2 ^ (-27 : Int)⌋ = n - min := by
    rw [Int.floor_eq_iff, h27]
    have h₁ : (((n - min) * 134217728 : Int) : ℚ) ≤ ((j * (max - min + 1) : Int) : ℚ) := by
      exact_mod_cast hjlt'
    have h₂ : ((j * (max - min + 1) : Int) : ℚ) < (((n - min) * 134217728 + 134217728 : Int) : ℚ) := by
      have : j * (max - min + 1) < (n - min) * 134217728 + 134217728 := by omega
      exact_mod_cast this
    push_cast at h₁ h₂ ⊢
    constructor <;> linarith
  rw [hfloor]
  omega

/-- What the code computes for 3 tokens of 18 decimals with the tolerance
0.95: the three roundings leave 2849999999999999488, not 2850000000000000000. -/
theorem computeAmountOutMinimum_three :
    computeAmountOutMinimum 3 18 = 2849999999999999488 := by
  have h₁ : slippageTolerance = 8556839292003942 * 2 ^ (-53 : Int) := by
    unfold slippageTolerance
    rw [binary64_eq_of_near (19 / 20) (-1) 8556839292003942 (by norm_num) (by norm_num)
      (by norm_num) (by norm_num)]
    norm_num
  have h₂ : binary64 (3 * (8556839292003942 * 2 ^ (-53 : Int)))
      = 6417629469002956 * 2 ^ (-51 : Int) := by
    rw [binary64_eq_of_tie _ 1 6417629469002956 (by norm_num) (by norm_num) (by norm_num)]
    norm_num
  have h₃ : binary64 ((10 : ℚ) ^ 18) = 10 ^ 18 :=
    binary64_eq_self _ 3814697265625 18 (by norm_num) (by norm_num)
  have h₄ : binary64 (6417629469002956 * 2 ^ (-51 : Int) * 10 ^ 18)
      = 2849999999999999488 := by
    rw [binary64_eq_of_near _ 61 5566406249999999 (by norm_num) (by norm_num) (by norm_num)
      (by norm_num)]
    norm_num
  unfold computeAmountOutMinimum
  rw [h₁, h₂, h₃, h₄]
  exact Int.floor_eq_iff.mpr ⟨by norm_num, by norm_num⟩

/-- A product of an amount and a power of ten that has at most 53 significant
bits is converted exactly. -/
theorem computeAmountInWei_exact (amountIn : ℚ) (decimals : Nat) (z₁ e₁ z₂ e₂ : Int)
    (hz₁ : |z₁| < 2 ^ 53) (h₁ : (10 : ℚ) ^ decimals = (z₁ : ℚ) * 2 ^ e₁)
    (hz₂ : |z₂| < 2 ^ 53) (h₂ : amountIn * 10 ^ decimals = (z₂ : ℚ) * 2 ^ e₂) :
    computeAmountInWei amountIn decimals = ⌊amountIn * 10 ^ decimals⌋ := by
  unfold computeAmountInWei
  rw [binary64_eq_self _ z₁ e₁ hz₁ h₁, binary64_eq_self _ z₂ e₂ hz₂ h₂]

theorem computeAmountInWei_hundred : computeAmountInWei 100 18 = 100 * 10 ^ 18 := by
  rw [computeAmountInWei_exact 100 18 3814697265625 18 95367431640625 20 (by norm_num)
    (by norm_num) (by norm_num) (by norm_num)]
  exact Int.floor_eq_iff.mpr ⟨by norm_num, by norm_num⟩

theorem computeAmountInWei_two_hundred : computeAmountInWei 200 18 = 200 * 10 ^ 18 := by
  rw [computeAmountInWei_exact 200 18 3814697265625 18 95367431640625 21 (by norm_num)
    (by norm_num) (by norm_num) (by norm_num)]
  exact Int.floor_eq_iff.mpr ⟨by norm_num, by norm_num⟩

theorem computeAmountInWei_hundred_fifty : computeAmountInWei 150 18 = 150 * 10 ^ 18 := by
  rw [computeAmountInWei_exact 150 18 3814697265625 18 286102294921875 19 (by norm_num)
    (by norm_num) (by norm_num) (by norm_num)]
  exact Int.floor_eq_iff.mpr ⟨by norm_num, by norm_num⟩

theorem computeAmountInWei_thousand : computeAmountInWei 1000 18 = 1000 * 10 ^ 18 := by
  rw [computeAmountInWei_exact 1000 18 3814697265625 18 476837158203125 21 (by norm_num)
    (by norm_num) (by norm_num) (by norm_num)]
  exact Int.floor_eq_iff.mpr ⟨by norm_num, by norm_num⟩

theorem computeAmountOutMinimum_hundred : computeAmountOutMinimum 100 18 = 95 * 10 ^ 18 := by
  have h₁ : slippageTolerance = 8556839292003942 * 2 ^ (-53 : Int) := by
    unfold slippageTolerance
    rw [binary64_eq_of_near (19 / 20) (-1) 8556839292003942 (by norm_num) (by norm_num)
      (by norm_num) (by norm_num)]
    norm_num
  have h₂ : binary64 (100 * (8556839292003942 * 2 ^ (-53 : Int))) = 95 := by
    rw [binary64_eq_of_near _ 6 6685030696878080 (by norm_num) (by norm_num) (by norm_num)
      (by norm_num)]
    norm_num
  have h₃ : binary64 ((10 : ℚ) ^ 18) = 10 ^ 18 :=
    binary64_eq_self _ 3814697265625 18 (by norm_num) (by norm_num)
  have h₄ : binary64 ((95 : ℚ) * 10 ^ 18) = 95 * 10 ^ 18 :=
    binary64_eq_self _ 362396240234375 18 (by norm_num) (by norm_num)
  unfold computeAmountOutMinimum
  rw [h₁, h₂, h₃, h₄]
  exact Int.floor_eq_iff.mpr ⟨by norm_num, by norm_num⟩

/-! ## C6 -/

/-- C6, amended. For every draw of the random source in `[0, 1)` and every
value of the retry counter, the delay (in seconds) computed by the `catch`
block after the `N`th retried error, `N = retryCount + 1`, satisfies
`5 * 2^N ≤ delay ≤ 10 * 2^N` for a nonce/price error and
`10 * 2^N ≤ delay ≤ 20 * 2^N` for a mining timeout; the timer is set to
`delay * 1000` milliseconds. Both upper bounds are attained. -/
theorem backoff_delay_bounds (a : Attempt) (message : String) (st : LoopState)
    (h0 : 0 ≤ a.random) (h1 : a.random < 1) :
    (classifyError message = ErrorClass.retryableNonceOrPrice →
      ∃ delay : Int,
        catchBlock a message st = Step.again
          { retryCount := st.retryCount + 1
            txParams := st.txParams
            txStats := st.txStats
            trace := st.trace ++
              [Event.log (LogLine.transactionError (st.retryCount + 1) message),
                Event.log (LogLine.retrying delay), Event.sleep (delay * 1000)] } ∧
        5 * 2 ^ (st.retryCount + 1) ≤ delay ∧ delay ≤ 10 * 2 ^ (st.retryCount + 1)) ∧
    (classifyError message = ErrorClass.retryableTimeout →
      ∃ delay : Int,
        catchBlock a message st = Step.again
          { retryCount := st.retryCount + 1
            txParams := st.txParams
            txStats := st.txStats
            trace := st.trace ++
              [Event.log (LogLine.transactionError (st.retryCount + 1) message),
                Event.log (LogLine.retryingTimeout delay), Event.sleep (delay * 1000)] } ∧
        10 * 2 ^ (st.retryCount + 1) ≤ delay ∧ delay ≤ 20 * 2 ^ (st.retryCount + 1)) := by
  have hpow : (0 : Int) < 2 ^ (st.retryCount + 1) := by positivity
  constructor
  · intro hclass
    obtain ⟨hlo, hhi⟩ := getRandomInt_mem_range a.random 5 10 h0 h1 (by decide)
      (by norm_num) (by norm_num)
    refine ⟨getRandomInt a.random 5 10 * 2 ^ (st.retryCount + 1), ?_, ?_, ?_⟩
    · simp [catchBlock, hclass]
    · exact Int.mul_le_mul_of_nonneg_right hlo hpow.le
    · exact Int.mul_le_mul_of_nonneg_right hhi hpow.le
  · intro hclass
    obtain ⟨hlo, hhi⟩ := getRandomInt_mem_range a.random 10 20 h0 h1 (by decide)
      (by norm_num) (by norm_num)
    refine ⟨getRandomInt a.random 10 20 * 2 ^ (st.retryCount + 1), ?_, ?_, ?_⟩
    · simp [catchBlock, hclass]
    · exact Int.mul_le_mul_of_nonneg_right hlo hpow.le
    · exact Int.mul_le_mul_of_nonneg_right hhi hpow.le

/-- C6, amended, at the draw `1/2` after a first nonce error. -/
theorem backoff_delay_bounds_witness :
    (0 : ℚ) ≤ nonceTooLowMidDraw.random ∧ nonceTooLowMidDraw.random < 1 ∧
    ((classifyError "Returned error: nonce too low" = ErrorClass.retryableNonceOrPrice →
      ∃ delay : Int,
        catchBlock nonceTooLowMidDraw "Returned error: nonce too low" firstPass = Step.again
          { retryCount := firstPass.retryCount + 1
            txParams := firstPass.txParams
            txStats := firstPass.txStats
            trace := firstPass.trace ++
              [Event.log (LogLine.transactionError (firstPass.retryCount + 1)
                  "Returned error: nonce too low"),
                Event.log (LogLine.retrying delay), Event.sleep (delay * 1000)] } ∧
        5 * 2 ^ (firstPass.retryCount + 1) ≤ delay ∧
        delay ≤ 10 * 2 ^ (firstPass.retryCount + 1)) ∧
    (classifyError "Returned error: nonce too low" = ErrorClass.retryableTimeout →
      ∃ delay : Int,
        catchBlock nonceTooLowMidDraw "Returned error: nonce too low" firstPass = Step.again
          { retryCount := firstPass.retryCount + 1
            txParams := firstPass.txParams
            txStats := firstPass.txStats
            trace := firstPass.trace ++
              [Event.log (LogLine.transactionError (firstPass.retryCount + 1)
                  "Returned error: nonce too low"),
                Event.log (LogLine.retryingTimeout delay), Event.sleep (delay * 1000)] } ∧
        10 * 2 ^ (firstPass.retryCount + 1) ≤ delay ∧
        delay ≤ 20 * 2 ^ (firstPass.retryCount + 1))) :=
  ⟨by norm_num [nonceTooLowMidDraw], by norm_num [nonceTooLowMidDraw],
    backoff_delay_bounds nonceTooLowMidDraw "Returned error: nonce too low" firstPass
      (by norm_num [nonceTooLowMidDraw]) (by norm_num [nonceTooLowMidDraw])⟩

/-- C6 as stated fails. With the draw `9/10` the first nonce error gives
`getRandomInt(5, 10) = 10` and a delay of `20 = 10 * 2^1` seconds, and with the
draw `19/20` the first mining timeout gives `getRandomInt(10, 20) = 20` and a
delay of `40 = 20 * 2^1` seconds: neither is below its claimed strict bound. -/
theorem backoff_delay_attains_upper_bound :
    (classifyError "Returned error: nonce too low" = ErrorClass.retryableNonceOrPrice ∧
      catchBlock nonceTooLowHighDraw "Returned error: nonce too low" firstPass = Step.again
        { retryCount := 1
          txParams := sampleTx
          txStats := freshStats
          trace :=
            [Event.log (LogLine.transactionError 1 "Returned error: nonce too low"),
              Event.log (LogLine.retrying 20), Event.sleep 20000] } ∧
      ¬ ((20 : Int) < 10 * 2 ^ 1)) ∧
    (classifyError "Transaction was not mined within 750 seconds" = ErrorClass.retryableTimeout ∧
      catchBlock notMinedHighDraw "Transaction was not mined within 750 seconds" firstPass =
        Step.again
          { retryCount := 1
            txParams := sampleTx
            txStats := freshStats
            trace :=
              [Event.log (LogLine.transactionError 1 "Transaction was not mined within 750 seconds"),
                Event.log (LogLine.retryingTimeout 40), Event.sleep 40000] } ∧
      ¬ ((40 : Int) < 20 * 2 ^ 1)) := by
  have hc₁ : classifyError "Returned error: nonce too low" = ErrorClass.retryableNonceOrPrice := by
    decide
  have hc₂ : classifyError "Transaction was not mined within 750 seconds"
      = ErrorClass.retryableTimeout := by
    decide
  have hr₁ : getRandomInt (9 / 10) 5 10 = 10 := getRandomInt_nine_tenths
  have hr₂ : getRandomInt (19 / 20) 10 20 = 20 := getRandomInt_nineteen_twentieths
  refine ⟨⟨hc₁, ?_, by decide⟩, ⟨hc₂, ?_, by decide⟩⟩
  · simp [catchBlock, hc₁, nonceTooLowHighDraw, firstPass, hr₁]
  · simp [catchBlock, hc₂, notMinedHighDraw, firstPass, hr₂]

/-! ## C7 -/

/-- The test `includesList s pat` succeeds exactly when `pat` is a contiguous
block of `s`. -/
theorem includesList_iff (s pat : List Char) : includesList s pat = true ↔ pat <:+: s := by
  induction s with
  | nil => simp [includesList, List.infix_nil]
  | cons c cs ih =>
    simp only [includesList, Bool.or_eq_true, ih, List.infix_cons_iff, List.isPrefixOf_iff_prefix]

/-- The test `includes s pat` succeeds exactly when the characters of `pat`
occur as a contiguous block of the characters of `s`. -/
theorem includes_iff (s pat : String) : includes s pat = true ↔ pat.data <:+: s.data :=
  includesList_iff s.data pat.data

/-- C7, amended. The classification is a substring match on the lower-cased
message: nonce/price iff it contains one of `nonce too low`,
`transaction underpriced`, `replacement transaction underpriced`,
`transaction already imported`,
`transaction with the same hash was already imported`; otherwise timeout iff it
contains `transaction was not mined within`; otherwise fatal. Messages with the
same lower-cased form are classified alike. -/
theorem classifyError_is_substring_match (message : String) :
    (classifyError message = ErrorClass.retryableNonceOrPrice ↔
      ∃ p ∈ ["nonce too low", "transaction underpriced", "replacement transaction underpriced",
          "transaction already imported",
          "transaction with the same hash was already imported"],
        p.data <:+: (toLowerCase message).data) ∧
    (classifyError message = ErrorClass.retryableTimeout ↔
      (¬ ∃ p ∈ ["nonce too low", "transaction underpriced", "replacement transaction underpriced",
          "transaction already imported",
          "transaction with the same hash was already imported"],
        p.data <:+: (toLowerCase message).data) ∧
      "transaction was not mined within".data <:+: (toLowerCase message).data) ∧
    (classifyError message = ErrorClass.fatal ↔
      (¬ ∃ p ∈ ["nonce too low", "transaction underpriced", "replacement transaction underpriced",
          "transaction already imported",
          "transaction with the same hash was already imported"],
        p.data <:+: (toLowerCase message).data) ∧
      ¬ "transaction was not mined within".data <:+: (toLowerCase message).data) ∧
    (∀ other, toLowerCase other = toLowerCase message →
      classifyError other = classifyError message) := by
  have hp : (∃ p ∈ ["nonce too low", "transaction underpriced",
        "replacement transaction underpriced", "transaction already imported",
        "transaction with the same hash was already imported"],
        p.data <:+: (toLowerCase message).data) ↔
      (includes (toLowerCase message) "nonce too low"
        || includes (toLowerCase message) "transaction underpriced"
        || includes (toLowerCase message) "replacement transaction underpriced"
        || includes (toLowerCase message) "transaction already imported"
        || includes (toLowerCase message)
            "transaction with the same hash was already imported") = true := by
    simp only [List.mem_cons, List.mem_singleton, exists_eq_or_imp, exists_eq_left,
      Bool.or_eq_true, includes_iff, List.not_mem_nil, false_and, exists_false, or_false,
      or_assoc]
  rw [hp, ← includes_iff]
  simp only [classifyError]
  refine ⟨?_, ?_, ?_, ?_⟩
  · split_ifs <;> simp_all
  · split_ifs <;> simp_all
  · split_ifs <;> simp_all
  · intro other hother
    simp only [hother]

/-- C7 as stated fails. The lower-cased form of this message contains
`same hash was already imported`, the fifth pattern as the claim words it, yet
the code classifies it as fatal: the code looks for the longer
`transaction with the same hash was already imported`. -/
theorem short_same_hash_message_is_fatal :
    "same hash was already imported".data <:+:
      (toLowerCase "Known transaction: same hash was already imported").data ∧
    classifyError "Known transaction: same hash was already imported" = ErrorClass.fatal := by
  constructor
  · rw [← includes_iff]
    decide
  · decide

/-! ## C8 -/

/-- C8, the code at five nonce errors in a row. The call makes 5 attempts and
starts 5 timers; the trace ends with the 160 second timer that follows the
fifth failed attempt and the line reporting failure, with no attempt between
them. -/
theorem sleep_follows_fifth_failed_attempt :
    attemptCount
      (sendAndConfirmTransaction 1700000000000 (fun _ => nonceTooLow) sampleTx freshStats).final.trace
      = 5 ∧
    sleepCount
      (sendAndConfirmTransaction 1700000000000 (fun _ => nonceTooLow) sampleTx freshStats).final.trace
      = 5 ∧
    (sendAndConfirmTransaction 1700000000000 (fun _ => nonceTooLow) sampleTx
        freshStats).final.trace.drop 28 =
      [Event.getTransactionCount sampleTx.from_ "pending" (Except.ok 7),
        Event.log (LogLine.sending 5),
        Event.signTransaction { sampleTx with nonce := some 7 } (Except.ok "0xf86c07"),
        Event.sendSignedTransaction "0xf86c07" (Except.error "Returned error: nonce too low"),
        Event.log (LogLine.transactionError 5 "Returned error: nonce too low"),
        Event.log (LogLine.retrying 160),
        Event.sleep 160000,
        Event.log LogLine.failedAfterRetries] := by
  have hc : classifyError "Returned error: nonce too low" = ErrorClass.retryableNonceOrPrice := by
    decide
  have hr : getRandomInt 0 5 10 = 5 :=
    getRandomInt_zero 5 10 (by norm_num) (by norm_num) (by norm_num)
  simp [sendAndConfirmTransaction, sendLoop_eq, maxRetries, loopBody, catchBlock, afterLoop,
    nonceTooLow, hc, hr, attemptCount, sleepCount, Event.isNonceCall, Event.isSleep, sampleTx]

/-! ## C9 -/

theorem freshNonces_nil (base : TxParams) : FreshNonces base [] := by
  intro pre e post h
  simp at h

/-- Appending one well preceded event keeps a trace well preceded. -/
theorem freshNonces_snoc {base : TxParams} {l : List Event} {e : Event}
    (hl : FreshNonces base l) (he : wellPreceded base l e) : FreshNonces base (l ++ [e]) := by
  intro pre e' post heq
  rcases List.eq_nil_or_concat post with rfl | ⟨post', x, rfl⟩
  · obtain ⟨h₁, h₂⟩ := List.append_inj' heq rfl
    cases h₂
    rw [← h₁]
    exact he
  · rw [List.concat_eq_append, ← List.cons_append, ← List.append_assoc] at heq
    obtain ⟨h₁, _⟩ := List.append_inj' heq rfl
    exact hl pre e' post' h₁

/-- Appending log lines and timers keeps the invariant. -/
theorem nonceInv_log_sleep {base : TxParams} {st st' : LoopState} (h : NonceInv base st)
    (htx : st'.txParams = st.txParams)
    (htrace : ∃ es, st'.trace = st.trace ++ es ∧
      ∀ e ∈ es, (∃ line, e = Event.log line) ∨ (∃ ms, e = Event.sleep ms)) :
    NonceInv base st' := by
  obtain ⟨es, hes, hinert⟩ := htrace
  obtain ⟨hskel, hfresh, hcount⟩ := h
  refine ⟨by rw [htx]; exact hskel, ?_, ?_⟩
  · rw [hes]
    clear hes
    induction es using List.reverseRecOn with
    | nil => simpa using hfresh
    | append_singleton es e ih =>
      rw [← List.append_assoc]
      apply freshNonces_snoc
      · exact ih (fun e' he' => hinert e' (by simp [he']))
      · rcases hinert e (by simp) with ⟨line, rfl⟩ | ⟨ms, rfl⟩ <;> trivial
  · rw [hes, List.countP_append, List.countP_append, hcount]
    congr 1
    clear hes
    induction es with
    | nil => rfl
    | cons e es ih =>
      have ih' := ih (fun e' he' => hinert e' (by simp [he']))
      rcases hinert e (by simp) with ⟨line, rfl⟩ | ⟨ms, rfl⟩ <;>
        simp [List.countP_cons, Event.isNonceRead, Event.isSign, ih']

/-- The `catch` block keeps the invariant. -/
theorem catchBlock_nonceInv (base : TxParams) (a : Attempt) (message : String)
    (st : LoopState) (h : NonceInv base st) :
    match catchBlock a message st with
    | Step.done r => NonceInv base r.final
    | Step.again st' => NonceInv base st' := by
  rcases hc : classifyError message <;> simp only [catchBlock, hc]
  · exact nonceInv_log_sleep h rfl
      ⟨_, List.append_assoc _ _ _, by simp⟩
  · exact nonceInv_log_sleep h rfl
      ⟨_, List.append_assoc _ _ _, by simp⟩
  · exact nonceInv_log_sleep h rfl
      ⟨_, List.append_assoc _ _ _, by simp⟩

/-- The state after a nonce call that rejected. -/
theorem nonceInv_read_error {base : TxParams} {st : LoopState} (h : NonceInv base st)
    (message : String) :
    NonceInv base { st with
      trace := st.trace ++
        [Event.getTransactionCount st.txParams.from_ "pending" (Except.error message)] } := by
  obtain ⟨⟨n₀, hskel⟩, hfresh, hcount⟩ := h
  refine ⟨⟨n₀, hskel⟩, freshNonces_snoc hfresh ?_, ?_⟩
  · rw [hskel]
    exact ⟨rfl, rfl⟩
  · simp [List.countP_append, Event.isNonceRead, Event.isSign, hcount]

/-- The state after a nonce read, the line announcing the attempt, and the
signing of the skeleton with the nonce just read. -/
theorem nonceInv_read_sign {base : TxParams} {st : LoopState} (h : NonceInv base st)
    (nonce attempt : Nat) (answer : Except String String) :
    NonceInv base { st with
      txParams := { st.txParams with nonce := some nonce }
      trace := st.trace ++
        [Event.getTransactionCount st.txParams.from_ "pending" (Except.ok nonce)] ++
        [Event.log (LogLine.sending attempt)] ++
        [Event.signTransaction { st.txParams with nonce := some nonce } answer] } := by
  obtain ⟨⟨n₀, hskel⟩, hfresh, hcount⟩ := h
  have hfrom : st.txParams.from_ = base.from_ := by rw [hskel]
  have htx : ({ st.txParams with nonce := some nonce } : TxParams)
      = { base with nonce := some nonce } := by rw [hskel]
  refine ⟨⟨some nonce, htx⟩, ?_, ?_⟩
  · apply freshNonces_snoc
    · apply freshNonces_snoc
      · apply freshNonces_snoc hfresh
        exact ⟨hfrom, rfl⟩
      · trivial
    · refine ⟨st.trace, nonce, attempt, ?_, htx⟩
      rw [hfrom, List.append_assoc]
      rfl
  · simp [List.countP_append, Event.isNonceRead, Event.isSign, hcount]

/-- The state after the broadcast of what the signing produced. -/
theorem nonceInv_broadcast {base : TxParams} {st : LoopState} (h : NonceInv base st)
    (nonce attempt : Nat) (rawTransaction : String) (answer : Except String Receipt) :
    NonceInv base { st with
      txParams := { st.txParams with nonce := some nonce }
      trace := st.trace ++
        [Event.getTransactionCount st.txParams.from_ "pending" (Except.ok nonce)] ++
        [Event.log (LogLine.sending attempt)] ++
        [Event.signTransaction { st.txParams with nonce := some nonce }
          (Except.ok rawTransaction)] ++
        [Event.sendSignedTransaction rawTransaction answer] } := by
  obtain ⟨hskel, hfresh, hcount⟩ :=
    nonceInv_read_sign h nonce attempt (Except.ok rawTransaction)
  refine ⟨hskel, freshNonces_snoc hfresh ⟨_, _, rfl⟩, ?_⟩
  simp only [List.countP_append] at hcount ⊢
  simp [Event.isNonceRead, Event.isSign] at hcount ⊢
  omega

/-- One pass through the loop body keeps the invariant. -/
theorem loopBody_nonceInv (base : TxParams) (startTime : Int) (a : Attempt) (st : LoopState)
    (h : NonceInv base st) :
    match loopBody startTime a st with
    | Step.done r => NonceInv base r.final
    | Step.again st' => NonceInv base st' := by
  unfold loopBody
  rcases hg : a.getTransactionCount with m₁ | nonce
  · exact catchBlock_nonceInv base a m₁ _ (nonceInv_read_error h m₁)
  · rcases hs : a.signTransaction with m₂ | raw
    · exact catchBlock_nonceInv base a m₂ _
        (nonceInv_read_sign h nonce (st.retryCount + 1) (Except.error m₂))
    · rcases hb : a.sendSignedTransaction with m₃ | receipt
      · exact catchBlock_nonceInv base a m₃ _
          (nonceInv_broadcast h nonce (st.retryCount + 1) raw (Except.error m₃))
      · have hinv := nonceInv_broadcast h nonce (st.retryCount + 1) raw (Except.ok receipt)
        simp only
        by_cases hstatus : receipt.status = true
        · rw [if_pos hstatus]
          exact nonceInv_log_sleep hinv rfl ⟨_, rfl, by simp⟩
        · rw [if_neg hstatus]
          exact nonceInv_log_sleep hinv rfl ⟨_, rfl, by simp⟩

/-- The whole loop keeps the invariant. -/
theorem sendLoop_nonceInv (base : TxParams) (startTime : Int) (attempts : Nat → Attempt)
    (st : LoopState) (h : NonceInv base st) :
    NonceInv base (sendLoop startTime attempts st).final := by
  refine sendLoop_induction startTime
    (fun _ st r => NonceInv base st → NonceInv base r.final) ?_ ?_ ?_ attempts st h
  · intro a st _ hinv
    exact nonceInv_log_sleep hinv rfl ⟨_, rfl, by simp⟩
  · intro a st r _ hr hinv
    have := loopBody_nonceInv base startTime (a 0) st hinv
    rw [hr] at this
    exact this
  · intro a st st' _ hr ih hinv
    have := loopBody_nonceInv base startTime (a 0) st hinv
    rw [hr] at this
    exact ih this

/-- C9. In the trace of every call, each nonce call asks for the pending count
of `txParams.from`; each signing is immediately preceded (a log line apart) by a
nonce call that resolved in the same pass, and the transaction signed is the
skeleton carrying exactly the value just read; each broadcast immediately
follows the signing that produced it; and the number of nonce reads that
resolved equals the number of signings. A pass whose nonce call rejects signs
nothing. -/
theorem nonce_is_read_afresh_before_every_signing (startTime : Int) (attempts : Nat → Attempt)
    (txParams : TxParams) (txStats : TxStats) :
    (∀ pre address block answer post,
      (sendAndConfirmTransaction startTime attempts txParams txStats).final.trace
        = pre ++ Event.getTransactionCount address block answer :: post →
      address = txParams.from_ ∧ block = "pending") ∧
    (∀ pre tx answer post,
      (sendAndConfirmTransaction startTime attempts txParams txStats).final.trace
        = pre ++ Event.signTransaction tx answer :: post →
      ∃ pre' nonce attempt,
        pre = pre' ++ [Event.getTransactionCount txParams.from_ "pending" (Except.ok nonce),
          Event.log (LogLine.sending attempt)] ∧
        tx = { txParams with nonce := some nonce }) ∧
    (∀ pre rawTransaction answer post,
      (sendAndConfirmTransaction startTime attempts txParams txStats).final.trace
        = pre ++ Event.sendSignedTransaction rawTransaction answer :: post →
      ∃ pre' tx, pre = pre' ++ [Event.signTransaction tx (Except.ok rawTransaction)]) ∧
    (sendAndConfirmTransaction startTime attempts txParams txStats).final.trace.countP
        Event.isNonceRead =
      (sendAndConfirmTransaction startTime attempts txParams txStats).final.trace.countP
        Event.isSign := by
  obtain ⟨_, hfresh, hcount⟩ :=
    sendLoop_nonceInv txParams startTime attempts
      { retryCount := 0, txParams := txParams, txStats := txStats, trace := [] }
      ⟨⟨txParams.nonce, rfl⟩, freshNonces_nil txParams, rfl⟩
  refine ⟨?_, ?_, ?_, hcount⟩
  · intro pre address block answer post heq
    exact hfresh pre _ post heq
  · intro pre tx answer post heq
    exact hfresh pre _ post heq
  · intro pre rawTransaction answer post heq
    exact hfresh pre _ post heq

/-! ## C10 -/

theorem Step.Satisfies.imp {P P' : Result → Prop} {Q Q' : LoopState → Prop} {s : Step}
    (h : s.Satisfies P Q) (hP : ∀ r, P r → P' r) (hQ : ∀ st, Q st → Q' st) :
    s.Satisfies P' Q' := by
  cases s with
  | done r => exact hP r h
  | again st => exact hQ st h

theorem logsInRange_append {l₁ l₂ : List Event} :
    LogsInRange (l₁ ++ l₂) ↔ LogsInRange l₁ ∧ LogsInRange l₂ :=
  List.forall_mem_append

theorem logsInRange_cons {e : Event} {l : List Event} :
    LogsInRange (e :: l) ↔ (∀ k, e.attemptNumber = some k → 1 ≤ k ∧ k ≤ 5) ∧ LogsInRange l :=
  List.forall_mem_cons

theorem logsInRange_nil : LogsInRange [] := by
  intro e he
  simp at he

theorem logsInRange_of_eq {n : Nat} (hn : n < 5) {es : List Event}
    (h : ∀ e ∈ es, ∀ k, e.attemptNumber = some k → k = n + 1) : LogsInRange es := by
  intro e he k hk
  have := h e he k hk
  omega

/-- The `catch` block, entered with the counter below 5 after the events
`pre` of the `try` block, appends log lines and timers only. -/
theorem catchBlock_counter (a : Attempt) (message : String) (st st₁ : LoopState)
    (pre : List Event) (hrc : st₁.retryCount = st.retryCount)
    (htr : st₁.trace = st.trace ++ pre) (hpre : attemptCount pre = 1)
    (hlog : LogsInRange pre) (hlt : st.retryCount < 5) :
    (catchBlock a message st₁).Satisfies (PassDone 1 st) (PassAgain 1 st) := by
  rcases hc : classifyError message <;> simp only [catchBlock, hc]
  · refine ⟨by rw [← hrc], pre ++ _, by
      show st₁.trace ++ _ ++ _ = _
      rw [htr, List.append_assoc, List.append_assoc], ?_, ?_⟩
    · rw [attemptCount_append, hpre]
      simp [attemptCount, Event.isNonceCall]
    · refine logsInRange_append.mpr ⟨hlog, logsInRange_of_eq hlt ?_⟩
      simp [Event.attemptNumber, hrc]
  · refine ⟨by rw [← hrc], pre ++ _, by
      show st₁.trace ++ _ ++ _ = _
      rw [htr, List.append_assoc, List.append_assoc], ?_, ?_⟩
    · rw [attemptCount_append, hpre]
      simp [attemptCount, Event.isNonceCall]
    · refine logsInRange_append.mpr ⟨hlog, logsInRange_of_eq hlt ?_⟩
      simp [Event.attemptNumber, hrc]
  · refine ⟨hrc, pre ++ _, by
      show st₁.trace ++ _ ++ _ = _
      rw [htr, List.append_assoc, List.append_assoc], ?_, ?_, ?_⟩
    · rw [attemptCount_append, hpre]
      simp [attemptCount, Event.isNonceCall]
    · refine logsInRange_append.mpr ⟨hlog, logsInRange_of_eq hlt ?_⟩
      simp [Event.attemptNumber, hrc]
    · exact ⟨Event.log (LogLine.failedPermanently message), by simp, by simp⟩

/-- A pass through the loop body, entered with the counter below 5, appends
exactly one nonce call and attempt numbers in range; when it returns the
counter is unchanged and the last line is not the one reporting exhausted
retries, otherwise the counter has gone up by one. -/
theorem loopBody_counter (startTime : Int) (a : Attempt) (st : LoopState)
    (hlt : st.retryCount < 5) :
    (loopBody startTime a st).Satisfies (PassDone 1 st) (PassAgain 1 st) := by
  unfold loopBody
  rcases hg : a.getTransactionCount with m₁ | nonce
  · exact catchBlock_counter a m₁ st _
      [Event.getTransactionCount st.txParams.from_ "pending" (Except.error m₁)]
      rfl rfl (by simp [attemptCount, Event.isNonceCall])
      (logsInRange_of_eq hlt (by simp [Event.attemptNumber])) hlt
  · rcases hs : a.signTransaction with m₂ | raw
    · exact catchBlock_counter a m₂ st _
        [Event.getTransactionCount st.txParams.from_ "pending" (Except.ok nonce),
        Event.log (LogLine.sending (st.retryCount + 1)),
        Event.signTransaction { st.txParams with nonce := some nonce } (Except.error m₂)]
        rfl (by simp) (by simp [attemptCount, Event.isNonceCall])
        (logsInRange_of_eq hlt (by simp [Event.attemptNumber])) hlt
    · rcases hb : a.sendSignedTransaction with m₃ | receipt
      · exact catchBlock_counter a m₃ st _
          [Event.getTransactionCount st.txParams.from_ "pending" (Except.ok nonce),
          Event.log (LogLine.sending (st.retryCount + 1)),
          Event.signTransaction { st.txParams with nonce := some nonce } (Except.ok raw),
          Event.sendSignedTransaction raw (Except.error m₃)]
          rfl (by simp) (by simp [attemptCount, Event.isNonceCall])
          (logsInRange_of_eq hlt (by simp [Event.attemptNumber])) hlt
      · simp only
        by_cases hstatus : receipt.status = true
        · rw [if_pos hstatus]
          exact ⟨rfl,
            [Event.getTransactionCount st.txParams.from_ "pending" (Except.ok nonce),
              Event.log (LogLine.sending (st.retryCount + 1)),
              Event.signTransaction { st.txParams with nonce := some nonce } (Except.ok raw),
              Event.sendSignedTransaction raw (Except.ok receipt),
              Event.log (LogLine.success receipt.transactionHash)],
            by simp, by simp [attemptCount, Event.isNonceCall],
            logsInRange_of_eq hlt (by simp [Event.attemptNumber]), _, rfl, by simp⟩
        · rw [if_neg hstatus]
          exact ⟨rfl,
            [Event.getTransactionCount st.txParams.from_ "pending" (Except.ok nonce),
              Event.log (LogLine.sending (st.retryCount + 1)),
              Event.signTransaction { st.txParams with nonce := some nonce } (Except.ok raw),
              Event.sendSignedTransaction raw (Except.ok receipt),
              Event.log (LogLine.reverted receipt.transactionHash)],
            by simp, by simp [attemptCount, Event.isNonceCall],
            logsInRange_of_eq hlt (by simp [Event.attemptNumber]), _, rfl, by simp⟩

/-- The invariant at the loop test: as many passes have started as the retry
counter says, and every attempt number logged so far lies in `1..5`. From a
state satisfying it, the loop ends with at most 5 passes in the trace, the
counter at most 5, attempt numbers in range, and the counter at 5 exactly when
the trace ends with the line reporting exhausted retries. -/
theorem sendLoop_counter (startTime : Int) (attempts : Nat → Attempt) (st : LoopState)
    (hle : st.retryCount ≤ 5) (hcount : attemptCount st.trace = st.retryCount)
    (hlog : LogsInRange st.trace) :
    attemptCount (sendLoop startTime attempts st).final.trace ≤ 5 ∧
    (sendLoop startTime attempts st).final.retryCount ≤ 5 ∧
    LogsInRange (sendLoop startTime attempts st).final.trace ∧
    ((sendLoop startTime attempts st).final.retryCount = 5 ↔
      (sendLoop startTime attempts st).final.trace.getLast?
        = some (Event.log LogLine.failedAfterRetries)) := by
  refine sendLoop_induction startTime
    (fun _ st r => st.retryCount ≤ 5 → attemptCount st.trace = st.retryCount →
      LogsInRange st.trace →
      attemptCount r.final.trace ≤ 5 ∧ r.final.retryCount ≤ 5 ∧ LogsInRange r.final.trace ∧
      (r.final.retryCount = 5 ↔
        r.final.trace.getLast? = some (Event.log LogLine.failedAfterRetries)))
    ?_ ?_ ?_ attempts st hle hcount hlog
  · intro a st hnot hle hcount hlog
    have h5 : st.retryCount = 5 := by
      simp only [maxRetries] at hnot
      omega
    refine ⟨?_, by simp [afterLoop, h5], ?_, ?_⟩
    · show attemptCount (st.trace ++ [Event.log LogLine.failedAfterRetries]) ≤ 5
      rw [attemptCount_append, hcount, h5]
      simp [attemptCount, Event.isNonceCall]
    · exact logsInRange_append.mpr ⟨hlog, by
        intro e he k hk
        simp at he
        subst he
        cases hk⟩
    · simp [afterLoop, h5]
  · intro a st r hlt hr _ hcount hlog
    have hlt' : st.retryCount < 5 := hlt
    have := loopBody_counter startTime (a 0) st hlt'
    rw [hr] at this
    obtain ⟨h₁, es, h₂, h₃, h₄, last, h₅, h₆⟩ := this
    refine ⟨by rw [h₂, attemptCount_append, h₃, hcount]; omega, by omega,
      by rw [h₂]; exact logsInRange_append.mpr ⟨hlog, h₄⟩, ?_⟩
    rw [h₂, List.getLast?_append, h₅]
    constructor
    · intro h
      omega
    · intro h
      simp only [Option.or_some, Option.some.injEq] at h
      exact absurd h h₆
  · intro a st st' hlt hr ih _ hcount hlog
    have hlt' : st.retryCount < 5 := hlt
    have := loopBody_counter startTime (a 0) st hlt'
    rw [hr] at this
    obtain ⟨h₁, es, h₂, h₃, h₄⟩ := this
    exact ih (by omega) (by rw [h₂, attemptCount_append, h₃, hcount, h₁])
      (by rw [h₂]; exact logsInRange_append.mpr ⟨hlog, h₄⟩)

/-- C10. For every stream of network answers the call ends (the loop is a total
function) after at most `maxRetries = 5` attempts; every attempt number it
logs, which is the retry counter at the start of that attempt plus one, lies
in `1..5`, so the counter lies in `[0, 5)` at the start of every attempt; the
counter never exceeds 5 and is 5 at the end exactly when the call ends on the
path after the loop that reports exhausted retries. -/
theorem at_most_five_attempts (startTime : Int) (attempts : Nat → Attempt)
    (txParams : TxParams) (txStats : TxStats) :
    attemptCount (sendAndConfirmTransaction startTime attempts txParams txStats).final.trace ≤ 5 ∧
    (sendAndConfirmTransaction startTime attempts txParams txStats).final.retryCount ≤ 5 ∧
    (∀ e ∈ (sendAndConfirmTransaction startTime attempts txParams txStats).final.trace,
      ∀ k, e.attemptNumber = some k → 1 ≤ k ∧ k ≤ 5) ∧
    ((sendAndConfirmTransaction startTime attempts txParams txStats).final.retryCount = 5 ↔
      (sendAndConfirmTransaction startTime attempts txParams txStats).final.trace.getLast?
        = some (Event.log LogLine.failedAfterRetries)) :=
  sendLoop_counter startTime attempts
    { retryCount := 0, txParams := txParams, txStats := txStats, trace := [] }
    (Nat.zero_le 5) rfl logsInRange_nil

/-! ## C11 -/

/-- C11. The approval decision of `approveToken` is a function of the token
balance, the current allowance and the required amount alone: it is
`sufficient` iff allowance and balance are both at least the amount,
`insufficientBalance` iff the balance is below the amount whatever the
allowance, and `needsApproval` otherwise; `decide(1000, 500, 1000)`,
`decide(400, 500, 1000)` and `decide(1000, 1000, 1000)` are as the scenarios
say. Whenever `approveToken` reaches the decision, `sufficient` makes it
return `"ALREADY_APPROVED"`, `insufficientBalance` makes it return `null` with
no transaction built, and `needsApproval` makes it build and submit the
approval. -/
theorem approval_decision_is_pure (tokenBalance currentAllowance required : Int) :
    (approvalDecision tokenBalance currentAllowance required = AllowanceDecision.sufficient ↔
      currentAllowance ≥ required ∧ tokenBalance ≥ required) ∧
    (approvalDecision tokenBalance currentAllowance required
        = AllowanceDecision.insufficientBalance ↔
      tokenBalance < required) ∧
    (approvalDecision tokenBalance currentAllowance required = AllowanceDecision.needsApproval ↔
      ¬ (currentAllowance ≥ required ∧ tokenBalance ≥ required) ∧ ¬ tokenBalance < required) ∧
    approvalDecision 1000 500 1000 = AllowanceDecision.needsApproval ∧
    approvalDecision 400 500 1000 = AllowanceDecision.insufficientBalance ∧
    approvalDecision 1000 1000 1000 = AllowanceDecision.sufficient ∧
    (∀ (tokenAddress spenderAddress ownerAddress : String) (amountToApprove : ℚ)
        (ans : ApproveAnswers) (txStats : TxStats) (balance : Int) (decimals : Nat),
      ans.getBalance = Except.ok balance → 10 ^ 15 ≤ balance →
      ans.decimals = Except.ok decimals →
      ans.amountWei amountToApprove decimals = Except.ok required →
      ans.allowance = Except.ok currentAllowance →
      ans.balanceOf = Except.ok tokenBalance →
      (approvalDecision tokenBalance currentAllowance required = AllowanceDecision.sufficient →
        approveToken tokenAddress spenderAddress ownerAddress amountToApprove ans txStats =
          { returned := some "ALREADY_APPROVED", txStats := txStats, history := [],
            built := none, submitted := none }) ∧
      (approvalDecision tokenBalance currentAllowance required
          = AllowanceDecision.insufficientBalance →
        approveToken tokenAddress spenderAddress ownerAddress amountToApprove ans txStats =
          { returned := none
            txStats := { txStats with failed := txStats.failed + 1 }
            history := [{ txStats with failed := txStats.failed + 1 }]
            built := none, submitted := none }) ∧
      (approvalDecision tokenBalance currentAllowance required
          = AllowanceDecision.needsApproval →
        ∀ gasPrice data, ans.getGasPrice = Except.ok gasPrice →
          ans.encodeABI spenderAddress required = Except.ok data →
          approveToken tokenAddress spenderAddress ownerAddress amountToApprove ans txStats =
            submitResult ans.startTime ans.attempts
              { from_ := ownerAddress, to_ := tokenAddress, gas := 3000000,
                gasPrice := gasPrice, data := data, chainId := none, nonce := none }
              txStats)) := by
  refine ⟨?_, ?_, ?_, by decide, by decide, by decide, ?_⟩
  · unfold approvalDecision
    split_ifs <;> simp <;> omega
  · unfold approvalDecision
    split_ifs <;> simp <;> omega
  · unfold approvalDecision
    split_ifs <;> simp <;> omega
  · intro tokenAddress spenderAddress ownerAddress amountToApprove ans txStats balance decimals
      hbal hgas hdec hamt hall hbalof
    have hnot : ¬ balance < 1000000000000000 := by
      norm_num at hgas
      omega
    refine ⟨?_, ?_, ?_⟩
    · intro hd
      simp [approveToken, hbal, hnot, hdec, hamt, hall, hbalof, hd]
    · intro hd
      simp [approveToken, hbal, hnot, hdec, hamt, hall, hbalof, hd, failedResult]
    · intro hd gasPrice data hprice hdata
      simp [approveToken, hbal, hnot, hdec, hamt, hall, hbalof, hd, hprice, hdata]

/-! ## C12 -/

/-- C12. When `approveToken` takes the path on which the allowance is already
sufficient (the reads resolve, the owner has gas, and balance and allowance are
both at least the amount), it returns `"ALREADY_APPROVED"`, builds and submits
no transaction, and leaves `txStats` as it was. -/
theorem sufficient_allowance_is_a_no_op (tokenAddress spenderAddress ownerAddress : String)
    (amountToApprove : ℚ) (ans : ApproveAnswers) (txStats : TxStats) (balance : Int)
    (decimals : Nat) (required currentAllowance tokenBalance : Int)
    (hbal : ans.getBalance = Except.ok balance) (hgas : 10 ^ 15 ≤ balance)
    (hdec : ans.decimals = Except.ok decimals)
    (hamt : ans.amountWei amountToApprove decimals = Except.ok required)
    (hall : ans.allowance = Except.ok currentAllowance)
    (hbalof : ans.balanceOf = Except.ok tokenBalance)
    (henough : required ≤ tokenBalance) (hallowed : required ≤ currentAllowance) :
    approveToken tokenAddress spenderAddress ownerAddress amountToApprove ans txStats =
      { returned := some "ALREADY_APPROVED", txStats := txStats, history := [],
        built := none, submitted := none } := by
  have hnot : ¬ balance < 1000000000000000 := by
    norm_num at hgas
    omega
  have hd : approvalDecision tokenBalance currentAllowance required
      = AllowanceDecision.sufficient := by
    unfold approvalDecision
    rw [if_neg (not_lt.mpr henough), if_pos hallowed]
  simp [approveToken, hbal, hnot, hdec, hamt, hall, hbalof, hd]

/-- C12 at an owner whose allowance of 1000 tokens covers the 1000 asked
for. -/
theorem sufficient_allowance_is_a_no_op_witness :
    approveToken tokenIn swapRouterAddress "0x52908400098527886E0F7030069857D2E4169EE7" 1000
        approveSufficient freshStats =
      { returned := some "ALREADY_APPROVED", txStats := freshStats, history := [],
        built := none, submitted := none } :=
  sufficient_allowance_is_a_no_op tokenIn swapRouterAddress
    "0x52908400098527886E0F7030069857D2E4169EE7" 1000 approveSufficient freshStats
    (2 * 10 ^ 18) 18 (1000 * 10 ^ 18) (1000 * 10 ^ 18) (1000 * 10 ^ 18)
    rfl (by norm_num) rfl rfl rfl rfl (le_refl _) (le_refl _)

/-! ## C16 -/

/-- A power of ten up to `10^22` is a binary64 value. -/
theorem binary64_ten_pow (decimals : Nat) (h : decimals ≤ 22) :
    binary64 ((10 : ℚ) ^ decimals) = 10 ^ decimals := by
  have hz : |((5 : Int) ^ decimals)| < 2 ^ 53 := by
    rw [abs_of_nonneg (by positivity)]
    calc (5 : Int) ^ decimals ≤ 5 ^ 22 := pow_le_pow_right₀ (by norm_num) h
      _ < 2 ^ 53 := by norm_num
  refine binary64_eq_self _ (5 ^ decimals) decimals hz ?_
  rw [zpow_natCast]
  push_cast
  rw [← mul_pow]
  norm_num

/-- The amount in wei the code computes is the exact product up to one
rounding and the floor. -/
theorem computeAmountInWei_bounds (amountIn : ℚ) (decimals : Nat) (h0 : 0 ≤ amountIn)
    (hd : decimals ≤ 22) :
    amountIn * 10 ^ decimals * (1 - 1 / 2 ^ 53) - 1 < (computeAmountInWei amountIn decimals : ℚ) ∧
    (computeAmountInWei amountIn decimals : ℚ) ≤ amountIn * 10 ^ decimals * (1 + 1 / 2 ^ 53) := by
  have hx : (0 : ℚ) ≤ amountIn * 10 ^ decimals := mul_nonneg h0 (by positivity)
  have hlo := le_binary64 _ hx
  have hhi := binary64_le _ hx
  unfold computeAmountInWei
  rw [binary64_ten_pow decimals hd]
  have h₁ := Int.floor_le (binary64 (amountIn * 10 ^ decimals))
  have h₂ := Int.lt_floor_add_one (binary64 (amountIn * 10 ^ decimals))
  constructor <;> linarith

/-- The minimum amount out the code computes is the exact product up to three
roundings and the floor. -/
theorem computeAmountOutMinimum_bounds (amountIn : ℚ) (decimals : Nat) (h0 : 0 ≤ amountIn)
    (hd : decimals ≤ 22) :
    amountIn * (19 / 20) * 10 ^ decimals * (1 - 1 / 2 ^ 53) ^ 3 - 1
      < (computeAmountOutMinimum amountIn decimals : ℚ) ∧
    (computeAmountOutMinimum amountIn decimals : ℚ)
      ≤ amountIn * (19 / 20) * 10 ^ decimals * (1 + 1 / 2 ^ 53) ^ 3 := by
  have hp : (0 : ℚ) < 10 ^ decimals := by positivity
  have hs0 : 0 ≤ slippageTolerance := binary64_nonneg _ (by norm_num)
  have hs₁ : (19 / 20 : ℚ) * (1 - 1 / 2 ^ 53) ≤ slippageTolerance := le_binary64 _ (by norm_num)
  have hs₂ : slippageTolerance ≤ (19 / 20 : ℚ) * (1 + 1 / 2 ^ 53) := binary64_le _ (by norm_num)
  have ha : 0 ≤ amountIn * slippageTolerance := mul_nonneg h0 hs0
  have hb0 := binary64_nonneg _ ha
  have hb₁ := le_binary64 _ ha
  have hb₂ := binary64_le _ ha
  have hc : 0 ≤ binary64 (amountIn * slippageTolerance) * 10 ^ decimals := mul_nonneg hb0 hp.le
  have hc₁ := le_binary64 _ hc
  have hc₂ := binary64_le _ hc
  have hu₁ : (0 : ℚ) ≤ 1 - 1 / 2 ^ 53 := by norm_num
  have hu₂ : (0 : ℚ) ≤ 1 + 1 / 2 ^ 53 := by norm_num
  -- the first product
  have ha₁ : amountIn * (19 / 20) * (1 - 1 / 2 ^ 53) ≤ amountIn * slippageTolerance := by
    have := mul_le_mul_of_nonneg_left hs₁ h0
    linarith
  have ha₂ : amountIn * slippageTolerance ≤ amountIn * (19 / 20) * (1 + 1 / 2 ^ 53) := by
    have := mul_le_mul_of_nonneg_left hs₂ h0
    linarith
  have hb₁' : amountIn * (19 / 20) * (1 - 1 / 2 ^ 53) ^ 2
      ≤ binary64 (amountIn * slippageTolerance) := by
    have := mul_le_mul_of_nonneg_right ha₁ hu₁
    calc amountIn * (19 / 20) * (1 - 1 / 2 ^ 53) ^ 2
        = amountIn * (19 / 20) * (1 - 1 / 2 ^ 53) * (1 - 1 / 2 ^ 53) := by ring
      _ ≤ amountIn * slippageTolerance * (1 - 1 / 2 ^ 53) := this
      _ ≤ binary64 (amountIn * slippageTolerance) := hb₁
  have hb₂' : binary64 (amountIn * slippageTolerance)
      ≤ amountIn * (19 / 20) * (1 + 1 / 2 ^ 53) ^ 2 := by
    have := mul_le_mul_of_nonneg_right ha₂ hu₂
    calc binary64 (amountIn * slippageTolerance)
        ≤ amountIn * slippageTolerance * (1 + 1 / 2 ^ 53) := hb₂
      _ ≤ amountIn * (19 / 20) * (1 + 1 / 2 ^ 53) * (1 + 1 / 2 ^ 53) := this
      _ = amountIn * (19 / 20) * (1 + 1 / 2 ^ 53) ^ 2 := by ring
  -- the second product
  have hc₁' : amountIn * (19 / 20) * 10 ^ decimals * (1 - 1 / 2 ^ 53) ^ 3
      ≤ binary64 (binary64 (amountIn * slippageTolerance) * 10 ^ decimals) := by
    have := mul_le_mul_of_nonneg_right (mul_le_mul_of_nonneg_right hb₁' hp.le) hu₁
    calc amountIn * (19 / 20) * 10 ^ decimals * (1 - 1 / 2 ^ 53) ^ 3
        = amountIn * (19 / 20) * (1 - 1 / 2 ^ 53) ^ 2 * 10 ^ decimals * (1 - 1 / 2 ^ 53) := by
          ring
      _ ≤ binary64 (amountIn * slippageTolerance) * 10 ^ decimals * (1 - 1 / 2 ^ 53) := this
      _ ≤ binary64 (binary64 (amountIn * slippageTolerance) * 10 ^ decimals) := hc₁
  have hc₂' : binary64 (binary64 (amountIn * slippageTolerance) * 10 ^ decimals)
      ≤ amountIn * (19 / 20) * 10 ^ decimals * (1 + 1 / 2 ^ 53) ^ 3 := by
    have := mul_le_mul_of_nonneg_right (mul_le_mul_of_nonneg_right hb₂' hp.le) hu₂
    calc binary64 (binary64 (amountIn * slippageTolerance) * 10 ^ decimals)
        ≤ binary64 (amountIn * slippageTolerance) * 10 ^ decimals * (1 + 1 / 2 ^ 53) := hc₂
      _ ≤ amountIn * (19 / 20) * (1 + 1 / 2 ^ 53) ^ 2 * 10 ^ decimals * (1 + 1 / 2 ^ 53) := this
      _ = amountIn * (19 / 20) * 10 ^ decimals * (1 + 1 / 2 ^ 53) ^ 3 := by ring
  unfold computeAmountOutMinimum
  rw [binary64_ten_pow decimals hd]
  have h₁ := Int.floor_le (binary64 (binary64 (amountIn * slippageTolerance) * 10 ^ decimals))
  have h₂ := Int.lt_floor_add_one
    (binary64 (binary64 (amountIn * slippageTolerance) * 10 ^ decimals))
  constructor <;> linarith

/-- C16 as stated fails: the amounts are computed in binary64 arithmetic, not
in exact arithmetic. For 3 tokens of 18 decimals the code computes
`amountOutMinimum = 2849999999999999488`, where `floor(3 * 0.95 * 10^18)` is
`2850000000000000000`. -/
theorem computed_minimum_is_not_the_exact_floor :
    computeAmountOutMinimum 3 18 = 2849999999999999488 ∧
    ⌊(3 : ℚ) * (19 / 20) * 10 ^ 18⌋ = 2850000000000000000 ∧
    computeAmountOutMinimum 3 18 ≠ ⌊(3 : ℚ) * (19 / 20) * 10 ^ 18⌋ := by
  have h₁ := computeAmountOutMinimum_three
  have h₂ : ⌊(3 : ℚ) * (19 / 20) * 10 ^ 18⌋ = 2850000000000000000 :=
    Int.floor_eq_iff.mpr ⟨by norm_num, by norm_num⟩
  refine ⟨h₁, h₂, ?_⟩
  rw [h₁, h₂]
  decide

/-- C16, amended. For every non-negative amount `a` and token decimals
`d ≤ 22`, `swapToken` computes `amountInWei = floor(fl(a * 10^d))` and
`amountOutMinimum = floor(fl(fl(a * fl(0.95)) * 10^d))`, where `fl` is the
rounding to binary64: the first is the exact product up to one rounding and
the floor, the second up to three roundings and the floor. With the reads
resolved and the balance sufficient it passes exactly these two values, with
fee 500 and price limit 0, into the call of `exactInputSingle` whose encoding
is the data of the transaction it builds and submits. -/
theorem swap_amounts_are_binary64_products (tokenIn tokenOut : String) (amountIn : ℚ)
    (recipient : String) (ans : SwapAnswers) (txStats : TxStats) (address : String)
    (decimals : Nat) (tokenInBalance tokenOutBalance : Int) (gasPrice : Nat) (data : String)
    (chainId : Nat)
    (h0 : 0 ≤ amountIn) (hd : decimals ≤ 22)
    (hacc : ans.privateKeyToAccount = Except.ok address)
    (hdec : ans.decimals = Except.ok decimals)
    (hin : ans.amountInWei amountIn decimals
      = Except.ok (computeAmountInWei amountIn decimals))
    (hout : ans.amountOutMinimum amountIn decimals
      = Except.ok (computeAmountOutMinimum amountIn decimals))
    (hbin : ans.balanceOfIn = Except.ok tokenInBalance)
    (hbout : ans.balanceOfOut = Except.ok tokenOutBalance)
    (hle : computeAmountInWei amountIn decimals ≤ tokenInBalance)
    (hprice : ans.getGasPrice = Except.ok gasPrice)
    (hdata : ans.encodeABI
      { tokenIn := tokenIn, tokenOut := tokenOut, fee := 500, recipient := recipient,
        amountIn := ⌊binary64 (amountIn * 10 ^ decimals)⌋,
        amountOutMinimum := ⌊binary64 (binary64 (amountIn * binary64 (19 / 20)) * 10 ^ decimals)⌋,
        sqrtPriceLimitX96 := 0 } = Except.ok data)
    (hchain : ans.getChainId = Except.ok chainId) :
    computeAmountInWei amountIn decimals = ⌊binary64 (amountIn * 10 ^ decimals)⌋ ∧
    computeAmountOutMinimum amountIn decimals
      = ⌊binary64 (binary64 (amountIn * binary64 (19 / 20)) * 10 ^ decimals)⌋ ∧
    (amountIn * 10 ^ decimals * (1 - 1 / 2 ^ 53) - 1
        < (computeAmountInWei amountIn decimals : ℚ) ∧
      (computeAmountInWei amountIn decimals : ℚ)
        ≤ amountIn * 10 ^ decimals * (1 + 1 / 2 ^ 53)) ∧
    (amountIn * (19 / 20) * 10 ^ decimals * (1 - 1 / 2 ^ 53) ^ 3 - 1
        < (computeAmountOutMinimum amountIn decimals : ℚ) ∧
      (computeAmountOutMinimum amountIn decimals : ℚ)
        ≤ amountIn * (19 / 20) * 10 ^ decimals * (1 + 1 / 2 ^ 53) ^ 3) ∧
    swapToken tokenIn tokenOut amountIn recipient ans txStats =
      submitResult ans.startTime ans.attempts
        { from_ := address, to_ := swapRouterAddress, gas := 3000000,
          gasPrice := gasPrice, data := data, chainId := some chainId, nonce := none }
        txStats ∧
    (swapToken tokenIn tokenOut amountIn recipient ans txStats).built =
      some { from_ := address, to_ := swapRouterAddress, gas := 3000000,
             gasPrice := gasPrice, data := data, chainId := some chainId, nonce := none } := by
  have e₁ : computeAmountInWei amountIn decimals = ⌊binary64 (amountIn * 10 ^ decimals)⌋ := by
    unfold computeAmountInWei
    rw [binary64_ten_pow decimals hd]
  have e₂ : computeAmountOutMinimum amountIn decimals
      = ⌊binary64 (binary64 (amountIn * binary64 (19 / 20)) * 10 ^ decimals)⌋ := by
    unfold computeAmountOutMinimum slippageTolerance
    rw [binary64_ten_pow decimals hd]
  have hnot : ¬ tokenInBalance < computeAmountInWei amountIn decimals := not_lt.mpr hle
  rw [← e₁, ← e₂] at hdata
  have heq : swapToken tokenIn tokenOut amountIn recipient ans txStats =
      submitResult ans.startTime ans.attempts
        { from_ := address, to_ := swapRouterAddress, gas := 3000000,
          gasPrice := gasPrice, data := data, chainId := some chainId, nonce := none }
        txStats := by
    simp [swapToken, hacc, hdec, hin, hout, hbin, hbout, hnot, hprice, hdata, hchain]
  refine ⟨e₁, e₂, computeAmountInWei_bounds amountIn decimals h0 hd,
    computeAmountOutMinimum_bounds amountIn decimals h0 hd, heq, ?_⟩
  rw [heq]
  rfl

/-- C16 at a swap of 100 tokens of 18 decimals from a wallet holding 1000:
the call carries `100 * 10^18` and `95 * 10^18`, which here are the exact
values. -/
theorem swap_amounts_are_binary64_products_witness :
    computeAmountInWei 100 18 = 100 * 10 ^ 18 ∧
    computeAmountOutMinimum 100 18 = 95 * 10 ^ 18 ∧
    (swapConverted 0).encodeABI
      { tokenIn := tokenIn, tokenOut := tokenOut, fee := 500,
        recipient := "0x52908400098527886E0F7030069857D2E4169EE7",
        amountIn := 100 * 10 ^ 18, amountOutMinimum := 95 * 10 ^ 18,
        sqrtPriceLimitX96 := 0 } = Except.ok "0x414bf389" ∧
    (swapToken tokenIn tokenOut 100 "0x52908400098527886E0F7030069857D2E4169EE7"
        (swapConverted 0) freshStats).built =
      some { from_ := "0x52908400098527886E0F7030069857D2E4169EE7", to_ := swapRouterAddress,
             gas := 3000000, gasPrice := 6000000000, data := "0x414bf389",
             chainId := some 50312, nonce := none } :=
  ⟨computeAmountInWei_hundred, computeAmountOutMinimum_hundred, rfl,
    (swap_amounts_are_binary64_products tokenIn tokenOut 100
      "0x52908400098527886E0F7030069857D2E4169EE7" (swapConverted 0) freshStats
      "0x52908400098527886E0F7030069857D2E4169EE7" 18 (1000 * 10 ^ 18) 0 6000000000
      "0x414bf389" 50312 (by norm_num) (by norm_num) rfl rfl rfl rfl
      (by simp [swapConverted, swapFunded]) (by simp [swapConverted, swapFunded])
      (by rw [computeAmountInWei_hundred]; norm_num) rfl rfl rfl).2.2.2.2.2⟩

/-! ## C17 -/

/-- C17, amended. Once `swapToken` has read the account, the decimals, the two
amounts and the two balances, that of the output token included: if the balance of the input token is strictly below
`amountInWei` it returns `null` without building or submitting a transaction,
increments `failed` by exactly 1 and leaves `pending`, `success` and `times`
unchanged; if the balance is at least `amountInWei` it goes on, and with the
gas price, the encoded call and the chain id obtained it builds the swap
skeleton and submits it. -/
theorem swap_checks_balance_before_submitting (tokenIn tokenOut : String) (amountIn : ℚ)
    (recipient : String) (ans : SwapAnswers) (txStats : TxStats) (address : String)
    (decimals : Nat) (amountInWei amountOutMinimum tokenInBalance tokenOutBalance : Int)
    (hacc : ans.privateKeyToAccount = Except.ok address)
    (hdec : ans.decimals = Except.ok decimals)
    (hin : ans.amountInWei amountIn decimals = Except.ok amountInWei)
    (hout : ans.amountOutMinimum amountIn decimals = Except.ok amountOutMinimum)
    (hbin : ans.balanceOfIn = Except.ok tokenInBalance)
    (hbout : ans.balanceOfOut = Except.ok tokenOutBalance) :
    (tokenInBalance < amountInWei →
      swapToken tokenIn tokenOut amountIn recipient ans txStats =
        { returned := none
          txStats :=
            { success := txStats.success, failed := txStats.failed + 1,
              pending := txStats.pending, times := txStats.times }
          history :=
            [{ success := txStats.success, failed := txStats.failed + 1,
               pending := txStats.pending, times := txStats.times }]
          built := none
          submitted := none }) ∧
    (amountInWei ≤ tokenInBalance →
      ∀ gasPrice data chainId, ans.getGasPrice = Except.ok gasPrice →
        ans.encodeABI
          { tokenIn := tokenIn, tokenOut := tokenOut, fee := 500, recipient := recipient,
            amountIn := amountInWei, amountOutMinimum := amountOutMinimum,
            sqrtPriceLimitX96 := 0 } = Except.ok data →
        ans.getChainId = Except.ok chainId →
        swapToken tokenIn tokenOut amountIn recipient ans txStats =
          submitResult ans.startTime ans.attempts
            { from_ := address, to_ := swapRouterAddress, gas := 3000000,
              gasPrice := gasPrice, data := data, chainId := some chainId, nonce := none }
            txStats ∧
        (swapToken tokenIn tokenOut amountIn recipient ans txStats).submitted ≠ none) := by
  constructor
  · intro hlt
    simp [swapToken, hacc, hdec, hin, hout, hbin, hbout, hlt, failedResult]
  · intro hle gasPrice data chainId hprice hdata hchain
    have hnot : ¬ tokenInBalance < amountInWei := not_lt.mpr hle
    simp [swapToken, hacc, hdec, hin, hout, hbin, hbout, hnot, hprice, hdata, hchain,
      submitResult]

/-- C17 at a wallet holding 40 tokens asked to swap 100, which is refused, and
at the same wallet holding 1000, which goes on to the submission. -/
theorem swap_checks_balance_before_submitting_witness :
    swapToken tokenIn tokenOut 100 "0x52908400098527886E0F7030069857D2E4169EE7" swapShort
        freshStats =
      { returned := none
        txStats :=
          { success := freshStats.success, failed := freshStats.failed + 1,
            pending := freshStats.pending, times := freshStats.times }
        history :=
          [{ success := freshStats.success, failed := freshStats.failed + 1,
             pending := freshStats.pending, times := freshStats.times }]
        built := none
        submitted := none } ∧
    swapToken tokenIn tokenOut 100 "0x52908400098527886E0F7030069857D2E4169EE7" swapFunded
        freshStats =
      submitResult swapFunded.startTime swapFunded.attempts
        { from_ := "0x52908400098527886E0F7030069857D2E4169EE7", to_ := swapRouterAddress,
          gas := 3000000, gasPrice := 6000000000, data := "0x414bf389",
          chainId := some 50312, nonce := none }
        freshStats ∧
    (swapToken tokenIn tokenOut 100 "0x52908400098527886E0F7030069857D2E4169EE7" swapFunded
        freshStats).submitted ≠ none :=
  ⟨(swap_checks_balance_before_submitting tokenIn tokenOut 100
      "0x52908400098527886E0F7030069857D2E4169EE7" swapShort freshStats
      "0x52908400098527886E0F7030069857D2E4169EE7" 18 (100 * 10 ^ 18) (95 * 10 ^ 18)
      (40 * 10 ^ 18) 0 rfl rfl rfl rfl rfl rfl).1 (by norm_num),
    (swap_checks_balance_before_submitting tokenIn tokenOut 100
      "0x52908400098527886E0F7030069857D2E4169EE7" swapFunded freshStats
      "0x52908400098527886E0F7030069857D2E4169EE7" 18 (100 * 10 ^ 18) (95 * 10 ^ 18)
      (1000 * 10 ^ 18) 0 rfl rfl rfl rfl rfl rfl).2 (by norm_num) 6000000000 "0x414bf389" 50312
      rfl rfl rfl⟩

/-- C17 as stated fails when a read that stands between the balance and the
check is rejected. The wallet holds 40 tokens and is asked to swap 100, so its
balance is strictly below `amountInWei`; the read of the balance of the output
token, which the code makes before it compares, is rejected. `swapToken`
returns `null` through its `catch` block, and `failed` is not incremented. -/
theorem insufficient_balance_is_not_counted_when_a_read_fails :
    swapShortUnread.balanceOfIn = Except.ok (40 * 10 ^ 18) ∧
    swapShortUnread.amountInWei 100 18 = Except.ok (100 * 10 ^ 18) ∧
    (40 * 10 ^ 18 : Int) < 100 * 10 ^ 18 ∧
    swapToken tokenIn tokenOut 100 "0x52908400098527886E0F7030069857D2E4169EE7"
        swapShortUnread freshStats =
      { returned := none, txStats := freshStats, history := [], built := none,
        submitted := none } ∧
    (swapToken tokenIn tokenOut 100 "0x52908400098527886E0F7030069857D2E4169EE7"
        swapShortUnread freshStats).txStats.failed = 0 :=
  ⟨rfl, rfl, by norm_num, rfl, rfl⟩

/-! ## Statistics of one call and of a run -/

/-- A submission from a call site ends in one of two ways: `null` is returned
and `failed` is one higher, or the hash of a receipt with truthy status is
returned, `success` is one higher and one elapsed time is appended; `pending`
is back at its value from before the call either way. -/
theorem submitResult_stats (startTime : Int) (attempts : Nat → Attempt) (txParams : TxParams)
    (txStats : TxStats) :
    ((submitResult startTime attempts txParams txStats).returned = none ∧
      (submitResult startTime attempts txParams txStats).txStats =
        { txStats with failed := txStats.failed + 1 }) ∨
    (∃ (receipt : Receipt) (elapsed : Int), receipt.status = true ∧
      (submitResult startTime attempts txParams txStats).returned
        = some receipt.transactionHash ∧
      (submitResult startTime attempts txParams txStats).txStats =
        { txStats with success := txStats.success + 1, times := txStats.times ++ [elapsed] }) := by
  unfold submitResult submit sendAndConfirmTransaction
  rcases sendLoop_stats startTime attempts
    { retryCount := 0, txParams := txParams,
      txStats := { txStats with pending := txStats.pending + 1 }, trace := [] } with
    ⟨hret, hst⟩ | ⟨receipt, elapsed, hstatus, hret, hst⟩
  · left
    simp only [hret, hst, TxStats.recordFailure, Option.map_none', add_sub_cancel_right,
      and_self]
  · right
    refine ⟨receipt, elapsed, hstatus, ?_, ?_⟩
    · simp only [hret, Option.map_some']
    · simp only [hst, TxStats.recordSuccess, add_sub_cancel_right]

theorem keepsPending_caught (txStats : TxStats) : KeepsPending txStats (caughtResult txStats) := by
  simp [KeepsPending, caughtResult]

theorem keepsPending_failed (txStats : TxStats) : KeepsPending txStats (failedResult txStats) := by
  simp [KeepsPending, failedResult]

theorem keepsPending_submit (startTime : Int) (attempts : Nat → Attempt) (txParams : TxParams)
    (txStats : TxStats) :
    KeepsPending txStats (submitResult startTime attempts txParams txStats) := by
  have hp : (submitResult startTime attempts txParams txStats).txStats.pending
      = txStats.pending := by
    rcases submitResult_stats startTime attempts txParams txStats with
      ⟨_, h⟩ | ⟨_, _, _, _, h⟩ <;> rw [h]
  refine ⟨hp, ?_⟩
  intro h hh
  have : h = { txStats with pending := txStats.pending + 1 } ∨
      h = (submitResult startTime attempts txParams txStats).txStats := by
    simpa [submitResult] using hh
  rcases this with rfl | rfl
  · show txStats.pending ≤ txStats.pending + 1
    omega
  · rw [hp]

theorem approveToken_keepsPending (tokenAddress spenderAddress ownerAddress : String)
    (amountToApprove : ℚ) (ans : ApproveAnswers) (txStats : TxStats) :
    KeepsPending txStats
      (approveToken tokenAddress spenderAddress ownerAddress amountToApprove ans txStats) := by
  unfold approveToken
  repeat' split
  all_goals first
    | exact keepsPending_caught txStats
    | exact keepsPending_failed txStats
    | exact keepsPending_submit _ _ _ txStats

theorem swapToken_keepsPending (tokenIn tokenOut : String) (amountIn : ℚ) (recipient : String)
    (ans : SwapAnswers) (txStats : TxStats) :
    KeepsPending txStats (swapToken tokenIn tokenOut amountIn recipient ans txStats) := by
  unfold swapToken
  repeat' split
  all_goals first
    | exact keepsPending_caught txStats
    | exact keepsPending_failed txStats
    | exact keepsPending_submit _ _ _ txStats

theorem runInv_call {st : RunState} {r : CallResult} (hinv : RunInv st)
    (hr : KeepsPending st.txStats r) (st' : RunState) (hstats : st'.txStats = r.txStats)
    (hhist : st'.history = st.history ++ r.history) : RunInv st' := by
  obtain ⟨h0, hh⟩ := hinv
  obtain ⟨hp, hrh⟩ := hr
  refine ⟨by rw [hstats, hp, h0], ?_⟩
  intro h hmem
  rw [hhist, List.mem_append] at hmem
  rcases hmem with hmem | hmem
  · exact hh h hmem
  · have := hrh h hmem
    omega

theorem swapStep_runInv (amount swapTimes : ℚ) (wallet : Nat) (ownerAddress : String)
    (w : WalletAnswers) (swapIter : Nat) (st : RunState) (hinv : RunInv st) :
    RunInv (swapStep amount swapTimes wallet ownerAddress w swapIter st) := by
  have hr := swapToken_keepsPending tokenIn tokenOut amount ownerAddress (w.swaps swapIter)
    st.txStats
  unfold swapStep
  split
  · exact runInv_call hinv hr _ rfl rfl
  · exact runInv_call hinv hr _ rfl rfl

/-- Induction along the inner loop: what every swap step keeps, the loop
keeps. -/
theorem swapLoop_induction (P : RunState → Prop) (amount swapTimes : ℚ) (wallet : Nat)
    (ownerAddress : String) (w : WalletAnswers)
    (hstep : ∀ j st, P st → P (swapStep amount swapTimes wallet ownerAddress w j st)) :
    ∀ j st, P st → P (swapLoop amount swapTimes wallet ownerAddress w j st) := by
  intro j st
  generalize hn : ⌈swapTimes⌉₊ - j = n
  induction n using Nat.strong_induction_on generalizing j st with
  | _ n ih =>
    intro hst
    rw [swapLoop]
    split
    · rename_i hlt
      have hlt' : j < ⌈swapTimes⌉₊ := Nat.lt_ceil.mpr hlt
      exact ih (⌈swapTimes⌉₊ - (j + 1)) (by omega) (j + 1) _ rfl (hstep j st hst)
    · exact hst

theorem walletLoop_runInv (amount swapTimes : ℚ) (wallets : Nat → WalletAnswers) (total : Nat) :
    ∀ (keys : List String) (i : Nat) (st : RunState), RunInv st →
      RunInv (walletLoop amount swapTimes wallets total i keys st) := by
  intro keys
  induction keys with
  | nil =>
    intro i st hinv
    exact hinv
  | cons key rest ih =>
    intro i st hinv
    unfold walletLoop
    split
    · exact hinv
    · rename_i ownerAddress _
      have hr := approveToken_keepsPending tokenIn swapRouterAddress ownerAddress
        (amount * swapTimes) (wallets i).approve st.txStats
      have hinv₁ : RunInv
          { st with
            txStats := (approveToken tokenIn swapRouterAddress ownerAddress (amount * swapTimes)
              (wallets i).approve st.txStats).txStats
            history := st.history ++ (approveToken tokenIn swapRouterAddress ownerAddress
              (amount * swapTimes) (wallets i).approve st.txStats).history
            ops := st.ops ++ [Op.approve i (amount * swapTimes)
              (approveToken tokenIn swapRouterAddress ownerAddress (amount * swapTimes)
                (wallets i).approve st.txStats)] } :=
        runInv_call hinv hr _ rfl rfl
      simp only
      split
      · exact ih _ _ hinv₁
      · apply ih
        have hinv₂ := swapLoop_induction RunInv amount swapTimes i ownerAddress (wallets i)
          (fun j st h => swapStep_runInv amount swapTimes i ownerAddress (wallets i) j st h)
          0 _ hinv₁
        split
        · exact ⟨hinv₂.1, hinv₂.2⟩
        · exact hinv₂

/-! ## C18 -/

/-- C18. In every run of `runSwapping`, whatever the keys, the inputs, the
balances and the answers of the network (rejections of any call included),
every value `txStats` takes has `pending ≥ 0`, and when the run completes
`pending` is 0. -/
theorem pending_never_negative_and_zero_at_end (ans : RunAnswers) :
    (∀ h ∈ (runSwapping ans).history, 0 ≤ h.pending) ∧
    (∀ txStats, (runSwapping ans).txStats = some txStats → txStats.pending = 0) ∧
    ((runSwapping ans).txStats = none → (runSwapping ans).history = []) := by
  have key : ∀ (amount swapTimes : ℚ) (keys : List String),
      RunInv (walletLoop amount swapTimes ans.wallets keys.length 0 keys
        { txStats := { success := 0, failed := 0, pending := 0, times := [] }
          successfulSwaps := 0, history := [], ops := [], thrown := none }) := by
    intro amount swapTimes keys
    apply walletLoop_runInv
    exact ⟨rfl, fun h hh => by simp at hh⟩
  unfold runSwapping
  repeat' split
  all_goals first
    | (simp [earlyExit]; done)
    | (refine ⟨(key _ _ _).2, ?_, by simp⟩
       intro txStats h
       simp only [Option.some.injEq] at h
       rw [← h]
       exact (key _ _ _).1)

/-! ## A run in which everything passes -/

/-- A submission whose first attempt obtains a receipt with truthy status
returns its hash and counts one success. -/
theorem submitResult_first_attempt (startTime : Int) (attempts : Nat → Attempt)
    (txParams : TxParams) (txStats : TxStats) (h : FirstAttemptSucceeds attempts) :
    (submitResult startTime attempts txParams txStats).returned ≠ none ∧
    (submitResult startTime attempts txParams txStats).txStats =
      { txStats with
        success := txStats.success + 1
        times := txStats.times ++ [(attempts 0).now - startTime] } := by
  obtain ⟨receipt, hreceipt, hstatus⟩ := h
  obtain ⟨r, hbody, hret, hst, _⟩ :=
    loopBody_success startTime
      { retryCount := 0, txParams := txParams,
        txStats := { txStats with pending := txStats.pending + 1 }, trace := [] }
      hreceipt hstatus
  have hloop : submit startTime attempts txParams txStats = r := by
    unfold submit sendAndConfirmTransaction
    rw [sendLoop_eq, if_pos (by simp [maxRetries]), hbody]
  unfold submitResult
  simp only [hloop, hret, hst, TxStats.recordSuccess, Option.map_some', ne_eq,
    not_false_eq_true, add_sub_cancel_right, and_self, reduceCtorEq]

/-- When a decision is reached, the reads behind it all resolved. -/
theorem decision_eq_some {ans : ApproveAnswers} {amountToApprove : ℚ} {d : AllowanceDecision}
    (h : ans.decision amountToApprove = some d) :
    ∃ balance decimals required currentAllowance tokenBalance,
      ans.getBalance = Except.ok balance ∧ ¬ balance < 1000000000000000 ∧
      ans.decimals = Except.ok decimals ∧
      ans.amountWei amountToApprove decimals = Except.ok required ∧
      ans.allowance = Except.ok currentAllowance ∧
      ans.balanceOf = Except.ok tokenBalance ∧
      approvalDecision tokenBalance currentAllowance required = d := by
  unfold ApproveAnswers.decision at h
  rcases hb : ans.getBalance with _ | balance <;> rw [hb] at h
  · simp at h
  rcases hd : ans.decimals with _ | decimals <;> rw [hd] at h
  · simp at h
  rcases ha : ans.amountWei amountToApprove decimals with _ | required <;> simp only [ha] at h
  · simp at h
  rcases hal : ans.allowance with _ | currentAllowance <;> simp only [hal] at h
  · simp at h
  rcases hbo : ans.balanceOf with _ | tokenBalance <;> simp only [hbo] at h
  · simp at h
  simp at h
  exact ⟨balance, decimals, required, currentAllowance, tokenBalance, rfl, by omega, rfl, ha,
    rfl, rfl, h.2⟩

/-- With answers on which everything passes, `approveToken` does not return
`null`, leaves `failed` and `pending` alone, and counts one success unless the
approval is skipped. -/
theorem approveToken_allPass (tokenAddress spenderAddress ownerAddress : String)
    (amountToApprove : ℚ) (ans : ApproveAnswers) (txStats : TxStats)
    (h : ans.allPass spenderAddress amountToApprove) :
    (approveToken tokenAddress spenderAddress ownerAddress amountToApprove ans txStats).returned
      ≠ none ∧
    (approveToken tokenAddress spenderAddress ownerAddress amountToApprove ans
      txStats).txStats.failed = txStats.failed ∧
    (approveToken tokenAddress spenderAddress ownerAddress amountToApprove ans
      txStats).txStats.pending = txStats.pending ∧
    (approveToken tokenAddress spenderAddress ownerAddress amountToApprove ans
      txStats).txStats.success = txStats.success +
        (if ans.decision amountToApprove = some AllowanceDecision.sufficient then 0 else 1) := by
  rcases h with hd | ⟨hd, ⟨gasPrice, hprice⟩, hdata, hfirst⟩
  · obtain ⟨balance, decimals, required, currentAllowance, tokenBalance, hb, hlow, hdec, ha,
      hal, hbo, hdecide⟩ := decision_eq_some hd
    simp [approveToken, hb, hlow, hdec, ha, hal, hbo, hdecide, hd]
  · obtain ⟨balance, decimals, required, currentAllowance, tokenBalance, hb, hlow, hdec, ha,
      hal, hbo, hdecide⟩ := decision_eq_some hd
    obtain ⟨data, hdata⟩ := hdata required
    obtain ⟨hret, hst⟩ := submitResult_first_attempt ans.startTime ans.attempts
      { from_ := ownerAddress, to_ := tokenAddress, gas := 3000000, gasPrice := gasPrice,
        data := data, chainId := none, nonce := none } txStats hfirst
    have heq : approveToken tokenAddress spenderAddress ownerAddress amountToApprove ans txStats
        = submitResult ans.startTime ans.attempts
            { from_ := ownerAddress, to_ := tokenAddress, gas := 3000000, gasPrice := gasPrice,
              data := data, chainId := none, nonce := none } txStats := by
      simp [approveToken, hb, hlow, hdec, ha, hal, hbo, hdecide, hprice, hdata]
    rw [heq, hst]
    exact ⟨hret, rfl, rfl, by simp [hd]⟩

/-- With answers on which everything passes, `swapToken` counts one success
and leaves `failed` and `pending` alone. -/
theorem swapToken_allPass (tokenIn tokenOut : String) (amountIn : ℚ) (recipient : String)
    (ans : SwapAnswers) (txStats : TxStats) (h : ans.allPass amountIn) :
    (swapToken tokenIn tokenOut amountIn recipient ans txStats).txStats.failed
      = txStats.failed ∧
    (swapToken tokenIn tokenOut amountIn recipient ans txStats).txStats.pending
      = txStats.pending ∧
    (swapToken tokenIn tokenOut amountIn recipient ans txStats).txStats.success
      = txStats.success + 1 := by
  obtain ⟨address, decimals, amountInWei, amountOutMinimum, tokenInBalance, tokenOutBalance,
    gasPrice, chainId, hacc, hdec, hin, hout, hbin, hbout, hle, hprice, hdata, hchain,
    hfirst⟩ := h
  obtain ⟨data, hdata⟩ := hdata
    { tokenIn := tokenIn, tokenOut := tokenOut, fee := 500, recipient := recipient,
      amountIn := amountInWei, amountOutMinimum := amountOutMinimum, sqrtPriceLimitX96 := 0 }
  obtain ⟨_, hst⟩ := submitResult_first_attempt ans.startTime ans.attempts
    { from_ := address, to_ := swapRouterAddress, gas := 3000000, gasPrice := gasPrice,
      data := data, chainId := some chainId, nonce := none } txStats hfirst
  have hnot : ¬ tokenInBalance < amountInWei := not_lt.mpr hle
  have heq : swapToken tokenIn tokenOut amountIn recipient ans txStats
      = submitResult ans.startTime ans.attempts
          { from_ := address, to_ := swapRouterAddress, gas := 3000000, gasPrice := gasPrice,
            data := data, chainId := some chainId, nonce := none } txStats := by
    simp [swapToken, hacc, hdec, hin, hout, hbin, hbout, hnot, hprice, hdata, hchain]
  rw [heq, hst]
  exact ⟨rfl, rfl, rfl⟩

theorem swapStep_txStats (amount swapTimes : ℚ) (wallet : Nat) (ownerAddress : String)
    (w : WalletAnswers) (swapIter : Nat) (st : RunState) :
    (swapStep amount swapTimes wallet ownerAddress w swapIter st).txStats =
      (swapToken tokenIn tokenOut amount ownerAddress (w.swaps swapIter) st.txStats).txStats ∧
    (swapStep amount swapTimes wallet ownerAddress w swapIter st).thrown = st.thrown := by
  unfold swapStep
  split <;> exact ⟨rfl, rfl⟩

/-- With `k` swaps asked for and answers on which everything passes, the inner
loop entered at `j` counts `k - j` successes. -/
theorem swapLoop_allPass (amount : ℚ) (k : Nat) (wallet : Nat) (ownerAddress : String)
    (w : WalletAnswers) (hw : ∀ j, j < k → (w.swaps j).allPass amount) :
    ∀ (n j : Nat) (st : RunState), j + n = k →
      (swapLoop amount k wallet ownerAddress w j st).txStats.failed = st.txStats.failed ∧
      (swapLoop amount k wallet ownerAddress w j st).txStats.pending = st.txStats.pending ∧
      (swapLoop amount k wallet ownerAddress w j st).txStats.success
        = st.txStats.success + n ∧
      (swapLoop amount k wallet ownerAddress w j st).thrown = st.thrown := by
  intro n
  induction n with
  | zero =>
    intro j st hj
    rw [swapLoop, dif_neg (by rw [Nat.cast_lt]; omega)]
    simp
  | succ n ih =>
    intro j st hj
    have hlt : j < k := by omega
    rw [swapLoop, dif_pos (by rw [Nat.cast_lt]; exact hlt)]
    obtain ⟨h₁, h₂, h₃, h₄⟩ := ih (j + 1) (swapStep amount k wallet ownerAddress w j st) (by omega)
    obtain ⟨hs, ht⟩ := swapStep_txStats amount k wallet ownerAddress w j st
    obtain ⟨g₁, g₂, g₃⟩ := swapToken_allPass tokenIn tokenOut amount ownerAddress (w.swaps j)
      st.txStats (hw j hlt)
    rw [h₁, h₂, h₃, h₄, hs, ht, g₁, g₂, g₃]
    refine ⟨rfl, rfl, ?_, rfl⟩
    push_cast
    ring

/-- With `k` swaps per wallet and answers on which everything passes, the
outer loop entered at wallet `i` counts, for each wallet left, one success
for the approval unless it is skipped, and `k` successes for the swaps. -/
theorem walletLoop_allPass (amount : ℚ) (k : Nat) (wallets : Nat → WalletAnswers) (total : Nat) :
    ∀ (keys : List String) (i : Nat) (st : RunState),
      (∀ i', i ≤ i' → i' < i + keys.length → (wallets i').allPass amount k) →
      (walletLoop amount k wallets total i keys st).txStats.failed = st.txStats.failed ∧
      (walletLoop amount k wallets total i keys st).txStats.pending = st.txStats.pending ∧
      (walletLoop amount k wallets total i keys st).txStats.success
        = st.txStats.success + ((keys.length : Int) -
            ((List.range' i keys.length).countP
              (fun i' => (wallets i').approve.decision (amount * k)
                = some AllowanceDecision.sufficient) : Nat)) + keys.length * k ∧
      (walletLoop amount k wallets total i keys st).thrown = st.thrown := by
  intro keys
  induction keys with
  | nil =>
    intro i st _
    simp [walletLoop]
  | cons key rest ih =>
    intro i st hall
    obtain ⟨⟨ownerAddress, hown⟩, happrove, hswaps⟩ :=
      hall i (le_refl i) (by simp)
    obtain ⟨hret, a₁, a₂, a₃⟩ := approveToken_allPass tokenIn swapRouterAddress ownerAddress
      (amount * k) (wallets i).approve st.txStats happrove
    obtain ⟨hash, hhash⟩ := Option.ne_none_iff_exists'.mp hret
    have hrest : ∀ i', i + 1 ≤ i' → i' < i + 1 + rest.length → (wallets i').allPass amount k := by
      intro i' h₁ h₂
      exact hall i' (by omega) (by simp only [List.length_cons]; omega)
    have hstep : ∃ st₃ : RunState,
        walletLoop amount k wallets total i (key :: rest) st
          = walletLoop amount k wallets total (i + 1) rest st₃ ∧
        st₃.txStats = (swapLoop amount k i ownerAddress (wallets i) 0
          { st with
            txStats := (approveToken tokenIn swapRouterAddress ownerAddress (amount * k)
              (wallets i).approve st.txStats).txStats
            history := st.history ++ (approveToken tokenIn swapRouterAddress ownerAddress
              (amount * k) (wallets i).approve st.txStats).history
            ops := st.ops ++ [Op.approve i (amount * k)
              (approveToken tokenIn swapRouterAddress ownerAddress (amount * k)
                (wallets i).approve st.txStats)] }).txStats ∧
        st₃.thrown = (swapLoop amount k i ownerAddress (wallets i) 0
          { st with
            txStats := (approveToken tokenIn swapRouterAddress ownerAddress (amount * k)
              (wallets i).approve st.txStats).txStats
            history := st.history ++ (approveToken tokenIn swapRouterAddress ownerAddress
              (amount * k) (wallets i).approve st.txStats).history
            ops := st.ops ++ [Op.approve i (amount * k)
              (approveToken tokenIn swapRouterAddress ownerAddress (amount * k)
                (wallets i).approve st.txStats)] }).thrown := by
      simp only [walletLoop, hown, hhash]
      split
      · exact ⟨_, rfl, rfl, rfl⟩
      · exact ⟨_, rfl, rfl, rfl⟩
    obtain ⟨st₃, hloop, hstats₃, hthrown₃⟩ := hstep
    obtain ⟨s₁, s₂, s₃, s₄⟩ := swapLoop_allPass amount k i ownerAddress (wallets i) hswaps k 0
      { st with
        txStats := (approveToken tokenIn swapRouterAddress ownerAddress (amount * k)
          (wallets i).approve st.txStats).txStats
        history := st.history ++ (approveToken tokenIn swapRouterAddress ownerAddress
          (amount * k) (wallets i).approve st.txStats).history
        ops := st.ops ++ [Op.approve i (amount * k)
          (approveToken tokenIn swapRouterAddress ownerAddress (amount * k)
            (wallets i).approve st.txStats)] } (by omega)
    obtain ⟨r₁, r₂, r₃, r₄⟩ := ih (i + 1) st₃ hrest
    have e₁ : st₃.txStats.failed = st.txStats.failed := by
      rw [hstats₃, s₁]
      exact a₁
    have e₂ : st₃.txStats.pending = st.txStats.pending := by
      rw [hstats₃, s₂]
      exact a₂
    have e₃ : st₃.txStats.success = st.txStats.success +
        (if (wallets i).approve.decision (amount * k) = some AllowanceDecision.sufficient
          then 0 else 1) + k := by
      rw [hstats₃, s₃]
      exact congrArg (· + (k : Int)) a₃
    have e₄ : st₃.thrown = st.thrown := by
      rw [hthrown₃, s₄]
    rw [hloop]
    refine ⟨r₁.trans e₁, r₂.trans e₂, ?_, r₄.trans e₄⟩
    rw [r₃, e₃]
    simp only [List.length_cons, List.range'_succ, List.countP_cons, decide_eq_true_eq]
    split_ifs <;> push_cast <;> ring

/-! ## C19 -/

/-- C19. In a run over `W` wallets with `k` swaps per wallet in which every
check passes and every submission succeeds on its first attempt, with `s`
wallets skipping the approval because their allowance is already sufficient,
the final statistics are `success = (W - s) + W * k`, `failed = 0`,
`pending = 0`; no error reaches the final `catch`. -/
theorem all_pass_statistics (ans : RunAnswers) (keys : List String) (amount : ℚ) (k : Nat)
    (hkeys : ans.privateKeys = Except.ok keys) (hne : keys ≠ [])
    (hamount : ans.amount = Except.ok amount) (hswap : ans.swapTimes = Except.ok (k : ℚ))
    (hconnect : ans.connectWeb3 = Except.ok ())
    (hall : ∀ i, i < keys.length → (ans.wallets i).allPass amount k) :
    ∃ txStats, (runSwapping ans).txStats = some txStats ∧
      txStats.success = ((keys.length : Int) - skippedApprovals ans.wallets (amount * k) keys.length)
        + keys.length * k ∧
      txStats.failed = 0 ∧ txStats.pending = 0 ∧ (runSwapping ans).caught = none := by
  have hlen : ¬ keys.length = 0 := by
    intro h
    exact hne (List.length_eq_zero.mp h)
  obtain ⟨h₁, h₂, h₃, h₄⟩ := walletLoop_allPass amount k ans.wallets keys.length keys 0
    { txStats := { success := 0, failed := 0, pending := 0, times := [] }
      successfulSwaps := 0, history := [], ops := [], thrown := none }
    (fun i _ hi => hall i (by omega))
  refine ⟨_, by simp only [runSwapping, hkeys, hlen, hamount, hswap, hconnect, if_false], ?_,
    h₁, h₂, ?_⟩
  · rw [h₃, skippedApprovals, List.range_eq_range']
    simp
  · simp only [runSwapping, hkeys, hlen, hamount, hswap, hconnect, if_false, h₄]

/-- The approval of an amount that converts to at most the 1000 tokens held
passes, and it is skipped exactly when the allowance covers the amount. -/
theorem approveConverted_allPass (allowance : Int) (amountToApprove : ℚ) (required : Int)
    (hreq : computeAmountInWei amountToApprove 18 = required)
    (hle : required ≤ 1000 * 10 ^ 18) :
    (approveConverted allowance).allPass swapRouterAddress amountToApprove ∧
    ((approveConverted allowance).decision amountToApprove = some AllowanceDecision.sufficient
      ↔ required ≤ allowance) := by
  have hnot : ¬ (1000000000000000000000 : Int) < required := by
    norm_num at hle
    omega
  by_cases hall : required ≤ allowance
  · have hd : (approveConverted allowance).decision amountToApprove
        = some AllowanceDecision.sufficient := by
      simp [ApproveAnswers.decision, approveConverted, approveNeeded, approvalDecision, hreq,
        hnot, hall]
    exact ⟨Or.inl hd, fun _ => hall, fun _ => hd⟩
  · have hd : (approveConverted allowance).decision amountToApprove
        = some AllowanceDecision.needsApproval := by
      simp [ApproveAnswers.decision, approveConverted, approveNeeded, approvalDecision, hreq,
        hnot, hall]
    refine ⟨Or.inr ⟨hd, ⟨_, rfl⟩, fun _ => ⟨_, rfl⟩, ⟨_, rfl, rfl⟩⟩, fun h => ?_, fun h => ?_⟩
    · rw [hd] at h
      cases h
    · exact absurd h hall

/-- Each of the first ten swaps of 100 tokens of the sample wallet passes. -/
theorem swapConverted_allPass (swapIter : Nat) (h : swapIter < 10) :
    (swapConverted swapIter).allPass 100 := by
  refine ⟨_, _, _, _, _, _, _, _, rfl, rfl, rfl, rfl, rfl, rfl, ?_, rfl,
    fun _ => ⟨_, rfl⟩, rfl, ⟨_, rfl, rfl⟩⟩
  rw [computeAmountInWei_hundred]
  have : (swapIter : Int) < 10 := by exact_mod_cast h
  norm_num
  omega

theorem passingWallet_allPass (skip : Bool) : (passingWallet skip).allPass 100 2 := by
  have h200 : (100 : ℚ) * ((2 : Nat) : ℚ) = 200 := by norm_num
  refine ⟨⟨_, rfl⟩, ?_, fun j hj => swapConverted_allPass j (by omega)⟩
  rw [h200]
  exact (approveConverted_allPass _ 200 _ computeAmountInWei_two_hundred (by norm_num)).1

theorem passingWallet_skips (skip : Bool) (amountToApprove : ℚ) (h : amountToApprove = 200) :
    (passingWallet skip).approve.decision amountToApprove
      = some AllowanceDecision.sufficient ↔ skip = true := by
  rw [h]
  cases skip
  · have := (approveConverted_allPass 0 200 _ computeAmountInWei_two_hundred (by norm_num)).2
    simpa [passingWallet] using this
  · have := (approveConverted_allPass (1000 * 10 ^ 18) 200 _ computeAmountInWei_two_hundred
      (by norm_num)).2
    simpa [passingWallet] using this

theorem passingRun_skips (i : Nat) :
    (passingRun.wallets i).approve.decision (100 * ((2 : Nat) : ℚ))
      = some AllowanceDecision.sufficient ↔ i = 0 := by
  rw [show passingRun.wallets i = passingWallet (i == 0) from rfl,
    passingWallet_skips _ _ (by norm_num)]
  simp

/-- C19 at three wallets with two swaps each, the first wallet skipping the
approval: 8 successes. -/
theorem all_pass_statistics_witness :
    skippedApprovals passingRun.wallets (100 * (2 : Nat)) 3 = 1 ∧
    ∃ txStats, (runSwapping passingRun).txStats = some txStats ∧
      txStats.success = (((3 : Nat) : Int) - skippedApprovals passingRun.wallets (100 * (2 : Nat)) 3)
        + (3 : Nat) * (2 : Nat) ∧
      txStats.failed = 0 ∧ txStats.pending = 0 ∧ (runSwapping passingRun).caught = none :=
  ⟨by
      simp only [skippedApprovals, passingRun_skips]
      decide,
    all_pass_statistics passingRun
      ["0x1111111111111111111111111111111111111111111111111111111111111111",
        "0x2222222222222222222222222222222222222222222222222222222222222222",
        "0x3333333333333333333333333333333333333333333333333333333333333333"]
      100 2 rfl (by simp) rfl (by simp [passingRun]) rfl
      (fun i _ => passingWallet_allPass _)⟩

/-! ## Trimming and the key pattern -/

theorem startsWith_zeroX (s : String) :
    startsWith s "0x" = true ↔ ∃ rest, s.data = '0' :: 'x' :: rest := by
  have hlit : ("0x" : String).data = ['0', 'x'] := rfl
  unfold startsWith
  rw [hlit]
  rcases s.data with _ | ⟨c, _ | ⟨d, rest⟩⟩
  · simp [startsWithList]
  · simp [startsWithList]
  · simp [startsWithList]

theorem string_eq_empty_iff (s : String) : s = "" ↔ s.data = [] :=
  String.ext_iff

theorem isHexChar_not_isTrimmed (c : Char) (h : isHexChar c = true) : isTrimmed c = false := by
  simp only [isHexChar, Bool.decide_or, Bool.decide_and, Bool.or_eq_true, Bool.and_eq_true,
    decide_eq_true_eq] at h
  simp only [isTrimmed, decide_eq_false_iff_not]
  omega

/-- A list that neither begins nor ends with a character `trim` removes is
left as it is. -/
theorem trimList_eq_self (l : List Char) (hhead : ∀ c rest, l = c :: rest → isTrimmed c = false)
    (hlast : ∀ hl : l ≠ [], isTrimmed (l.getLast hl) = false) :
    (l.dropWhile isTrimmed).rdropWhile isTrimmed = l := by
  have h₁ : l.dropWhile isTrimmed = l := by
    cases l with
    | nil => rfl
    | cons c rest => simp [List.dropWhile, hhead c rest rfl]
  rw [h₁, List.rdropWhile_eq_self_iff]
  intro hl
  simp [hlast hl]

/-- Trimming twice is trimming once. -/
theorem trim_trim (s : String) : trim (trim s) = trim s := by
  unfold trim
  apply congrArg String.mk
  apply trimList_eq_self
  · intro c rest hc
    cases hd : s.data.dropWhile isTrimmed with
    | nil => simp [hd] at hc
    | cons x t =>
      have hx : isTrimmed x = false := by
        have := List.head_dropWhile_not isTrimmed s.data (by simp [hd])
        simpa [hd] using this
      rw [hd] at hc
      change List.rdropWhile isTrimmed (x :: t) = c :: rest at hc
      have hpre : List.rdropWhile isTrimmed (x :: t) <+: x :: t := by
        apply List.rdropWhile_prefix
      rw [hc] at hpre
      obtain ⟨u, hu⟩ := hpre
      simp only [List.cons_append, List.cons.injEq] at hu
      rw [hu.1]
      exact hx
  · intro hl
    have := List.rdropWhile_last_not isTrimmed (s.data.dropWhile isTrimmed) hl
    simpa using this

theorem hex64Pattern_iff (l : List Char) :
    hex64Pattern l = true ↔ l.length = 64 ∧ l.all isHexChar = true := by
  simp [hex64Pattern]

/-- The validator of `swapping.js` in the words of the specification: it
accepts exactly the strings whose trimmed form is a key, and answers with the
normalized key. -/
theorem isValidPrivateKey_eq (key : String) :
    isValidPrivateKey key = (hexBody (trim key)).map normalizedKey := by
  have hx : isHexChar 'x' = false := by decide
  unfold isValidPrivateKey
  by_cases h0 : key = ""
  · subst h0
    decide
  rw [if_neg h0]
  simp only
  by_cases h1 : trim key = ""
  · rw [if_pos h1, h1]
    decide
  rw [if_neg h1]
  generalize trim key = k
  by_cases hs : startsWith k "0x" = true
  · obtain ⟨rest, hrest⟩ := (startsWith_zeroX k).mp hs
    have hk : k = String.mk ('0' :: 'x' :: rest) := by
      rw [String.ext_iff]
      exact hrest
    simp only [hs, if_true, hrest, List.drop_succ_cons, List.drop_zero, hexBody, List.all_cons,
      hx, Bool.false_and, Bool.and_false, and_false, if_false, Bool.false_eq_true]
    by_cases hp : hex64Pattern rest = true
    · have hp' := (hex64Pattern_iff rest).mp hp
      rw [if_pos hp, if_pos hp', hk]
      rfl
    · have hp' : ¬ (rest.length = 64 ∧ rest.all isHexChar = true) :=
        fun h => hp ((hex64Pattern_iff rest).mpr h)
      rw [if_neg hp, if_neg hp']
      rfl
  · have hno : ∀ rest, k.data ≠ '0' :: 'x' :: rest := by
      intro rest hrest
      exact hs ((startsWith_zeroX k).mpr ⟨rest, hrest⟩)
    simp only [hs, if_false, Bool.false_eq_true]
    by_cases hp : hex64Pattern k.data = true
    · have hp' := (hex64Pattern_iff k.data).mp hp
      simp only [hp, if_true, hexBody, hp', and_self, Option.map_some', normalizedKey,
        Option.some.injEq]
      rw [String.ext_iff]
      rfl
    · have hp' : ¬ (k.data.length = 64 ∧ k.data.all isHexChar = true) :=
        fun h => hp ((hex64Pattern_iff k.data).mpr h)
      simp only [hp, if_false, hexBody, hp', Bool.false_eq_true]
      rfl

/-- A key begins and ends with a character that `trim` keeps. -/
theorem trim_eq_self_of_hexBody (key : String) (body : List Char)
    (h : hexBody key = some body) : trim key = key := by
  have hx : isTrimmed 'x' = false := by decide
  have h0 : isTrimmed '0' = false := by decide
  have hall : ∀ l : List Char, l.all isHexChar = true → ∀ c ∈ l, isTrimmed c = false := by
    intro l hl c hc
    exact isHexChar_not_isTrimmed c (List.all_eq_true.mp hl c hc)
  unfold trim
  rw [String.ext_iff]
  show (key.data.dropWhile isTrimmed).rdropWhile isTrimmed = key.data
  unfold hexBody at h
  split at h
  · rename_i hk
    apply trimList_eq_self
    · intro c rest hc
      exact hall _ hk.2 c (by rw [hc]; exact List.mem_cons_self _ _)
    · intro hl
      exact hall _ hk.2 _ (List.getLast_mem hl)
  · split at h
    · rename_i body' hdata
      split at h
      · rename_i hb
        rw [hdata]
        apply trimList_eq_self
        · intro c rest hc
          simp only [List.cons.injEq] at hc
          rw [← hc.1]
          exact h0
        · intro hl
          cases body' with
          | nil => simp at hb
          | cons b bs =>
            rw [List.getLast_cons (by simp), List.getLast_cons (by simp)]
            exact hall _ hb.2 _ (List.getLast_mem _)
      · simp at h
    · simp at h

theorem hexBody_spec (key : String) (body : List Char) (h : hexBody key = some body) :
    body.length = 64 ∧ body.all isHexChar = true ∧
      (key.data = body ∨ key.data = '0' :: 'x' :: body) := by
  unfold hexBody at h
  split at h
  · rename_i hk
    simp only [Option.some.injEq] at h
    subst h
    exact ⟨hk.1, hk.2, Or.inl rfl⟩
  · split at h
    · rename_i body' hdata
      split at h
      · rename_i hb
        simp only [Option.some.injEq] at h
        subst h
        exact ⟨hb.1, hb.2, Or.inr hdata⟩
      · simp at h
    · simp at h

/-! ## C13 -/

/-- C13 as amended. `isValidPrivateKey` of `swapping.js` trims its argument
first: for every string whose trimmed form consists of exactly 64 hexadecimal
characters, optionally preceded by `0x`, it returns `0x` followed by those 64
characters, a string of 66 characters; for every other string it returns
`false`. A string that is itself such a key is its own trimmed form, so it is
accepted as the claim says. -/
theorem isValidPrivateKey_normalizes_trimmed_keys (key : String) :
    isValidPrivateKey key = (hexBody (trim key)).map normalizedKey ∧
    (∀ body, hexBody (trim key) = some body →
      isValidPrivateKey key = some (normalizedKey body) ∧
      (normalizedKey body).length = 66 ∧ body.length = 64 ∧ body.all isHexChar = true ∧
      (normalizedKey body).data = '0' :: 'x' :: body ∧
      ((trim key).data = body ∨ (trim key).data = '0' :: 'x' :: body)) ∧
    (hexBody (trim key) = none → isValidPrivateKey key = none) ∧
    (∀ body, hexBody key = some body → trim key = key) := by
  refine ⟨isValidPrivateKey_eq key, ?_, ?_, trim_eq_self_of_hexBody key⟩
  · intro body h
    obtain ⟨hlen, hhex, hdata⟩ := hexBody_spec (trim key) body h
    refine ⟨by rw [isValidPrivateKey_eq, h]; rfl, ?_, hlen, hhex, rfl, hdata⟩
    show ('0' :: 'x' :: body).length = 66
    simp [hlen]
  · intro h
    rw [isValidPrivateKey_eq, h]
    rfl

/-- C13 as stated fails: a string of 65 characters, a blank followed by 64
hexadecimal characters, is not a key in the sense of the claim, yet
`isValidPrivateKey` returns the normalized key and not `false`. -/
theorem padded_key_is_accepted :
    hexBody (" " ++ sampleKey) = none ∧
    (" " ++ sampleKey).length = 65 ∧
    isValidPrivateKey (" " ++ sampleKey) = some ("0x" ++ sampleKey) ∧
    isValidPrivateKey (" " ++ sampleKey) ≠ none := by
  decide

/-! ## The loop over the lines of the key file -/

/-- The validator of `mintping.js` accepts exactly the strings whose trimmed
form is a key. -/
theorem MintPing.isValidPrivateKey_isSome (key : String) :
    MintPing.isValidPrivateKey key = (hexBody (trim key)).isSome := by
  have hx : isHexChar 'x' = false := by decide
  unfold MintPing.isValidPrivateKey
  simp only
  generalize trim key = k
  by_cases hs : startsWith k "0x" = true
  · obtain ⟨rest, hrest⟩ := (startsWith_zeroX k).mp hs
    rw [if_neg (not_not.mpr hs)]
    simp only [hrest, zeroXHex64Pattern, hexBody, List.all_cons,
      hx, Bool.false_and, Bool.and_false, and_false, if_false, Bool.false_eq_true]
    by_cases hp : hex64Pattern rest = true
    · have hp' := (hex64Pattern_iff rest).mp hp
      rw [hp, if_pos hp']
      rfl
    · have hp' : ¬ (rest.length = 64 ∧ rest.all isHexChar = true) :=
        fun h => hp ((hex64Pattern_iff rest).mpr h)
      rw [if_neg hp']
      simpa using hp
  · have hno : ∀ rest, k.data ≠ '0' :: 'x' :: rest := by
      intro rest hrest
      exact hs ((startsWith_zeroX k).mpr ⟨rest, hrest⟩)
    have hdata : ("0x" ++ k).data = '0' :: 'x' :: k.data := rfl
    rw [if_pos hs]
    simp only [hdata, zeroXHex64Pattern]
    by_cases hp : hex64Pattern k.data = true
    · have hp' := (hex64Pattern_iff k.data).mp hp
      simp only [hp, hexBody, hp', and_self, if_true, Option.isSome_some]
    · have hp' : ¬ (k.data.length = 64 ∧ k.data.all isHexChar = true) :=
        fun h => hp ((hex64Pattern_iff k.data).mpr h)
      simp only [hp, hexBody, hp', if_false, Bool.false_eq_true]
      rfl

/-- The key `loadPrivateKeys` of `mintping.js` pushes for a line that is a key
is the normalized key. -/
theorem MintPing.pushed_key_eq (k : String) (body : List Char) (h : hexBody k = some body) :
    (if ¬ startsWith k "0x" then "0x" ++ k else k) = normalizedKey body := by
  have hx : isHexChar 'x' = false := by decide
  obtain ⟨hlen, hhex, hdata⟩ := hexBody_spec k body h
  by_cases hs : startsWith k "0x" = true
  · rw [if_neg (not_not.mpr hs)]
    obtain ⟨rest, hrest⟩ := (startsWith_zeroX k).mp hs
    rcases hdata with hd | hd
    · exfalso
      rw [← hd, hrest] at hhex
      simp [hx] at hhex
    · rw [String.ext_iff]
      exact hd
  · rw [if_pos hs]
    rcases hdata with hd | hd
    · rw [String.ext_iff]
      show '0' :: 'x' :: k.data = '0' :: 'x' :: body
      rw [hd]
    · exact absurd ((startsWith_zeroX k).mpr ⟨body, hd⟩) hs

theorem isInvalidLine_iff (line : String) :
    isInvalidLine line = true ↔
      trim line ≠ "" ∧ ¬ startsWith (trim line) "#" = true ∧ hexBody (trim line) = none := by
  unfold isInvalidLine
  exact decide_eq_true_iff

/-- One pass of the callback of `swapping.js`: the key of the line, if it has
one, is appended, and a warning is logged exactly when the line is invalid. -/
theorem checkLine_spec (idx : Nat) (line : String) (acc : List String × List KeyLog) :
    (checkLine idx line acc).1 = acc.1 ++ (keyOfLine line).toList ∧
    (checkLine idx line acc).2.filter KeyLog.isWarning =
      acc.2.filter KeyLog.isWarning ++
        (if isInvalidLine line then [KeyLog.invalidKey (idx + 1) (trim line)] else []) := by
  unfold checkLine keyOfLine
  simp only [isValidPrivateKey_eq, trim_trim]
  by_cases hskip : trim line = "" ∨ startsWith (trim line) "#" = true
  · rw [if_pos hskip, if_pos hskip]
    have hinv : isInvalidLine line = false := by
      rw [Bool.eq_false_iff]
      intro h
      obtain ⟨h₁, h₂, _⟩ := (isInvalidLine_iff line).mp h
      rcases hskip with h | h
      · exact h₁ h
      · exact h₂ h
    rw [hinv]
    split <;> simp [KeyLog.isWarning]
  · rw [if_neg hskip, if_neg hskip]
    have hne : trim line ≠ "" := fun h => hskip (Or.inl h)
    have hns : ¬ startsWith (trim line) "#" = true := fun h => hskip (Or.inr h)
    rcases hbody : hexBody (trim line) with _ | body
    · have hinv : isInvalidLine line = true := (isInvalidLine_iff line).mpr ⟨hne, hns, hbody⟩
      rw [hinv]
      simp [KeyLog.isWarning]
    · have hinv : isInvalidLine line = false := by
        rw [Bool.eq_false_iff]
        intro h
        have := ((isInvalidLine_iff line).mp h).2.2
        rw [hbody] at this
        exact Option.noConfusion this
      rw [hinv]
      simp [KeyLog.isWarning]

/-- One pass of the callback of `mintping.js`. -/
theorem MintPing.checkLine_keys_and_warnings (idx : Nat) (line : String) (acc : List String × List KeyLog) :
    (MintPing.checkLine idx line acc).1 = acc.1 ++ (keyOfLine line).toList ∧
    (MintPing.checkLine idx line acc).2.filter KeyLog.isWarning =
      acc.2.filter KeyLog.isWarning ++
        (if isInvalidLine line then [KeyLog.invalidKey (idx + 1) (trim line)] else []) := by
  unfold MintPing.checkLine keyOfLine
  simp only [MintPing.isValidPrivateKey_isSome, trim_trim]
  by_cases hskip : trim line = "" ∨ startsWith (trim line) "#" = true
  · have hnot : ¬ (trim line ≠ "" ∧ ¬ startsWith (trim line) "#" = true) := by
      rintro ⟨h₁, h₂⟩
      rcases hskip with h | h
      · exact h₁ h
      · exact h₂ h
    have hinv : isInvalidLine line = false := by
      rw [Bool.eq_false_iff]
      intro h
      obtain ⟨h₁, h₂, _⟩ := (isInvalidLine_iff line).mp h
      exact hnot ⟨h₁, h₂⟩
    rw [if_neg hnot, if_pos hskip, hinv]
    simp
  · have hne : trim line ≠ "" := fun h => hskip (Or.inl h)
    have hns : ¬ startsWith (trim line) "#" = true := fun h => hskip (Or.inr h)
    rw [if_pos ⟨hne, hns⟩, if_neg hskip]
    rcases hbody : hexBody (trim line) with _ | body
    · have hinv : isInvalidLine line = true := (isInvalidLine_iff line).mpr ⟨hne, hns, hbody⟩
      rw [hinv]
      simp [KeyLog.isWarning]
    · have hpush := MintPing.pushed_key_eq (trim line) body hbody
      have hinv : isInvalidLine line = false := by
        rw [Bool.eq_false_iff]
        intro h
        have := ((isInvalidLine_iff line).mp h).2.2
        rw [hbody] at this
        exact Option.noConfusion this
      rw [hinv]
      simp only [Option.isSome_some, if_true, hpush]
      simp

/-- The loop over the lines: what holds of each pass holds of the whole. -/
theorem forEachLine_spec (callback : Nat → String → List String × List KeyLog →
      List String × List KeyLog)
    (hcb : ∀ idx line acc,
      (callback idx line acc).1 = acc.1 ++ (keyOfLine line).toList ∧
      (callback idx line acc).2.filter KeyLog.isWarning =
        acc.2.filter KeyLog.isWarning ++
          (if isInvalidLine line then [KeyLog.invalidKey (idx + 1) (trim line)] else [])) :
    ∀ (lines : List String) (idx : Nat) (acc : List String × List KeyLog),
      (forEachLine callback idx lines acc).1 = acc.1 ++ lines.filterMap keyOfLine ∧
      (forEachLine callback idx lines acc).2.filter KeyLog.isWarning =
        acc.2.filter KeyLog.isWarning ++ warningsOf idx lines := by
  intro lines
  induction lines with
  | nil =>
    intro idx acc
    simp [forEachLine, warningsOf]
  | cons line rest ih =>
    intro idx acc
    obtain ⟨h₁, h₂⟩ := hcb idx line acc
    obtain ⟨i₁, i₂⟩ := ih (idx + 1) (callback idx line acc)
    rw [forEachLine]
    refine ⟨?_, ?_⟩
    · rw [i₁, h₁, List.filterMap_cons]
      cases keyOfLine line <;> simp
    · rw [i₂, h₂, warningsOf, List.append_assoc]

theorem warningsOf_length (lines : List String) :
    ∀ idx, (warningsOf idx lines).length = lines.countP isInvalidLine := by
  induction lines with
  | nil =>
    intro idx
    rfl
  | cons line rest ih =>
    intro idx
    rw [warningsOf, List.length_append, ih, List.countP_cons]
    split
    · simp [*]
      omega
    · simp [*]

/-- The result and the warnings of `loadPrivateKeys` of `swapping.js` on a file
that exists and can be read. -/
theorem loadPrivateKeys_spec (raw : String) :
    (loadPrivateKeys { existsSync := true, readFileSync := Except.ok raw }).result =
      (if (fileLines raw).filterMap keyOfLine = [] then
        Except.error "No valid private keys found"
      else Except.ok ((fileLines raw).filterMap keyOfLine)) ∧
    (loadPrivateKeys { existsSync := true, readFileSync := Except.ok raw }).written = none ∧
    (loadPrivateKeys { existsSync := true, readFileSync := Except.ok raw }).log.filter
      KeyLog.isWarning = warningsOf 0 (fileLines raw) := by
  obtain ⟨h₁, h₂⟩ := forEachLine_spec checkLine checkLine_spec (fileLines raw) 0
    ([], [KeyLog.checking, KeyLog.content (String.mk (replaceCR (replaceCRLF raw.data)))])
  simp only [List.nil_append] at h₁
  have h₂' : (forEachLine checkLine 0 (fileLines raw)
      ([], [KeyLog.checking,
        KeyLog.content (String.mk (replaceCR (replaceCRLF raw.data)))])).2.filter
      KeyLog.isWarning = warningsOf 0 (fileLines raw) := by
    rw [h₂]
    simp [KeyLog.isWarning]
  unfold loadPrivateKeys
  simp only [not_true_eq_false, if_false, List.length_eq_zero]
  rw [show splitLines (replaceCR (replaceCRLF raw.data)) = fileLines raw from rfl, h₁]
  split
  · refine ⟨rfl, rfl, ?_⟩
    rw [List.filter_append, h₂']
    simp [KeyLog.isWarning]
  · refine ⟨rfl, rfl, ?_⟩
    rw [List.filter_append, h₂']
    simp [KeyLog.isWarning]

/-- The result and the warnings of `loadPrivateKeys` of `mintping.js` on a file
that exists and can be read. -/
theorem MintPing.loadPrivateKeys_result (raw : String) :
    (MintPing.loadPrivateKeys { existsSync := true, readFileSync := Except.ok raw }).result =
      (if (splitLines raw.data).filterMap keyOfLine = [] then
        Except.error "No valid private keys found"
      else Except.ok ((splitLines raw.data).filterMap keyOfLine)) ∧
    (MintPing.loadPrivateKeys { existsSync := true, readFileSync := Except.ok raw }).written
      = none ∧
    (MintPing.loadPrivateKeys { existsSync := true, readFileSync := Except.ok raw }).log.filter
      KeyLog.isWarning = warningsOf 0 (splitLines raw.data) := by
  obtain ⟨h₁, h₂⟩ := forEachLine_spec MintPing.checkLine MintPing.checkLine_keys_and_warnings
    (splitLines raw.data) 0 ([], [])
  simp only [List.nil_append, List.filter_nil] at h₁ h₂
  unfold MintPing.loadPrivateKeys
  simp only [not_true_eq_false, if_false, List.length_eq_zero]
  rw [h₁]
  split
  · refine ⟨rfl, rfl, ?_⟩
    rw [List.filter_append, h₂]
    simp [KeyLog.isWarning]
  · exact ⟨rfl, rfl, h₂⟩

/-! ## C14 -/

/-- C14 as amended. For every content of a key file that has at least one
valid key line, `loadPrivateKeys` (of `swapping.js` and of `mintping.js`)
returns, in file order, exactly the normalized keys of the lines that after
trimming are non-empty, do not start with `#` and are keys; with no such line
it throws `No valid private keys found` and returns nothing. For every
content, each trimmed non-empty, non-`#` line that is not a key is skipped and
produces exactly one warning, which carries its line number. A file with one
key and the line `not-a-key` yields a one-element list and one warning. -/
theorem loadPrivateKeys_returns_keys_in_file_order (raw : String) :
    ((fileLines raw).filterMap keyOfLine ≠ [] →
      (loadPrivateKeys { existsSync := true, readFileSync := Except.ok raw }).result =
        Except.ok ((fileLines raw).filterMap keyOfLine)) ∧
    ((fileLines raw).filterMap keyOfLine = [] →
      (loadPrivateKeys { existsSync := true, readFileSync := Except.ok raw }).result =
        Except.error "No valid private keys found") ∧
    (loadPrivateKeys { existsSync := true, readFileSync := Except.ok raw }).log.filter
      KeyLog.isWarning = warningsOf 0 (fileLines raw) ∧
    (warningsOf 0 (fileLines raw)).length = (fileLines raw).countP isInvalidLine ∧
    ((splitLines raw.data).filterMap keyOfLine ≠ [] →
      (MintPing.loadPrivateKeys { existsSync := true, readFileSync := Except.ok raw }).result =
        Except.ok ((splitLines raw.data).filterMap keyOfLine)) ∧
    ((splitLines raw.data).filterMap keyOfLine = [] →
      (MintPing.loadPrivateKeys { existsSync := true, readFileSync := Except.ok raw }).result =
        Except.error "No valid private keys found") ∧
    (MintPing.loadPrivateKeys { existsSync := true, readFileSync := Except.ok raw }).log.filter
      KeyLog.isWarning = warningsOf 0 (splitLines raw.data) ∧
    (warningsOf 0 (splitLines raw.data)).length = (splitLines raw.data).countP isInvalidLine ∧
    (loadPrivateKeys
        { existsSync := true, readFileSync := Except.ok (sampleKey ++ "\nnot-a-key") }).result
      = Except.ok ["0x" ++ sampleKey] ∧
    (loadPrivateKeys
        { existsSync := true
          readFileSync := Except.ok (sampleKey ++ "\nnot-a-key") }).log.filter KeyLog.isWarning
      = [KeyLog.invalidKey 2 "not-a-key"] ∧
    MintPing.loadPrivateKeys
        { existsSync := true, readFileSync := Except.ok (sampleKey ++ "\nnot-a-key") }
      = { result := Except.ok ["0x" ++ sampleKey], written := none,
          log := [KeyLog.invalidKey 2 "not-a-key"] } := by
  obtain ⟨s₁, _, s₃⟩ := loadPrivateKeys_spec raw
  obtain ⟨m₁, _, m₃⟩ := MintPing.loadPrivateKeys_result raw
  refine ⟨?_, ?_, s₃, warningsOf_length _ 0, ?_, ?_, m₃, warningsOf_length _ 0,
    by decide, by decide, by decide⟩
  · intro h
    rw [s₁, if_neg h]
  · intro h
    rw [s₁, if_pos h]
  · intro h
    rw [m₁, if_neg h]
  · intro h
    rw [m₁, if_pos h]

/-- C14 as stated fails on a key file with no valid key line: here a comment
and a blank line. The lines contribute no key, so the claim has the loader
return the empty list, but it throws and returns nothing. -/
theorem key_file_without_keys_returns_nothing :
    (fileLines "# keys go here\n").filterMap keyOfLine = [] ∧
    (loadPrivateKeys
        { existsSync := true, readFileSync := Except.ok "# keys go here\n" }).result
      = Except.error "No valid private keys found" ∧
    (loadPrivateKeys
        { existsSync := true, readFileSync := Except.ok "# keys go here\n" }).result
      ≠ Except.ok [] ∧
    (MintPing.loadPrivateKeys
        { existsSync := true, readFileSync := Except.ok "# keys go here\n" }).result
      = Except.error "No valid private keys found" := by
  decide

/-! ## C15 -/

/-- C15 as amended. `loadPrivateKeys` writes the template exactly when the key
file does not exist, and then throws `pvkey.txt file not found`; the template
is two lines that start with `#`. When the file exists, can be read and has
no valid key line, it throws `No valid private keys found` and writes nothing,
so the file keeps its content. -/
theorem template_is_written_only_for_a_missing_file (file : KeyFile) :
    (loadPrivateKeys file).written = (if file.existsSync then none else some keyFileTemplate) ∧
    (file.existsSync = false →
      (loadPrivateKeys file).result = Except.error "pvkey.txt file not found") ∧
    (∀ raw, file.existsSync = true → file.readFileSync = Except.ok raw →
      (fileLines raw).filterMap keyOfLine = [] →
      (loadPrivateKeys file).result = Except.error "No valid private keys found" ∧
      (loadPrivateKeys file).written = none) ∧
    splitLines keyFileTemplate.data =
      ["# Add private keys here, one per line",
        "# Example: 0x1234567890abcdef1234567890abcdef1234567890abcdef1234567890abcdef", ""] := by
  refine ⟨?_, ?_, ?_, by decide⟩
  · unfold loadPrivateKeys
    cases file.existsSync
    · rfl
    · simp only [not_true_eq_false, if_false, if_true]
      repeat' split
      all_goals rfl
  · intro h
    unfold loadPrivateKeys
    simp [h]
  · intro raw hex hread hnone
    have hfile : file = { existsSync := true, readFileSync := Except.ok raw } := by
      cases file
      simp only at hex hread
      rw [hex, hread]
    obtain ⟨s₁, s₂, _⟩ := loadPrivateKeys_spec raw
    rw [hfile, s₁, if_pos hnone]
    exact ⟨rfl, s₂⟩

/-- C15 as stated fails: with an existing key file whose only line is not a
key, `loadPrivateKeys` throws but does not write the template. -/
theorem existing_key_file_is_not_overwritten :
    (loadPrivateKeys { existsSync := true, readFileSync := Except.ok "not-a-key\n" }).result
      = Except.error "No valid private keys found" ∧
    (loadPrivateKeys { existsSync := true, readFileSync := Except.ok "not-a-key\n" }).written
      = none ∧
    (loadPrivateKeys { existsSync := true, readFileSync := Except.ok "not-a-key\n" }).written
      ≠ some keyFileTemplate := by
  decide

/-! ## C20 -/

/-- C20. `runSwapping` and `runMintSusdt` resolve whatever their sink arguments
are and whatever is thrown inside them, an absent sink being replaced by the
console fallback. `runMintPing` and `runNFTCollection` resolve when both sinks
are functions, but call their arguments as they are: with a sink that is not a
function the first output throws inside `try`, the handler throws again, and
the promise rejects. -/
theorem mint_entry_points_reject_without_sinks :
    (∀ addLog updatePanel rest, EntryPoint.runSwapping addLog updatePanel rest = Except.ok ()) ∧
    (∀ updatePanel addLog rest,
      EntryPoint.runMintSusdt updatePanel addLog rest = Except.ok ()) ∧
    withFallback false = Callee.consoleFallback ∧
    (∀ rest, EntryPoint.runMintPing true true rest = Except.ok ()) ∧
    (∀ rest, EntryPoint.runNFTCollection true true rest = Except.ok ()) ∧
    (∀ updatePanel addLog rest, updatePanel = false ∨ addLog = false →
      (∃ message, EntryPoint.runMintPing updatePanel addLog rest = Except.error message) ∧
      (∃ message, EntryPoint.runNFTCollection updatePanel addLog rest = Except.error message)) ∧
    EntryPoint.runMintPing false false (Except.ok ()) = Except.error "addLog is not a function" ∧
    EntryPoint.runNFTCollection false false (Except.ok ())
      = Except.error "addLog is not a function" := by
  refine ⟨?_, ?_, rfl, ?_, ?_, ?_, rfl, rfl⟩
  · intro addLog updatePanel rest
    cases addLog <;> cases updatePanel <;> rcases rest with _ | _ <;> rfl
  · intro updatePanel addLog rest
    cases addLog <;> cases updatePanel <;> rcases rest with _ | _ <;> rfl
  · intro rest
    rcases rest with _ | _ <;> rfl
  · intro rest
    rcases rest with _ | _ <;> rfl
  · intro updatePanel addLog rest h
    cases updatePanel <;> cases addLog <;> rcases rest with _ | _ <;>
      first
        | exact ⟨⟨_, rfl⟩, ⟨_, rfl⟩⟩
        | simp at h

/-! ## C21 -/

/-- C21. Called as `f(first, second, closeUI, requestInput)`, the entry points
`runMintPing`, `runMintSusdt` and `runNFTCollection` deliver panel messages to
the first argument and log messages to the second. `runSwapping` is declared
as `runSwapping(addLog, updatePanel, …)`: it delivers panel messages to the
second argument and log messages to the first, so with two different sinks
its deliveries are not those the claim describes. -/
theorem runSwapping_takes_the_log_sink_first {α : Type} (first second : α) :
    EntryPoint.runMintPingOutput first second
      = [(first, Channel.panel), (second, Channel.log)] ∧
    EntryPoint.runMintSusdtOutput first second
      = [(first, Channel.panel), (second, Channel.log)] ∧
    EntryPoint.runNFTCollectionOutput first second
      = [(first, Channel.panel), (second, Channel.log)] ∧
    EntryPoint.runSwappingOutput first second
      = [(second, Channel.panel), (first, Channel.log)] ∧
    (first ≠ second →
      EntryPoint.runSwappingOutput first second
        ≠ [(first, Channel.panel), (second, Channel.log)]) := by
  refine ⟨rfl, rfl, rfl, rfl, ?_⟩
  intro hne h
  simp only [EntryPoint.runSwappingOutput, List.cons.injEq, Prod.mk.injEq, and_true] at h
  exact hne h.1.symm

/-! ## C25 -/

theorem removeFirst_zeroX (body : List Char) :
    removeFirst ('0' :: 'x' :: body) ['0', 'x'] = body := by
  simp [removeFirst, startsWithList]

theorem toLower_hexChar (c : Char) (h : isHexChar c = true) :
    isLowerHexChar (Char.toLower c) = true := by
  have hc : c = Char.ofNat c.toNat := (Char.ofNat_toNat c).symm
  simp only [isHexChar, Bool.decide_or, Bool.decide_and, Bool.or_eq_true, Bool.and_eq_true,
    decide_eq_true_eq] at h
  generalize c.toNat = n at hc h
  subst hc
  rcases h with ⟨h₁, h₂⟩ | ⟨h₁, h₂⟩ | ⟨h₁, h₂⟩ <;> interval_cases n <;> decide

/-- C25. For every address made of `0x` and 40 hexadecimal characters,
`bytecodeMintPongPing` returns the selector `0x1249c58b`, 24 zeros, the 40
characters of the address in lower case, and the encoding of `1000 * 10^18` in
64 hexadecimal digits: 138 characters, all lower-case hexadecimal digits after
the `0x`. -/
theorem mint_call_data_layout (body : List Char) (hlen : body.length = 40)
    (hhex : body.all isHexChar = true) :
    MintPing.bytecodeMintPongPing (String.mk ('0' :: 'x' :: body)) =
      String.mk ("0x1249c58b".data ++ List.replicate 24 '0' ++ body.map Char.toLower
        ++ hexEncode 64 (1000 * 10 ^ 18)) ∧
    (MintPing.bytecodeMintPongPing (String.mk ('0' :: 'x' :: body))).length = 138 ∧
    ∀ c ∈ (MintPing.bytecodeMintPongPing (String.mk ('0' :: 'x' :: body))).data.drop 2,
      isLowerHexChar c = true := by
  have hrep : List.replicate 24 '0' = "000000000000000000000000".data := by decide
  have henc : hexEncode 64 (1000 * 10 ^ 18)
      = "00000000000000000000000000000000000000000000003635c9adc5dea00000".data := by decide
  have hdata : (MintPing.bytecodeMintPongPing (String.mk ('0' :: 'x' :: body))).data
      = "0x1249c58b".data ++ List.replicate 24 '0' ++ body.map Char.toLower
        ++ hexEncode 64 (1000 * 10 ^ 18) := by
    have hlit : ("0x" : String).data = ['0', 'x'] := rfl
    unfold MintPing.bytecodeMintPongPing toLowerCase
    simp only [hlit, removeFirst_zeroX, String.data_append, hrep, henc]
    rfl
  refine ⟨String.ext_iff.mpr hdata, ?_, ?_⟩
  · show (MintPing.bytecodeMintPongPing (String.mk ('0' :: 'x' :: body))).data.length = 138
    rw [hdata, henc]
    simp [hlen]
  · intro c hc
    rw [hdata, henc] at hc
    have hsplit : ("0x1249c58b".data ++ List.replicate 24 '0' ++ body.map Char.toLower
        ++ "00000000000000000000000000000000000000000000003635c9adc5dea00000".data).drop 2
        = "1249c58b".data ++ List.replicate 24 '0' ++ body.map Char.toLower
          ++ "00000000000000000000000000000000000000000000003635c9adc5dea00000".data := rfl
    rw [hsplit] at hc
    simp only [List.mem_append, List.mem_map, List.mem_replicate] at hc
    rcases hc with ((hc | hc) | ⟨b, hb, rfl⟩) | hc
    · revert c
      decide
    · rw [hc.2]
      decide
    · exact toLower_hexChar b (List.all_eq_true.mp hhex b hb)
    · revert c
      decide

/-- C25 at the address `0x52908400098527886E0F7030069857D2E4169EE7`. -/
theorem mint_call_data_layout_witness :
    MintPing.bytecodeMintPongPing
        (String.mk ('0' :: 'x' :: "52908400098527886E0F7030069857D2E4169EE7".data)) =
      String.mk ("0x1249c58b".data ++ List.replicate 24 '0'
        ++ "52908400098527886E0F7030069857D2E4169EE7".data.map Char.toLower
        ++ hexEncode 64 (1000 * 10 ^ 18)) ∧
    (MintPing.bytecodeMintPongPing
        (String.mk ('0' :: 'x' :: "52908400098527886E0F7030069857D2E4169EE7".data))).length
      = 138 ∧
    ∀ c ∈ (MintPing.bytecodeMintPongPing
        (String.mk ('0' :: 'x' :: "52908400098527886E0F7030069857D2E4169EE7".data))).data.drop 2,
      isLowerHexChar c = true :=
  mint_call_data_layout "52908400098527886E0F7030069857D2E4169EE7".data (by decide) (by decide)

/-! ## C26 -/

/-- One pass of the callback of `mintsusdt.js`: the key of the line, if it has
one, is stored with the line number. -/
theorem MintSusdt.checkLine_stores_numbered_key (idx : Nat) (line : String)
    (acc : List (Nat × String) × List KeyLog) :
    (MintSusdt.checkLine idx line acc).1
      = acc.1 ++ (keyOfLine line).toList.map (fun key => (idx + 1, key)) := by
  have hval : ∀ k, MintSusdt.isValidPrivateKey k = (hexBody (trim k)).isSome :=
    MintPing.isValidPrivateKey_isSome
  unfold MintSusdt.checkLine keyOfLine
  simp only [hval, trim_trim]
  by_cases hskip : trim line = "" ∨ startsWith (trim line) "#" = true
  · have hnot : ¬ (trim line ≠ "" ∧ ¬ startsWith (trim line) "#" = true) := by
      rintro ⟨h₁, h₂⟩
      rcases hskip with h | h
      · exact h₁ h
      · exact h₂ h
    rw [if_neg hnot, if_pos hskip]
    simp
  · have hne : trim line ≠ "" := fun h => hskip (Or.inl h)
    have hns : ¬ startsWith (trim line) "#" = true := fun h => hskip (Or.inr h)
    rw [if_pos ⟨hne, hns⟩, if_neg hskip]
    rcases hbody : hexBody (trim line) with _ | body
    · simp
    · have hpush := MintPing.pushed_key_eq (trim line) body hbody
      simp only [Option.isSome_some, if_true, hpush]
      simp

/-- One pass of the callback of `nftcollection.js`. -/
theorem NFTCollection.checkLine_stores_key_of_line (idx : Nat) (line : String)
    (acc : List (Nat × String) × List KeyLog) :
    (NFTCollection.checkLine idx line acc).1
      = acc.1 ++ (keyOfLine line).toList.map (fun key => (idx + 1, key)) := by
  have hval : ∀ k, NFTCollection.isValidPrivateKey k = (hexBody (trim k)).isSome :=
    MintPing.isValidPrivateKey_isSome
  unfold NFTCollection.checkLine keyOfLine
  simp only [hval, trim_trim]
  by_cases hskip : trim line = "" ∨ startsWith (trim line) "#" = true
  · have hnot : ¬ (trim line ≠ "" ∧ ¬ startsWith (trim line) "#" = true) := by
      rintro ⟨h₁, h₂⟩
      rcases hskip with h | h
      · exact h₁ h
      · exact h₂ h
    rw [if_neg hnot, if_pos hskip]
    simp
  · have hne : trim line ≠ "" := fun h => hskip (Or.inl h)
    have hns : ¬ startsWith (trim line) "#" = true := fun h => hskip (Or.inr h)
    rw [if_pos ⟨hne, hns⟩, if_neg hskip]
    rcases hbody : hexBody (trim line) with _ | body
    · simp
    · have hpush := MintPing.pushed_key_eq (trim line) body hbody
      simp only [Option.isSome_some, if_true, hpush]
      simp

/-- C26. The four copies of `isValidPrivateKey` accept the same strings: the
one of `swapping.js` returns a key exactly when those of `mintping.js`,
`mintsusdt.js` and `nftcollection.js` return `true`. For every line of a key
file the four loaders store the same key (those of `mintsusdt.js` and
`nftcollection.js` together with the line number), and a stored key is `0x`
followed by 64 hexadecimal characters, 66 characters in all. -/
theorem key_validators_agree (s : String) :
    (isValidPrivateKey s).isSome = MintPing.isValidPrivateKey s ∧
    MintSusdt.isValidPrivateKey s = MintPing.isValidPrivateKey s ∧
    NFTCollection.isValidPrivateKey s = MintPing.isValidPrivateKey s ∧
    (∀ idx,
      (MintPing.checkLine idx s ([], [])).1 = (checkLine idx s ([], [])).1 ∧
      (MintSusdt.checkLine idx s ([], [])).1
        = (checkLine idx s ([], [])).1.map (fun key => (idx + 1, key)) ∧
      (NFTCollection.checkLine idx s ([], [])).1
        = (checkLine idx s ([], [])).1.map (fun key => (idx + 1, key)) ∧
      ∀ key ∈ (checkLine idx s ([], [])).1,
        isValidPrivateKey s = some key ∧ key.length = 66 ∧
        ∃ body, key.data = '0' :: 'x' :: body ∧ body.length = 64 ∧
          body.all isHexChar = true) := by
  refine ⟨?_, rfl, rfl, ?_⟩
  · rw [isValidPrivateKey_eq, MintPing.isValidPrivateKey_isSome]
    cases hexBody (trim s) <;> rfl
  · intro idx
    have h₁ := (checkLine_spec idx s ([], [])).1
    have h₂ := (MintPing.checkLine_keys_and_warnings idx s ([], [])).1
    have h₃ := MintSusdt.checkLine_stores_numbered_key idx s ([], [])
    have h₄ := NFTCollection.checkLine_stores_key_of_line idx s ([], [])
    simp only [List.nil_append] at h₁ h₂ h₃ h₄
    refine ⟨by rw [h₂, h₁], by rw [h₃, h₁], by rw [h₄, h₁], ?_⟩
    intro key hkey
    rw [h₁] at hkey
    have hk : keyOfLine s = some key := by
      cases hkl : keyOfLine s with
      | none => simp [hkl] at hkey
      | some k =>
        simp only [hkl, Option.toList_some, List.mem_singleton] at hkey
        rw [hkey]
    unfold keyOfLine at hk
    split at hk
    · exact absurd hk (by simp)
    · cases hbody : hexBody (trim s) with
      | none => simp [hbody] at hk
      | some body =>
        simp only [hbody, Option.map_some', Option.some.injEq] at hk
        obtain ⟨hlen, hhex, _⟩ := hexBody_spec (trim s) body hbody
        subst hk
        refine ⟨by rw [isValidPrivateKey_eq, hbody]; rfl, ?_, body, rfl, hlen, hhex⟩
        show ('0' :: 'x' :: body).length = 66
        simp [hlen]

/-! ## C27 -/

theorem tagged_keys (keys : List String) (random : Nat → ℚ) :
    (keys.enum.map (fun p => (p.2, random p.1))).map Prod.fst = keys := by
  rw [List.map_map]
  have : (Prod.fst ∘ fun p : Nat × String => (p.2, random p.1)) = Prod.snd := rfl
  rw [this, List.enum_map_snd]

/-- C27. For every list of keys and every sequence of draws of
`Math.random()`, `shuffleWallets` (of `swapping.js` and of `mintping.js`)
returns a permutation of the keys: the same length, and every key as many
times as in the input, so no wallet is dropped or duplicated. -/
theorem shuffleWallets_is_a_permutation (keys : List String) (random : Nat → ℚ) :
    (shuffleWallets keys random).Perm keys ∧
    (shuffleWallets keys random).length = keys.length ∧
    (∀ key, (shuffleWallets keys random).count key = keys.count key) ∧
    (MintPing.shuffleWallets keys random).Perm keys ∧
    (MintPing.shuffleWallets keys random).length = keys.length ∧
    (∀ key, (MintPing.shuffleWallets keys random).count key = keys.count key) := by
  have hperm : (shuffleWallets keys random).Perm keys := by
    unfold shuffleWallets
    have h := (List.perm_insertionSort (fun a b : String × ℚ => a.2 ≤ b.2)
      (keys.enum.map (fun p => (p.2, random p.1)))).map Prod.fst
    rw [tagged_keys] at h
    exact h
  exact ⟨hperm, hperm.length_eq, fun key => hperm.count_eq key,
    hperm, hperm.length_eq, fun key => hperm.count_eq key⟩

/-! ## Induction along a run -/

/-- Induction along the outer loop: what the exit by an error, the record of
an approval, every swap step and the pause between two wallets keep, the loop
keeps. -/
theorem walletLoop_induction (P : RunState → Prop) (amount swapTimes : ℚ)
    (wallets : Nat → WalletAnswers) (total : Nat)
    (hthrow : ∀ (st : RunState) (message : String), P st → P { st with thrown := some message })
    (happrove : ∀ (i : Nat) (ownerAddress : String) (st : RunState), P st →
      P { st with
          txStats := (approveToken tokenIn swapRouterAddress ownerAddress (amount * swapTimes)
            (wallets i).approve st.txStats).txStats
          history := st.history ++ (approveToken tokenIn swapRouterAddress ownerAddress
            (amount * swapTimes) (wallets i).approve st.txStats).history
          ops := st.ops ++ [Op.approve i (amount * swapTimes)
            (approveToken tokenIn swapRouterAddress ownerAddress (amount * swapTimes)
              (wallets i).approve st.txStats)] })
    (hswap : ∀ (i : Nat) (ownerAddress : String) (j : Nat) (st : RunState), P st →
      P (swapStep amount swapTimes i ownerAddress (wallets i) j st))
    (hpause : ∀ (i : Nat) (st : RunState), P st →
      P { st with
          ops := st.ops ++
            [Op.pause Pause.betweenWallets (getRandomInt (wallets i).walletPause 30 90)] }) :
    ∀ (keys : List String) (i : Nat) (st : RunState), P st →
      P (walletLoop amount swapTimes wallets total i keys st) := by
  intro keys
  induction keys with
  | nil =>
    intro i st hst
    exact hst
  | cons key rest ih =>
    intro i st hst
    unfold walletLoop
    split
    · exact hthrow st _ hst
    · rename_i ownerAddress _
      have h₁ := happrove i ownerAddress st hst
      simp only
      split
      · exact ih _ _ h₁
      · apply ih
        have h₂ := swapLoop_induction P amount swapTimes i ownerAddress (wallets i)
          (fun j st h => hswap i ownerAddress j st h) 0 _ h₁
        split
        · exact hpause i _ h₂
        · exact h₂

/-- A run either ends before the outer loop, having made no step (because of an
error, or because no key was loaded), or it is the outer loop entered at the
first wallet with empty statistics. -/
theorem runSwapping_cases (ans : RunAnswers) :
    ((runSwapping ans).txStats = none ∧ (runSwapping ans).successfulSwaps = 0 ∧
      (runSwapping ans).history = [] ∧ (runSwapping ans).ops = [] ∧
      ((runSwapping ans).caught = none →
        ∃ keys, ans.privateKeys = Except.ok keys ∧ keys.length = 0)) ∨
    (∃ keys amount swapTimes, ans.privateKeys = Except.ok keys ∧
      ans.amount = Except.ok amount ∧ ans.swapTimes = Except.ok swapTimes ∧
      (runSwapping ans).txStats = some (walletLoop amount swapTimes ans.wallets keys.length 0 keys
        { txStats := { success := 0, failed := 0, pending := 0, times := [] }
          successfulSwaps := 0, history := [], ops := [], thrown := none }).txStats ∧
      (runSwapping ans).successfulSwaps = (walletLoop amount swapTimes ans.wallets keys.length 0
        keys
        { txStats := { success := 0, failed := 0, pending := 0, times := [] }
          successfulSwaps := 0, history := [], ops := [], thrown := none }).successfulSwaps ∧
      (runSwapping ans).history = (walletLoop amount swapTimes ans.wallets keys.length 0 keys
        { txStats := { success := 0, failed := 0, pending := 0, times := [] }
          successfulSwaps := 0, history := [], ops := [], thrown := none }).history ∧
      (runSwapping ans).ops = (walletLoop amount swapTimes ans.wallets keys.length 0 keys
        { txStats := { success := 0, failed := 0, pending := 0, times := [] }
          successfulSwaps := 0, history := [], ops := [], thrown := none }).ops ∧
      (runSwapping ans).caught = (walletLoop amount swapTimes ans.wallets keys.length 0 keys
        { txStats := { success := 0, failed := 0, pending := 0, times := [] }
          successfulSwaps := 0, history := [], ops := [], thrown := none }).thrown) := by
  unfold runSwapping
  repeat' split
  all_goals first
    | (left
       refine ⟨rfl, rfl, rfl, rfl, ?_⟩
       intro h
       first
         | exact ⟨_, ‹_›, ‹_›⟩
         | (simp [earlyExit] at h))
    | (right
       refine ⟨_, _, _, ?_, ?_, ?_, rfl, rfl, rfl, rfl, rfl⟩ <;> assumption)

/-! ## C22 -/

theorem swapStep_pauses (amount swapTimes : ℚ) (wallet : Nat) (ownerAddress : String)
    (w : WalletAnswers) (swapIter : Nat) (st : RunState)
    (hdraw : 0 ≤ w.swapPause swapIter ∧ w.swapPause swapIter < 1)
    (hst : ∀ op ∈ st.ops, op.pauseInRange) :
    ∀ op ∈ (swapStep amount swapTimes wallet ownerAddress w swapIter st).ops,
      op.pauseInRange := by
  have hrange := getRandomInt_mem_range (w.swapPause swapIter) 1 5 hdraw.1 hdraw.2 (by norm_num)
    (by norm_num) (by norm_num)
  unfold swapStep
  split
  · intro op hop
    simp only [List.mem_append, List.mem_singleton] at hop
    rcases hop with (hop | rfl) | rfl
    · exact hst op hop
    · trivial
    · exact hrange
  · intro op hop
    simp only [List.mem_append, List.mem_singleton] at hop
    rcases hop with hop | rfl
    · exact hst op hop
    · trivial

/-- In a run with draws in `[0, 1)` every pause is in the range of its place. -/
theorem runSwapping_pauses (ans : RunAnswers)
    (hswap : ∀ i j, 0 ≤ (ans.wallets i).swapPause j ∧ (ans.wallets i).swapPause j < 1)
    (hwallet : ∀ i, 0 ≤ (ans.wallets i).walletPause ∧ (ans.wallets i).walletPause < 1) :
    ∀ op ∈ (runSwapping ans).ops, op.pauseInRange := by
  rcases runSwapping_cases ans with ⟨_, _, _, hops, _⟩ | ⟨keys, amount, swapTimes, _, _, _, _,
    _, _, hops, _⟩
  · rw [hops]
    intro op hop
    simp at hop
  · rw [hops]
    refine walletLoop_induction (fun st => ∀ op ∈ st.ops, op.pauseInRange) amount swapTimes
      ans.wallets keys.length ?_ ?_ ?_ ?_ keys 0 _ ?_
    · intro st message hst
      exact hst
    · intro i ownerAddress st hst op hop
      simp only [List.mem_append, List.mem_singleton] at hop
      rcases hop with hop | rfl
      · exact hst op hop
      · trivial
    · intro i ownerAddress j st hst
      exact swapStep_pauses amount swapTimes i ownerAddress (ans.wallets i) j st (hswap i j) hst
    · intro i st hst op hop
      simp only [List.mem_append, List.mem_singleton] at hop
      rcases hop with hop | rfl
      · exact hst op hop
      · exact getRandomInt_mem_range _ 30 90 (hwallet i).1 (hwallet i).2 (by norm_num)
          (by norm_num) (by norm_num)
    · intro op hop
      simp at hop

/-- C22 as stated fails: the product is a binary64 product, and `Math.floor`
is applied to its rounded value. The draw `7505999378950826 / 2^53`, which is
the number `0.8333333333333333`, is a binary64 value in `[0, 1)`; six times
the draw is half-way between 5 and the binary64 value below 5 and is rounded
to 5, so `getRandomInt(5, 10)` is 10 where `floor(r * (max - min + 1)) + min`
is 9. -/
theorem getRandomInt_rounds_the_product :
    binary64 (7505999378950826 / 2 ^ 53) = 7505999378950826 / 2 ^ 53 ∧
    (0 : ℚ) ≤ 7505999378950826 / 2 ^ 53 ∧ (7505999378950826 / 2 ^ 53 : ℚ) < 1 ∧
    getRandomInt (7505999378950826 / 2 ^ 53) 5 10 = 10 ∧
    ⌊(7505999378950826 / 2 ^ 53 : ℚ) * ((10 - 5 + 1 : Int) : ℚ)⌋ + 5 = 9 := by
  have hrep : binary64 (7505999378950826 / 2 ^ 53) = 7505999378950826 / 2 ^ 53 :=
    binary64_eq_self _ 7505999378950826 (-53) (by norm_num) (by norm_num)
  have htr : mathRandom (7505999378950826 / 2 ^ 53) = 7505999378950826 / 2 ^ 53 :=
    truncate64_of_binary64 _ hrep
  have hprod : binary64 (7505999378950826 / 2 ^ 53 * ((10 - 5 + 1 : Int) : ℚ)) = 5 := by
    rw [binary64_eq_of_tie _ 2 5629499534213119 (by norm_num) (by norm_num) (by norm_num)]
    norm_num
  refine ⟨hrep, by norm_num, by norm_num, ?_, ?_⟩
  · rw [getRandomInt_eq _ 5 10 (by norm_num) (by norm_num) (by norm_num) (by norm_num)
      (by norm_num), htr, hprod]
    norm_num
  · norm_num [Int.floor_eq_iff]

/-- C22, amended. For all integers `min ≤ max` between `-2^24` and `2^24` and
every value `r` of `Math.random()`, a binary64 value with `0 ≤ r < 1`,
`getRandomInt(min, max)` is `floor(fl(r * (max - min + 1))) + min`, where `fl`
is the rounding of the product to binary64; it is an integer between `min`
and `max`, both included, and every integer between `min` and `max` is the
value for some `r`. Hence in every run of `runSwapping` with draws in `[0, 1)`
a pause between two swaps, `getRandomInt(1, 5)`, is 1 to 5 seconds and a pause
between two wallets, `getRandomInt(30, 90)`, is 30 to 90 seconds. -/
theorem getRandomInt_covers_the_range (min max : Int) (hmm : min ≤ max)
    (hmin : -2 ^ 24 ≤ min) (hmax : max ≤ 2 ^ 24) :
    (∀ r : ℚ, 0 ≤ r → r < 1 → binary64 r = r →
      getRandomInt r min max = ⌊binary64 (r * ((max - min + 1 : Int) : ℚ))⌋ + min) ∧
    (∀ r : ℚ, 0 ≤ r → r < 1 → min ≤ getRandomInt r min max ∧ getRandomInt r min max ≤ max) ∧
    (∀ n : Int, min ≤ n → n ≤ max →
      ∃ r : ℚ, 0 ≤ r ∧ r < 1 ∧ binary64 r = r ∧ getRandomInt r min max = n) ∧
    (∀ r : ℚ, 0 ≤ r → r < 1 →
      (1 ≤ getRandomInt r 1 5 ∧ getRandomInt r 1 5 ≤ 5) ∧
      (30 ≤ getRandomInt r 30 90 ∧ getRandomInt r 30 90 ≤ 90)) ∧
    (∀ ans : RunAnswers,
      (∀ i j, 0 ≤ (ans.wallets i).swapPause j ∧ (ans.wallets i).swapPause j < 1) →
      (∀ i, 0 ≤ (ans.wallets i).walletPause ∧ (ans.wallets i).walletPause < 1) →
      (∀ seconds, Op.pause Pause.betweenSwaps seconds ∈ (runSwapping ans).ops →
        1 ≤ seconds ∧ seconds ≤ 5) ∧
      (∀ seconds, Op.pause Pause.betweenWallets seconds ∈ (runSwapping ans).ops →
        30 ≤ seconds ∧ seconds ≤ 90)) := by
  have hmin' : (-2 ^ 51 : Int) ≤ min := by
    norm_num at hmin ⊢
    omega
  have hmax' : max ≤ (2 ^ 51 : Int) := by
    norm_num at hmax ⊢
    omega
  refine ⟨?_, fun r h0 h1 => getRandomInt_mem_range r min max h0 h1 hmm hmin' hmax',
    fun n hlo hhi => getRandomInt_onto min max n hmm hmin hmax hlo hhi,
    fun r h0 h1 => ⟨getRandomInt_mem_range r 1 5 h0 h1 (by norm_num) (by norm_num) (by norm_num),
      getRandomInt_mem_range r 30 90 h0 h1 (by norm_num) (by norm_num) (by norm_num)⟩, ?_⟩
  · intro r h0 h1 hr
    rw [getRandomInt_eq r min max h0 h1 hmm hmin' hmax', mathRandom, truncate64_of_binary64 r hr]
  · intro ans hswap hwallet
    have hall := runSwapping_pauses ans hswap hwallet
    exact ⟨fun seconds hmem => hall _ hmem, fun seconds hmem => hall _ hmem⟩

/-- C22 at the range of the pause between two wallets. -/
theorem getRandomInt_covers_the_range_witness :
    (∀ r : ℚ, 0 ≤ r → r < 1 → binary64 r = r →
      getRandomInt r 30 90 = ⌊binary64 (r * ((90 - 30 + 1 : Int) : ℚ))⌋ + 30) ∧
    (∀ r : ℚ, 0 ≤ r → r < 1 → 30 ≤ getRandomInt r 30 90 ∧ getRandomInt r 30 90 ≤ 90) ∧
    (∀ n : Int, 30 ≤ n → n ≤ 90 →
      ∃ r : ℚ, 0 ≤ r ∧ r < 1 ∧ binary64 r = r ∧ getRandomInt r 30 90 = n) ∧
    (∀ r : ℚ, 0 ≤ r → r < 1 →
      (1 ≤ getRandomInt r 1 5 ∧ getRandomInt r 1 5 ≤ 5) ∧
      (30 ≤ getRandomInt r 30 90 ∧ getRandomInt r 30 90 ≤ 90)) ∧
    (∀ ans : RunAnswers,
      (∀ i j, 0 ≤ (ans.wallets i).swapPause j ∧ (ans.wallets i).swapPause j < 1) →
      (∀ i, 0 ≤ (ans.wallets i).walletPause ∧ (ans.wallets i).walletPause < 1) →
      (∀ seconds, Op.pause Pause.betweenSwaps seconds ∈ (runSwapping ans).ops →
        1 ≤ seconds ∧ seconds ≤ 5) ∧
      (∀ seconds, Op.pause Pause.betweenWallets seconds ∈ (runSwapping ans).ops →
        30 ≤ seconds ∧ seconds ≤ 90)) :=
  getRandomInt_covers_the_range 30 90 (by decide) (by decide) (by decide)

/-! ## C24 -/

/-- C24. `swapToken` ends in one of three ways and `approveToken` in one of
four: through the `catch` block, through a failed check, (for `approveToken`)
with `ALREADY_APPROVED`, or with a submission. A step that throws, such as a
rejected `decimals()` call, leads to the `catch` block, and the `catch` block
returns `null` and leaves `txStats` as it was: `failed` is not incremented,
neither there nor before. A submission never ends in the `catch` block: it
records its own outcome. -/
theorem caught_error_is_not_counted (ans : SwapAnswers) (approve : ApproveAnswers)
    (txStats : TxStats) :
    (∀ tokenIn tokenOut amountIn recipient,
      swapToken tokenIn tokenOut amountIn recipient ans txStats = caughtResult txStats ∨
      swapToken tokenIn tokenOut amountIn recipient ans txStats = failedResult txStats ∨
      ∃ txParams, swapToken tokenIn tokenOut amountIn recipient ans txStats
        = submitResult ans.startTime ans.attempts txParams txStats) ∧
    (∀ tokenAddress spenderAddress ownerAddress amountToApprove,
      approveToken tokenAddress spenderAddress ownerAddress amountToApprove approve txStats
        = caughtResult txStats ∨
      approveToken tokenAddress spenderAddress ownerAddress amountToApprove approve txStats
        = failedResult txStats ∨
      approveToken tokenAddress spenderAddress ownerAddress amountToApprove approve txStats
        = { returned := some "ALREADY_APPROVED", txStats := txStats, history := [],
            built := none, submitted := none } ∨
      ∃ txParams,
        approveToken tokenAddress spenderAddress ownerAddress amountToApprove approve txStats
          = submitResult approve.startTime approve.attempts txParams txStats) ∧
    ((caughtResult txStats).returned = none ∧ (caughtResult txStats).txStats = txStats ∧
      (caughtResult txStats).txStats.failed = txStats.failed ∧
      (caughtResult txStats).history = []) ∧
    (∀ tokenIn tokenOut amountIn recipient address message,
      ans.privateKeyToAccount = Except.ok address → ans.decimals = Except.error message →
      swapToken tokenIn tokenOut amountIn recipient ans txStats = caughtResult txStats) ∧
    (∀ tokenAddress spenderAddress ownerAddress amountToApprove message,
      approve.getBalance = Except.error message →
      approveToken tokenAddress spenderAddress ownerAddress amountToApprove approve txStats
        = caughtResult txStats) ∧
    (∀ startTime attempts txParams,
      submitResult startTime attempts txParams txStats ≠ caughtResult txStats) ∧
    (swapToken tokenIn tokenOut 100 "0x52908400098527886E0F7030069857D2E4169EE7"
        swapUnreachable freshStats).returned = none ∧
    (swapToken tokenIn tokenOut 100 "0x52908400098527886E0F7030069857D2E4169EE7"
        swapUnreachable freshStats).txStats.failed = 0 := by
  refine ⟨?_, ?_, ⟨rfl, rfl, rfl, rfl⟩, ?_, ?_, ?_, rfl, rfl⟩
  · intro tokenIn tokenOut amountIn recipient
    unfold swapToken
    repeat' split
    all_goals first
      | exact Or.inl rfl
      | exact Or.inr (Or.inl rfl)
      | exact Or.inr (Or.inr ⟨_, rfl⟩)
  · intro tokenAddress spenderAddress ownerAddress amountToApprove
    unfold approveToken
    repeat' split
    all_goals first
      | exact Or.inl rfl
      | exact Or.inr (Or.inl rfl)
      | exact Or.inr (Or.inr (Or.inl rfl))
      | exact Or.inr (Or.inr (Or.inr ⟨_, rfl⟩))
  · intro tokenIn tokenOut amountIn recipient address message hacc hdec
    simp [swapToken, hacc, hdec]
  · intro tokenAddress spenderAddress ownerAddress amountToApprove message hbal
    simp [approveToken, hbal]
  · intro startTime attempts txParams h
    have := congrArg CallResult.built h
    simp [submitResult, caughtResult] at this

/-! ## C28 -/

/-- C28. `runSwapping` asks `approveToken` to approve `amount * swapTimes`.
When the reads of `approveToken` resolve, the owner has gas, and the token
balance is below the amount to approve in wei, `approveToken` returns `null`
with `failed` incremented once, and the wallet is skipped: the run goes on to
the next wallet having made the approval step and no call of `swapToken`,
whether or not the balance covers a single swap. -/
theorem underfunded_wallet_is_skipped (amount swapTimes : ℚ) (wallets : Nat → WalletAnswers)
    (total i : Nat) (key : String) (rest : List String) (st : RunState) (ownerAddress : String)
    (balance : Int) (decimals : Nat) (required currentAllowance tokenBalance : Int)
    (hown : (wallets i).privateKeyToAccount = Except.ok ownerAddress)
    (hbal : (wallets i).approve.getBalance = Except.ok balance) (hgas : 10 ^ 15 ≤ balance)
    (hdec : (wallets i).approve.decimals = Except.ok decimals)
    (hamt : (wallets i).approve.amountWei (amount * swapTimes) decimals = Except.ok required)
    (hall : (wallets i).approve.allowance = Except.ok currentAllowance)
    (hbalof : (wallets i).approve.balanceOf = Except.ok tokenBalance)
    (hlow : tokenBalance < required) :
    approveToken tokenIn swapRouterAddress ownerAddress (amount * swapTimes) (wallets i).approve
        st.txStats = failedResult st.txStats ∧
    walletLoop amount swapTimes wallets total i (key :: rest) st =
      walletLoop amount swapTimes wallets total (i + 1) rest
        { st with
          txStats := { st.txStats with failed := st.txStats.failed + 1 }
          history := st.history ++ [{ st.txStats with failed := st.txStats.failed + 1 }]
          ops := st.ops ++ [Op.approve i (amount * swapTimes) (failedResult st.txStats)] } := by
  have hnot : ¬ balance < 1000000000000000 := by
    norm_num at hgas
    omega
  have hd : approvalDecision tokenBalance currentAllowance required
      = AllowanceDecision.insufficientBalance := by
    unfold approvalDecision
    rw [if_pos hlow]
  have happ : approveToken tokenIn swapRouterAddress ownerAddress (amount * swapTimes)
      (wallets i).approve st.txStats = failedResult st.txStats := by
    simp [approveToken, hbal, hnot, hdec, hamt, hall, hbalof, hd]
  refine ⟨happ, ?_⟩
  rw [walletLoop]
  simp only [hown, happ]
  rfl

/-- C28 at a wallet that holds 150 tokens and is asked for 2 swaps of 100. -/
theorem underfunded_wallet_is_skipped_witness :
    approveToken tokenIn swapRouterAddress "0x52908400098527886E0F7030069857D2E4169EE7"
        (100 * 2) underfundedWallet.approve freshStats = failedResult freshStats ∧
    walletLoop 100 2 (fun _ => underfundedWallet) 1 0
        ["0x1111111111111111111111111111111111111111111111111111111111111111"]
        { txStats := freshStats, successfulSwaps := 0, history := [], ops := [],
          thrown := none } =
      walletLoop 100 2 (fun _ => underfundedWallet) 1 (0 + 1) []
        { txStats := { freshStats with failed := freshStats.failed + 1 }
          successfulSwaps := 0
          history := [] ++ [{ freshStats with failed := freshStats.failed + 1 }]
          ops := [] ++ [Op.approve 0 (100 * 2) (failedResult freshStats)]
          thrown := none } :=
  underfunded_wallet_is_skipped 100 2 (fun _ => underfundedWallet) 1 0
    "0x1111111111111111111111111111111111111111111111111111111111111111" []
    { txStats := freshStats, successfulSwaps := 0, history := [], ops := [], thrown := none }
    "0x52908400098527886E0F7030069857D2E4169EE7" (2 * 10 ^ 18) 18 (200 * 10 ^ 18)
    (500 * 10 ^ 18) (150 * 10 ^ 18) rfl rfl (by norm_num) rfl rfl rfl rfl (by norm_num)

/-! ## One wallet of a run -/

/-- The state after the approval of wallet `i` has been recorded. -/
theorem walletLoop_cons (amount swapTimes : ℚ) (wallets : Nat → WalletAnswers) (total i : Nat)
    (key : String) (rest : List String) (st : RunState) :
    (∃ message, (wallets i).privateKeyToAccount = Except.error message ∧
      walletLoop amount swapTimes wallets total i (key :: rest) st
        = { st with thrown := some message }) ∨
    (∃ (ownerAddress : String) (r : CallResult) (st₁ : RunState),
      (wallets i).privateKeyToAccount = Except.ok ownerAddress ∧
      r = approveToken tokenIn swapRouterAddress ownerAddress (amount * swapTimes)
        (wallets i).approve st.txStats ∧
      st₁.ops = st.ops ++ [Op.approve i (amount * swapTimes) r] ∧
      st₁.thrown = st.thrown ∧
      ((r.returned = none ∧
          walletLoop amount swapTimes wallets total i (key :: rest) st
            = walletLoop amount swapTimes wallets total (i + 1) rest st₁) ∨
        (r.returned ≠ none ∧ ∃ st₃ : RunState,
          walletLoop amount swapTimes wallets total i (key :: rest) st
            = walletLoop amount swapTimes wallets total (i + 1) rest st₃ ∧
          st₃.thrown = (swapLoop amount swapTimes i ownerAddress (wallets i) 0 st₁).thrown ∧
          (st₃.ops = (swapLoop amount swapTimes i ownerAddress (wallets i) 0 st₁).ops ∨
            ∃ seconds, st₃.ops
              = (swapLoop amount swapTimes i ownerAddress (wallets i) 0 st₁).ops
                ++ [Op.pause Pause.betweenWallets seconds])))) := by
  rw [walletLoop]
  split
  · rename_i message hmsg
    exact Or.inl ⟨message, hmsg, rfl⟩
  · rename_i ownerAddress hown
    right
    refine ⟨ownerAddress, _,
      { st with
        txStats := (approveToken tokenIn swapRouterAddress ownerAddress (amount * swapTimes)
          (wallets i).approve st.txStats).txStats
        history := st.history ++ (approveToken tokenIn swapRouterAddress ownerAddress
          (amount * swapTimes) (wallets i).approve st.txStats).history
        ops := st.ops ++ [Op.approve i (amount * swapTimes)
          (approveToken tokenIn swapRouterAddress ownerAddress (amount * swapTimes)
            (wallets i).approve st.txStats)] },
      hown, rfl, rfl, rfl, ?_⟩
    simp only
    split
    · rename_i hnone
      exact Or.inl ⟨hnone, rfl⟩
    · rename_i hash hsome
      right
      refine ⟨by rw [hsome]; exact Option.some_ne_none _, ?_⟩
      split
      · exact ⟨_, rfl, rfl, Or.inr ⟨_, rfl⟩⟩
      · exact ⟨_, rfl, rfl, Or.inl rfl⟩

theorem swapStep_ops (amount swapTimes : ℚ) (wallet : Nat) (ownerAddress : String)
    (w : WalletAnswers) (swapIter : Nat) (st : RunState) :
    (swapStep amount swapTimes wallet ownerAddress w swapIter st).thrown = st.thrown ∧
    ∃ r : CallResult,
      (swapStep amount swapTimes wallet ownerAddress w swapIter st).ops
          = st.ops ++ [Op.swap wallet swapIter r] ∨
      ∃ seconds, (swapStep amount swapTimes wallet ownerAddress w swapIter st).ops
          = st.ops ++ [Op.swap wallet swapIter r] ++ [Op.pause Pause.betweenSwaps seconds] := by
  unfold swapStep
  split
  · exact ⟨rfl, _, Or.inr ⟨_, rfl⟩⟩
  · exact ⟨rfl, _, Or.inl rfl⟩

/-- The inner loop entered at `j` makes the swaps `j`, `j + 1`, … up to the
least integer that is at least `swapTimes`, in this order. -/
theorem swapLoop_steps (amount swapTimes : ℚ) (wallet : Nat) (ownerAddress : String)
    (w : WalletAnswers) (i : Nat) :
    ∀ (n j : Nat) (st : RunState), j + n = ⌈swapTimes⌉₊ →
      (swapLoop amount swapTimes wallet ownerAddress w j st).ops.filterMap (Op.stepOf i)
        = st.ops.filterMap (Op.stepOf i)
          ++ (if wallet = i then (List.range' j n).map WalletStep.swap else []) ∧
      (swapLoop amount swapTimes wallet ownerAddress w j st).ops.countP Op.isSwap
        = st.ops.countP Op.isSwap + n ∧
      (swapLoop amount swapTimes wallet ownerAddress w j st).thrown = st.thrown := by
  intro n
  induction n with
  | zero =>
    intro j st hj
    have hnot : ¬ (j : ℚ) < swapTimes := by
      intro h
      have := Nat.lt_ceil.mpr h
      omega
    rw [swapLoop, dif_neg hnot]
    simp
  | succ n ih =>
    intro j st hj
    have hlt : (j : ℚ) < swapTimes := Nat.lt_ceil.mp (by omega)
    rw [swapLoop, dif_pos hlt]
    obtain ⟨h₁, h₂, h₃⟩ := ih (j + 1) (swapStep amount swapTimes wallet ownerAddress w j st)
      (by omega)
    obtain ⟨hthrown, r, hops | ⟨seconds, hops⟩⟩ :=
      swapStep_ops amount swapTimes wallet ownerAddress w j st
    · rw [h₁, h₂, h₃, hops, hthrown]
      refine ⟨?_, ?_, rfl⟩
      · by_cases hw : wallet = i
        · simp [Op.stepOf, hw, List.range'_succ]
        · simp [Op.stepOf, hw]
      · simp [Op.isSwap]
        omega
    · rw [h₁, h₂, h₃, hops, hthrown]
      refine ⟨?_, ?_, rfl⟩
      · by_cases hw : wallet = i
        · simp [Op.stepOf, hw, List.range'_succ]
        · simp [Op.stepOf, hw]
      · simp [Op.isSwap]
        omega

/-- The steps of wallet `i` in the part of a run made by the outer loop
entered at wallet `i₀`: none if the wallet is not reached, else its approval
first, followed by no swap if the approval returned `null`, and by all its
swaps in order otherwise. -/
theorem walletLoop_steps (amount swapTimes : ℚ) (wallets : Nat → WalletAnswers) (total i : Nat) :
    ∀ (keys : List String) (i₀ : Nat) (st : RunState), ∃ steps : List WalletStep,
      (walletLoop amount swapTimes wallets total i₀ keys st).ops.filterMap (Op.stepOf i)
        = st.ops.filterMap (Op.stepOf i) ++ steps ∧
      (steps = [] ∨ steps = [WalletStep.approval true] ∨
        steps = WalletStep.approval false
          :: (List.range ⌈swapTimes⌉₊).map WalletStep.swap) ∧
      (i < i₀ ∨ i₀ + keys.length ≤ i → steps = []) ∧
      ((walletLoop amount swapTimes wallets total i₀ keys st).thrown = none →
        i₀ ≤ i → i < i₀ + keys.length → steps ≠ []) := by
  intro keys
  induction keys with
  | nil =>
    intro i₀ st
    refine ⟨[], by simp [walletLoop], Or.inl rfl, fun _ => rfl, ?_⟩
    intro _ h₁ h₂
    simp only [List.length_nil, add_zero] at h₂
    omega
  | cons key rest ih =>
    intro i₀ st
    rcases walletLoop_cons amount swapTimes wallets total i₀ key rest st with
      ⟨message, _, hloop⟩ | ⟨ownerAddress, r, st₁, _, _, hops₁, _, hcases⟩
    · rw [hloop]
      refine ⟨[], by simp, Or.inl rfl, fun _ => rfl, ?_⟩
      intro h
      simp at h
    · have hmain : ∃ (st₃ : RunState) (own : List WalletStep),
          walletLoop amount swapTimes wallets total i₀ (key :: rest) st
            = walletLoop amount swapTimes wallets total (i₀ + 1) rest st₃ ∧
          st₃.ops.filterMap (Op.stepOf i)
            = st.ops.filterMap (Op.stepOf i) ++ (if i₀ = i then own else []) ∧
          (own = [WalletStep.approval true] ∨
            own = WalletStep.approval false
              :: (List.range ⌈swapTimes⌉₊).map WalletStep.swap) := by
        have h₁ : st₁.ops.filterMap (Op.stepOf i) = st.ops.filterMap (Op.stepOf i)
            ++ (if i₀ = i then [WalletStep.approval r.returned.isNone] else []) := by
          rw [hops₁]
          by_cases hw : i₀ = i
          · simp [Op.stepOf, hw]
          · simp [Op.stepOf, hw]
        rcases hcases with ⟨hnone, hloop⟩ | ⟨hsome, st₃, hloop, _, hops₃⟩
        · refine ⟨st₁, [WalletStep.approval true], hloop, ?_, Or.inl rfl⟩
          rw [h₁, hnone]
          rfl
        · obtain ⟨s₁, _, _⟩ := swapLoop_steps amount swapTimes i₀ ownerAddress (wallets i₀) i
            ⌈swapTimes⌉₊ 0 st₁ (by omega)
          have hfalse : r.returned.isNone = false := by
            cases hr : r.returned with
            | none => exact absurd hr hsome
            | some _ => rfl
          refine ⟨st₃, WalletStep.approval false
            :: (List.range ⌈swapTimes⌉₊).map WalletStep.swap, hloop, ?_, Or.inr rfl⟩
          have h₃ : st₃.ops.filterMap (Op.stepOf i)
              = (swapLoop amount swapTimes i₀ ownerAddress (wallets i₀) 0 st₁).ops.filterMap
                (Op.stepOf i) := by
            rcases hops₃ with h | ⟨seconds, h⟩
            · rw [h]
            · rw [h]
              simp [Op.stepOf]
          rw [h₃, s₁, h₁, hfalse, List.range_eq_range']
          by_cases hw : i₀ = i
          · simp [hw]
          · simp [hw]
      obtain ⟨st₃, own, hloop, hops₃, hown⟩ := hmain
      obtain ⟨later, hl₁, hl₂, hl₃, hl₄⟩ := ih (i₀ + 1) st₃
      rw [hloop]
      by_cases hw : i₀ = i
      · have hlater : later = [] := hl₃ (Or.inl (by omega))
        refine ⟨own, ?_, Or.inr hown, ?_, ?_⟩
        · rw [hl₁, hops₃, if_pos hw, hlater, List.append_nil]
        · intro h
          simp only [List.length_cons] at h
          omega
        · intro _ _ _ hnil
          rcases hown with h | h <;> rw [h] at hnil <;> simp at hnil
      · refine ⟨later, ?_, hl₂, ?_, ?_⟩
        · rw [hl₁, hops₃, if_neg hw, List.append_nil]
        · intro h
          apply hl₃
          simp only [List.length_cons] at h
          omega
        · intro hthrown h₁ h₂
          apply hl₄ hthrown
          · omega
          · simp only [List.length_cons] at h₂
            omega

/-! ## A run over one wallet -/

/-- With answers on which everything passes, `swapToken` returns the hash of
the receipt of the first attempt. -/
theorem swapToken_allPass_returned (tokenIn tokenOut : String) (amountIn : ℚ)
    (recipient : String) (ans : SwapAnswers) (txStats : TxStats) (h : ans.allPass amountIn) :
    ∃ receipt, (ans.attempts 0).receipt = some receipt ∧
      (swapToken tokenIn tokenOut amountIn recipient ans txStats).returned
        = some receipt.transactionHash := by
  obtain ⟨address, decimals, amountInWei, amountOutMinimum, tokenInBalance, tokenOutBalance,
    gasPrice, chainId, hacc, hdec, hin, hout, hbin, hbout, hle, hprice, hdata, hchain,
    receipt, hreceipt, hstatus⟩ := h
  obtain ⟨data, hdata⟩ := hdata
    { tokenIn := tokenIn, tokenOut := tokenOut, fee := 500, recipient := recipient,
      amountIn := amountInWei, amountOutMinimum := amountOutMinimum, sqrtPriceLimitX96 := 0 }
  have hnot : ¬ tokenInBalance < amountInWei := not_lt.mpr hle
  have heq : swapToken tokenIn tokenOut amountIn recipient ans txStats
      = submitResult ans.startTime ans.attempts
          { from_ := address, to_ := swapRouterAddress, gas := 3000000, gasPrice := gasPrice,
            data := data, chainId := some chainId, nonce := none } txStats := by
    simp [swapToken, hacc, hdec, hin, hout, hbin, hbout, hnot, hprice, hdata, hchain]
  obtain ⟨r, hbody, hret, _, _⟩ :=
    loopBody_success ans.startTime
      { retryCount := 0
        txParams :=
          { from_ := address, to_ := swapRouterAddress, gas := 3000000, gasPrice := gasPrice,
            data := data, chainId := some chainId, nonce := none }
        txStats := { txStats with pending := txStats.pending + 1 }, trace := [] }
      hreceipt hstatus
  have hloop : submit ans.startTime ans.attempts
      { from_ := address, to_ := swapRouterAddress, gas := 3000000, gasPrice := gasPrice,
        data := data, chainId := some chainId, nonce := none } txStats = r := by
    unfold submit sendAndConfirmTransaction
    rw [sendLoop_eq, if_pos (by simp [maxRetries]), hbody]
  refine ⟨receipt, hreceipt, ?_⟩
  rw [heq]
  unfold submitResult
  simp only [hloop, hret, Option.map_some']

/-- When every swap of the wallet returns a truthy value, the inner loop
entered at `j` counts the swaps `j`, `j + 1`, … up to the least integer that is
at least `swapTimes`. -/
theorem swapLoop_successfulSwaps (amount swapTimes : ℚ) (wallet : Nat) (ownerAddress : String)
    (w : WalletAnswers)
    (hw : ∀ (j : Nat) (txStats : TxStats), j < ⌈swapTimes⌉₊ →
      truthy (swapToken tokenIn tokenOut amount ownerAddress (w.swaps j) txStats).returned
        = true) :
    ∀ (n j : Nat) (st : RunState), j + n = ⌈swapTimes⌉₊ →
      (swapLoop amount swapTimes wallet ownerAddress w j st).successfulSwaps
        = st.successfulSwaps + n := by
  intro n
  induction n with
  | zero =>
    intro j st hj
    have hnot : ¬ (j : ℚ) < swapTimes := by
      intro h
      have := Nat.lt_ceil.mpr h
      omega
    rw [swapLoop, dif_neg hnot]
    rfl
  | succ n ih =>
    intro j st hj
    have hlt : (j : ℚ) < swapTimes := Nat.lt_ceil.mp (by omega)
    rw [swapLoop, dif_pos hlt, ih (j + 1) _ (by omega)]
    have hstep : (swapStep amount swapTimes wallet ownerAddress w j st).successfulSwaps
        = st.successfulSwaps + 1 := by
      unfold swapStep
      split <;> simp [hw j st.txStats (by omega)]
    rw [hstep]
    omega

/-- The outer loop over a single wallet whose approval does not return `null`
is the inner loop of that wallet, entered after the approval is recorded. -/
theorem walletLoop_single (amount swapTimes : ℚ) (wallets : Nat → WalletAnswers) (total : Nat)
    (key : String) (st : RunState) (ownerAddress hash : String) (htotal : ¬ 0 + 1 < total)
    (hown : (wallets 0).privateKeyToAccount = Except.ok ownerAddress)
    (hret : (approveToken tokenIn swapRouterAddress ownerAddress (amount * swapTimes)
      (wallets 0).approve st.txStats).returned = some hash) :
    walletLoop amount swapTimes wallets total 0 [key] st
      = swapLoop amount swapTimes 0 ownerAddress (wallets 0) 0
          { st with
            txStats := (approveToken tokenIn swapRouterAddress ownerAddress (amount * swapTimes)
              (wallets 0).approve st.txStats).txStats
            history := st.history ++ (approveToken tokenIn swapRouterAddress ownerAddress
              (amount * swapTimes) (wallets 0).approve st.txStats).history
            ops := st.ops ++ [Op.approve 0 (amount * swapTimes)
              (approveToken tokenIn swapRouterAddress ownerAddress (amount * swapTimes)
                (wallets 0).approve st.txStats)] } := by
  simp only [walletLoop, hown, hret, if_neg htotal]

/-- A run that gets as far as the outer loop is the outer loop entered at the
first wallet with empty statistics. -/
theorem runSwapping_of_inputs (ans : RunAnswers) (keys : List String) (amount swapTimes : ℚ)
    (hkeys : ans.privateKeys = Except.ok keys) (hlen : ¬ keys.length = 0)
    (hamount : ans.amount = Except.ok amount) (hswap : ans.swapTimes = Except.ok swapTimes)
    (hconnect : ans.connectWeb3 = Except.ok ()) :
    (runSwapping ans).ops = (walletLoop amount swapTimes ans.wallets keys.length 0 keys
      { txStats := { success := 0, failed := 0, pending := 0, times := [] }
        successfulSwaps := 0, history := [], ops := [], thrown := none }).ops ∧
    (runSwapping ans).successfulSwaps = (walletLoop amount swapTimes ans.wallets keys.length 0
      keys
      { txStats := { success := 0, failed := 0, pending := 0, times := [] }
        successfulSwaps := 0, history := [], ops := [], thrown := none }).successfulSwaps := by
  constructor <;> simp only [runSwapping, hkeys, hlen, hamount, hswap, hconnect, if_false]

theorem ceil_three_halves : ⌈(3 / 2 : ℚ)⌉₊ = 2 := by
  rw [Nat.ceil_eq_iff (by norm_num)]
  norm_num

/-- The run over one wallet on which everything passes, with `1.5` entered as
the number of swaps: the approval, then the swaps 0 and 1, both counted as
successful. -/
theorem fractionalRun_outcome :
    (runSwapping fractionalRun).ops.filterMap (Op.stepOf 0)
      = [WalletStep.approval false, WalletStep.swap 0, WalletStep.swap 1] ∧
    (runSwapping fractionalRun).ops.countP Op.isSwap = 2 ∧
    (runSwapping fractionalRun).successfulSwaps = 2 := by
  obtain ⟨hops, hsucc⟩ := runSwapping_of_inputs fractionalRun
    ["0x1111111111111111111111111111111111111111111111111111111111111111"] 100 (3 / 2)
    rfl (by simp) rfl rfl rfl
  have h150 : (100 : ℚ) * (3 / 2) = 150 := by norm_num
  have hpass : (fractionalRun.wallets 0).approve.allPass swapRouterAddress (100 * (3 / 2)) := by
    rw [h150]
    exact (approveConverted_allPass _ 150 _ computeAmountInWei_hundred_fifty (by norm_num)).1
  obtain ⟨hret, _⟩ := approveToken_allPass tokenIn swapRouterAddress
    "0x52908400098527886E0F7030069857D2E4169EE7" (100 * (3 / 2))
    (fractionalRun.wallets 0).approve { success := 0, failed := 0, pending := 0, times := [] }
    hpass
  obtain ⟨hash, hhash⟩ := Option.ne_none_iff_exists'.mp hret
  have hloop := walletLoop_single 100 (3 / 2) fractionalRun.wallets
    ["0x1111111111111111111111111111111111111111111111111111111111111111"].length
    "0x1111111111111111111111111111111111111111111111111111111111111111"
    { txStats := { success := 0, failed := 0, pending := 0, times := [] }
      successfulSwaps := 0, history := [], ops := [], thrown := none }
    "0x52908400098527886E0F7030069857D2E4169EE7" hash (by decide) rfl hhash
  have htruthy : ∀ (j : Nat) (txStats : TxStats), j < ⌈(3 / 2 : ℚ)⌉₊ →
      truthy (swapToken tokenIn tokenOut 100 "0x52908400098527886E0F7030069857D2E4169EE7"
        ((fractionalRun.wallets 0).swaps j) txStats).returned = true := by
    intro j txStats hj
    rw [ceil_three_halves] at hj
    obtain ⟨receipt, hreceipt, hret⟩ := swapToken_allPass_returned tokenIn tokenOut 100
      "0x52908400098527886E0F7030069857D2E4169EE7" ((fractionalRun.wallets 0).swaps j) txStats
      (swapConverted_allPass j (by omega))
    have hrec : receipt = { status := true, transactionHash := "0x5c504ed4" } := by
      have : (((fractionalRun.wallets 0).swaps j).attempts 0).receipt
          = some { status := true, transactionHash := "0x5c504ed4" } := rfl
      rw [this] at hreceipt
      exact (Option.some.inj hreceipt).symm
    rw [hret, hrec]
    decide
  obtain ⟨s₁, s₂, _⟩ := swapLoop_steps 100 (3 / 2) 0
    "0x52908400098527886E0F7030069857D2E4169EE7" (fractionalRun.wallets 0) 0 2 0
    { txStats := (approveToken tokenIn swapRouterAddress
        "0x52908400098527886E0F7030069857D2E4169EE7" (100 * (3 / 2))
        (fractionalRun.wallets 0).approve
        { success := 0, failed := 0, pending := 0, times := [] }).txStats
      successfulSwaps := 0
      history := [] ++ (approveToken tokenIn swapRouterAddress
        "0x52908400098527886E0F7030069857D2E4169EE7" (100 * (3 / 2))
        (fractionalRun.wallets 0).approve
        { success := 0, failed := 0, pending := 0, times := [] }).history
      ops := [] ++ [Op.approve 0 (100 * (3 / 2))
        (approveToken tokenIn swapRouterAddress "0x52908400098527886E0F7030069857D2E4169EE7"
          (100 * (3 / 2)) (fractionalRun.wallets 0).approve
          { success := 0, failed := 0, pending := 0, times := [] })]
      thrown := none } (by rw [ceil_three_halves])
  have s₃ := swapLoop_successfulSwaps 100 (3 / 2) 0 "0x52908400098527886E0F7030069857D2E4169EE7"
    (fractionalRun.wallets 0) htruthy 2 0
    { txStats := (approveToken tokenIn swapRouterAddress
        "0x52908400098527886E0F7030069857D2E4169EE7" (100 * (3 / 2))
        (fractionalRun.wallets 0).approve
        { success := 0, failed := 0, pending := 0, times := [] }).txStats
      successfulSwaps := 0
      history := [] ++ (approveToken tokenIn swapRouterAddress
        "0x52908400098527886E0F7030069857D2E4169EE7" (100 * (3 / 2))
        (fractionalRun.wallets 0).approve
        { success := 0, failed := 0, pending := 0, times := [] }).history
      ops := [] ++ [Op.approve 0 (100 * (3 / 2))
        (approveToken tokenIn swapRouterAddress "0x52908400098527886E0F7030069857D2E4169EE7"
          (100 * (3 / 2)) (fractionalRun.wallets 0).approve
          { success := 0, failed := 0, pending := 0, times := [] })]
      thrown := none } (by rw [ceil_three_halves])
  rw [hloop] at hops hsucc
  refine ⟨?_, ?_, ?_⟩
  · rw [hops, s₁]
    simp [Op.stepOf, hhash, List.range']
  · rw [hops, s₂]
    simp [Op.isSwap]
  · rw [hsucc, s₃]

/-! ## C23 -/

/-- C23 as stated fails for a number of swaps that is not an integer. With
one wallet, an approval that goes through and `1.5` entered as the number of
swaps, the loop `swapIter < swapTimes` makes the swaps 0 and 1: two attempts,
not `swapTimes`. -/
theorem one_and_a_half_swaps_are_two_attempts :
    fractionalRun.swapTimes = Except.ok (3 / 2) ∧
    (runSwapping fractionalRun).ops.filterMap (Op.stepOf 0)
      = [WalletStep.approval false, WalletStep.swap 0, WalletStep.swap 1] ∧
    (runSwapping fractionalRun).ops.countP Op.isSwap = 2 ∧
    (((runSwapping fractionalRun).ops.countP Op.isSwap : Nat) : ℚ) ≠ 3 / 2 := by
  obtain ⟨hsteps, hcount, _⟩ := fractionalRun_outcome
  refine ⟨rfl, hsteps, hcount, ?_⟩
  rw [hcount]
  norm_num

/-- C23, amended. In every run of `runSwapping` and for every wallet `i`, the
steps of the wallet are: none, if the run ends before it reaches the wallet;
or its approval alone, if `approveToken` returned `null`; or its approval followed by
the swaps `0`, `1`, …, one after another in this order, as many as the least
integer that is at least `swapTimes`, which is `swapTimes` itself for a count.
The approval comes first in each case, and each call has returned before the
next step is made. When the run ends without an error, every wallet has been
reached. -/
theorem approval_precedes_swaps (ans : RunAnswers) (i : Nat) :
    (∀ swapTimes, ans.swapTimes = Except.ok swapTimes →
      ((runSwapping ans).ops.filterMap (Op.stepOf i) = [] ∨
        (runSwapping ans).ops.filterMap (Op.stepOf i) = [WalletStep.approval true] ∨
        (runSwapping ans).ops.filterMap (Op.stepOf i)
          = WalletStep.approval false :: (List.range ⌈swapTimes⌉₊).map WalletStep.swap)) ∧
    (∀ k : Nat, ans.swapTimes = Except.ok (k : ℚ) →
      ((runSwapping ans).ops.filterMap (Op.stepOf i) = [] ∨
        (runSwapping ans).ops.filterMap (Op.stepOf i) = [WalletStep.approval true] ∨
        (runSwapping ans).ops.filterMap (Op.stepOf i)
          = WalletStep.approval false :: (List.range k).map WalletStep.swap)) ∧
    (∀ keys, ans.privateKeys = Except.ok keys → i < keys.length →
      (runSwapping ans).caught = none →
      (runSwapping ans).ops.filterMap (Op.stepOf i) ≠ []) := by
  have key : ∀ swapTimes, ans.swapTimes = Except.ok swapTimes →
      ((runSwapping ans).ops.filterMap (Op.stepOf i) = [] ∨
        (runSwapping ans).ops.filterMap (Op.stepOf i) = [WalletStep.approval true] ∨
        (runSwapping ans).ops.filterMap (Op.stepOf i)
          = WalletStep.approval false :: (List.range ⌈swapTimes⌉₊).map WalletStep.swap) := by
    intro swapTimes hswap
    rcases runSwapping_cases ans with ⟨_, _, _, hops, _⟩ | ⟨keys, amount, swapTimes', _, _, hswap',
      _, _, _, hops, _⟩
    · left
      rw [hops]
      rfl
    · rw [hswap] at hswap'
      cases hswap'
      obtain ⟨steps, h₁, h₂, _, _⟩ := walletLoop_steps amount swapTimes ans.wallets keys.length i
        keys 0 { txStats := { success := 0, failed := 0, pending := 0, times := [] }
                 successfulSwaps := 0, history := [], ops := [], thrown := none }
      rw [hops, h₁]
      simpa using h₂
  refine ⟨key, ?_, ?_⟩
  · intro k hk
    have := key k hk
    rwa [Nat.ceil_natCast] at this
  · intro keys hkeys hi hcaught
    rcases runSwapping_cases ans with ⟨_, _, _, _, hearly⟩ | ⟨keys', amount, swapTimes, hkeys', _,
      _, _, _, _, hops, hthrown⟩
    · obtain ⟨keys', hkeys', hlen⟩ := hearly hcaught
      rw [hkeys] at hkeys'
      cases hkeys'
      omega
    · rw [hkeys] at hkeys'
      cases hkeys'
      obtain ⟨steps, h₁, _, _, h₄⟩ := walletLoop_steps amount swapTimes ans.wallets keys.length
        i keys 0 { txStats := { success := 0, failed := 0, pending := 0, times := [] }
                   successfulSwaps := 0, history := [], ops := [], thrown := none }
      rw [hops, h₁]
      have := h₄ (by rw [← hthrown]; exact hcaught) (Nat.zero_le _) (by omega)
      simpa using this

/-! ## Successes and elapsed times -/

theorem keepsTimes_caught (txStats : TxStats) : KeepsTimes txStats (caughtResult txStats) :=
  ⟨fun h => ⟨h, fun _ hh => by simp [caughtResult] at hh⟩, le_refl _⟩

theorem keepsTimes_failed (txStats : TxStats) : KeepsTimes txStats (failedResult txStats) := by
  refine ⟨fun h => ⟨h, fun x hx => ?_⟩, le_refl _⟩
  simp only [failedResult, List.mem_singleton] at hx
  rw [hx]
  exact h

theorem keepsTimes_submit (startTime : Int) (attempts : Nat → Attempt) (txParams : TxParams)
    (txStats : TxStats) :
    KeepsTimes txStats (submitResult startTime attempts txParams txStats) ∧
    ((submitResult startTime attempts txParams txStats).returned ≠ none →
      (submitResult startTime attempts txParams txStats).txStats.success
        = txStats.success + 1) := by
  have hhist : (submitResult startTime attempts txParams txStats).history
      = [{ txStats with pending := txStats.pending + 1 },
          (submitResult startTime attempts txParams txStats).txStats] := rfl
  rcases submitResult_stats startTime attempts txParams txStats with
    ⟨hret, hst⟩ | ⟨receipt, elapsed, _, hret, hst⟩
  · refine ⟨⟨fun h => ?_, by rw [hst]⟩, fun hne => absurd hret hne⟩
    have hfinal : (submitResult startTime attempts txParams txStats).txStats.timesMatch := by
      rw [hst]
      exact h
    refine ⟨hfinal, fun x hx => ?_⟩
    rw [hhist] at hx
    simp only [List.mem_cons, List.mem_singleton, List.not_mem_nil, or_false] at hx
    rcases hx with rfl | rfl
    · exact h
    · exact hfinal
  · refine ⟨⟨fun h => ?_, by rw [hst]; show txStats.success ≤ txStats.success + 1; omega⟩,
      fun _ => by rw [hst]⟩
    have hfinal : (submitResult startTime attempts txParams txStats).txStats.timesMatch := by
      rw [hst]
      unfold TxStats.timesMatch at h ⊢
      simp only [List.length_append, List.length_singleton, Nat.cast_add, Nat.cast_one]
      omega
    refine ⟨hfinal, fun x hx => ?_⟩
    rw [hhist] at hx
    simp only [List.mem_cons, List.mem_singleton, List.not_mem_nil, or_false] at hx
    rcases hx with rfl | rfl
    · exact h
    · exact hfinal

theorem approveToken_keepsTimes (tokenAddress spenderAddress ownerAddress : String)
    (amountToApprove : ℚ) (ans : ApproveAnswers) (txStats : TxStats) :
    KeepsTimes txStats
      (approveToken tokenAddress spenderAddress ownerAddress amountToApprove ans txStats) := by
  unfold approveToken
  repeat' split
  all_goals first
    | exact keepsTimes_caught txStats
    | exact keepsTimes_failed txStats
    | exact (keepsTimes_submit _ _ _ txStats).1

/-- A call of `swapToken` that returns a hash has counted one success. -/
theorem swapToken_keepsTimes (tokenIn tokenOut : String) (amountIn : ℚ) (recipient : String)
    (ans : SwapAnswers) (txStats : TxStats) :
    KeepsTimes txStats (swapToken tokenIn tokenOut amountIn recipient ans txStats) ∧
    ((swapToken tokenIn tokenOut amountIn recipient ans txStats).returned ≠ none →
      (swapToken tokenIn tokenOut amountIn recipient ans txStats).txStats.success
        = txStats.success + 1) := by
  unfold swapToken
  repeat' split
  all_goals first
    | exact ⟨keepsTimes_caught txStats, fun h => absurd rfl h⟩
    | exact ⟨keepsTimes_failed txStats, fun h => absurd rfl h⟩
    | exact keepsTimes_submit _ _ _ txStats

theorem truthy_ne_none (returned : Option String) (h : truthy returned = true) :
    returned ≠ none := by
  intro hnone
  rw [hnone] at h
  exact Bool.noConfusion h

theorem timesInv_approve (amount swapTimes : ℚ) (wallets : Nat → WalletAnswers) (i : Nat)
    (ownerAddress : String) (st : RunState) (hinv : TimesInv st) :
    TimesInv
      { st with
        txStats := (approveToken tokenIn swapRouterAddress ownerAddress (amount * swapTimes)
          (wallets i).approve st.txStats).txStats
        history := st.history ++ (approveToken tokenIn swapRouterAddress ownerAddress
          (amount * swapTimes) (wallets i).approve st.txStats).history
        ops := st.ops ++ [Op.approve i (amount * swapTimes)
          (approveToken tokenIn swapRouterAddress ownerAddress (amount * swapTimes)
            (wallets i).approve st.txStats)] } := by
  obtain ⟨h₁, h₂, h₃, h₄⟩ := hinv
  obtain ⟨hk, hle⟩ := approveToken_keepsTimes tokenIn swapRouterAddress ownerAddress
    (amount * swapTimes) (wallets i).approve st.txStats
  obtain ⟨hk₁, hk₂⟩ := hk h₁
  refine ⟨hk₁, ?_, ?_, ?_⟩
  · intro h hh
    simp only [List.mem_append] at hh
    rcases hh with hh | hh
    · exact h₂ h hh
    · exact hk₂ h hh
  · exact le_trans h₃ hle
  · show st.successfulSwaps ≤ List.countP Op.isSwap (st.ops ++ [Op.approve _ _ _])
    simp only [List.countP_append, List.countP_cons, List.countP_nil, Op.isSwap]
    simpa using h₄

theorem timesInv_swapStep (amount swapTimes : ℚ) (wallet : Nat) (ownerAddress : String)
    (w : WalletAnswers) (swapIter : Nat) (st : RunState) (hinv : TimesInv st) :
    TimesInv (swapStep amount swapTimes wallet ownerAddress w swapIter st) := by
  obtain ⟨h₁, h₂, h₃, h₄⟩ := hinv
  obtain ⟨⟨hk, hle⟩, hsucc⟩ := swapToken_keepsTimes tokenIn tokenOut amount ownerAddress
    (w.swaps swapIter) st.txStats
  obtain ⟨hk₁, hk₂⟩ := hk h₁
  have hcount : (if truthy (swapToken tokenIn tokenOut amount ownerAddress (w.swaps swapIter)
        st.txStats).returned = true then st.successfulSwaps + 1 else st.successfulSwaps : Nat)
      ≤ st.successfulSwaps + 1 := by
    split <;> omega
  have hsuccess : ((if truthy (swapToken tokenIn tokenOut amount ownerAddress (w.swaps swapIter)
        st.txStats).returned = true then st.successfulSwaps + 1 else st.successfulSwaps : Nat)
        : Int)
      ≤ (swapToken tokenIn tokenOut amount ownerAddress (w.swaps swapIter)
        st.txStats).txStats.success := by
    split
    · rename_i ht
      rw [hsucc (truthy_ne_none _ ht)]
      push_cast
      omega
    · omega
  have hhist : ∀ h ∈ st.history ++ (swapToken tokenIn tokenOut amount ownerAddress
      (w.swaps swapIter) st.txStats).history, h.timesMatch := by
    intro h hh
    simp only [List.mem_append] at hh
    rcases hh with hh | hh
    · exact h₂ h hh
    · exact hk₂ h hh
  unfold swapStep
  split
  · refine ⟨hk₁, hhist, hsuccess, ?_⟩
    show _ ≤ List.countP Op.isSwap (st.ops ++ [Op.swap wallet swapIter _] ++ [Op.pause _ _])
    simp only [List.countP_append, List.countP_cons, List.countP_nil, Op.isSwap]
    simp only [if_true, Bool.false_eq_true, if_false]
    omega
  · refine ⟨hk₁, hhist, hsuccess, ?_⟩
    show _ ≤ List.countP Op.isSwap (st.ops ++ [Op.swap wallet swapIter _])
    simp only [List.countP_append, List.countP_cons, List.countP_nil, Op.isSwap]
    simp only [if_true]
    omega

/-- The outer loop makes at most one inner loop of swaps per key. -/
theorem walletLoop_swap_count (amount swapTimes : ℚ) (wallets : Nat → WalletAnswers)
    (total : Nat) :
    ∀ (keys : List String) (i : Nat) (st : RunState),
      (walletLoop amount swapTimes wallets total i keys st).ops.countP Op.isSwap
        ≤ st.ops.countP Op.isSwap + keys.length * ⌈swapTimes⌉₊ := by
  intro keys
  induction keys with
  | nil =>
    intro i st
    simp [walletLoop]
  | cons key rest ih =>
    intro i st
    have hlen : (key :: rest).length * ⌈swapTimes⌉₊
        = rest.length * ⌈swapTimes⌉₊ + ⌈swapTimes⌉₊ := by
      rw [List.length_cons, Nat.succ_mul]
    rcases walletLoop_cons amount swapTimes wallets total i key rest st with
      ⟨message, _, hloop⟩ | ⟨ownerAddress, r, st₁, _, _, hops₁, _, hcases⟩
    · rw [hloop]
      show st.ops.countP Op.isSwap ≤ _
      omega
    · have h₁ : st₁.ops.countP Op.isSwap = st.ops.countP Op.isSwap := by
        rw [hops₁]
        simp [Op.isSwap]
      rcases hcases with ⟨_, hloop⟩ | ⟨_, st₃, hloop, _, hops₃⟩
      · rw [hloop]
        have := ih (i + 1) st₁
        omega
      · obtain ⟨_, hcount, _⟩ := swapLoop_steps amount swapTimes i ownerAddress (wallets i) i
          ⌈swapTimes⌉₊ 0 st₁ (by omega)
        have h₃ : st₃.ops.countP Op.isSwap
            = st.ops.countP Op.isSwap + ⌈swapTimes⌉₊ := by
          rcases hops₃ with h | ⟨seconds, h⟩
          · rw [h, hcount, h₁]
          · rw [h, List.countP_append, hcount, h₁]
            simp [Op.isSwap]
        rw [hloop]
        have := ih (i + 1) st₃
        omega

/-! ## C29 -/

/-- C29 as stated fails for a number of swaps that is not an integer. With
one wallet on which everything passes and `1.5` entered as the number of
swaps, both swaps made succeed: `successfulSwaps` is 2, above
`privateKeys.length * swapTimes = 1.5`. -/
theorem one_and_a_half_swaps_count_two_successes :
    fractionalRun.privateKeys = Except.ok
      ["0x1111111111111111111111111111111111111111111111111111111111111111"] ∧
    fractionalRun.swapTimes = Except.ok (3 / 2) ∧
    (runSwapping fractionalRun).successfulSwaps = 2 ∧
    ¬ (((runSwapping fractionalRun).successfulSwaps : Nat) : ℚ)
      ≤ ((["0x1111111111111111111111111111111111111111111111111111111111111111"].length
          : Nat) : ℚ) * (3 / 2) := by
  obtain ⟨_, _, hcount⟩ := fractionalRun_outcome
  refine ⟨rfl, rfl, hcount, ?_⟩
  rw [hcount]
  norm_num

/-- C29, amended. The invariant `TimesInv` (one elapsed time per success, at
the current and at every earlier value of `txStats`; no more successful swaps
counted than successes, nor than calls of `swapToken` made) holds when the
loop of `runSwapping` starts and is kept by the record of an approval and by
every swap step. So in every run the length of `txStats.times` equals
`txStats.success` throughout, `successfulSwaps` is at most `txStats.success`,
and it is at most the number of keys times the least integer that is at least
`swapTimes`, which is `privateKeys.length * swapTimes` for a count. -/
theorem times_and_swaps_are_consistent (ans : RunAnswers) :
    TimesInv { txStats := { success := 0, failed := 0, pending := 0, times := [] }
               successfulSwaps := 0, history := [], ops := [], thrown := none } ∧
    (∀ amount swapTimes i ownerAddress st, TimesInv st →
      TimesInv
        { st with
          txStats := (approveToken tokenIn swapRouterAddress ownerAddress (amount * swapTimes)
            (ans.wallets i).approve st.txStats).txStats
          history := st.history ++ (approveToken tokenIn swapRouterAddress ownerAddress
            (amount * swapTimes) (ans.wallets i).approve st.txStats).history
          ops := st.ops ++ [Op.approve i (amount * swapTimes)
            (approveToken tokenIn swapRouterAddress ownerAddress (amount * swapTimes)
              (ans.wallets i).approve st.txStats)] }) ∧
    (∀ amount swapTimes i ownerAddress j st, TimesInv st →
      TimesInv (swapStep amount swapTimes i ownerAddress (ans.wallets i) j st)) ∧
    (∀ h ∈ (runSwapping ans).history, (h.times.length : Int) = h.success) ∧
    (∀ txStats, (runSwapping ans).txStats = some txStats →
      (txStats.times.length : Int) = txStats.success ∧
      ((runSwapping ans).successfulSwaps : Int) ≤ txStats.success) ∧
    ((runSwapping ans).txStats = none → (runSwapping ans).successfulSwaps = 0) ∧
    (∀ keys swapTimes, ans.privateKeys = Except.ok keys →
      ans.swapTimes = Except.ok swapTimes →
      (runSwapping ans).successfulSwaps ≤ keys.length * ⌈swapTimes⌉₊) ∧
    (∀ keys (k : Nat), ans.privateKeys = Except.ok keys →
      ans.swapTimes = Except.ok (k : ℚ) →
      (runSwapping ans).successfulSwaps ≤ keys.length * k) := by
  have hinit : TimesInv
      { txStats := { success := 0, failed := 0, pending := 0, times := [] },
        successfulSwaps := 0, history := [], ops := [], thrown := none } := by
    refine ⟨rfl, ?_, le_refl _, Nat.zero_le _⟩
    intro h hh
    simp at hh
  have hloop : ∀ (amount swapTimes : ℚ) (keys : List String),
      TimesInv (walletLoop amount swapTimes ans.wallets keys.length 0 keys
        { txStats := { success := 0, failed := 0, pending := 0, times := [] }
          successfulSwaps := 0, history := [], ops := [], thrown := none }) := by
    intro amount swapTimes keys
    refine walletLoop_induction TimesInv amount swapTimes ans.wallets keys.length ?_ ?_ ?_ ?_
      keys 0 _ hinit
    · intro st message hst
      exact hst
    · intro i ownerAddress st hst
      exact timesInv_approve amount swapTimes ans.wallets i ownerAddress st hst
    · intro i ownerAddress j st hst
      exact timesInv_swapStep amount swapTimes i ownerAddress (ans.wallets i) j st hst
    · intro i st hst
      obtain ⟨h₁, h₂, h₃, h₄⟩ := hst
      refine ⟨h₁, h₂, h₃, ?_⟩
      show st.successfulSwaps ≤ List.countP Op.isSwap (st.ops ++ [Op.pause _ _])
      simp only [List.countP_append, List.countP_cons, List.countP_nil, Op.isSwap]
      simpa using h₄
  have hbound : ∀ keys swapTimes, ans.privateKeys = Except.ok keys →
      ans.swapTimes = Except.ok swapTimes →
      (runSwapping ans).successfulSwaps ≤ keys.length * ⌈swapTimes⌉₊ := by
    intro keys swapTimes hkeys hswap
    rcases runSwapping_cases ans with ⟨_, hzero, _⟩ | ⟨keys', amount, swapTimes', hkeys', _,
      hswap', _, hsucc, _, _, _⟩
    · rw [hzero]
      exact Nat.zero_le _
    · rw [hkeys] at hkeys'
      rw [hswap] at hswap'
      cases hkeys'
      cases hswap'
      rw [hsucc]
      have h₄ := (hloop amount swapTimes keys).2.2.2
      have hcount := walletLoop_swap_count amount swapTimes ans.wallets keys.length keys 0
        { txStats := { success := 0, failed := 0, pending := 0, times := [] }
          successfulSwaps := 0, history := [], ops := [], thrown := none }
      simp only [List.countP_nil, zero_add] at hcount
      exact le_trans h₄ hcount
  refine ⟨hinit, ?_, ?_, ?_, ?_, ?_, hbound, ?_⟩
  · intro amount swapTimes i ownerAddress st hst
    exact timesInv_approve amount swapTimes ans.wallets i ownerAddress st hst
  · intro amount swapTimes i ownerAddress j st hst
    exact timesInv_swapStep amount swapTimes i ownerAddress (ans.wallets i) j st hst
  · rcases runSwapping_cases ans with ⟨_, _, hhist, _⟩ | ⟨keys, amount, swapTimes, _, _, _, _,
      _, hhist, _, _⟩
    · rw [hhist]
      intro h hh
      simp at hh
    · rw [hhist]
      exact (hloop amount swapTimes keys).2.1
  · intro txStats htx
    rcases runSwapping_cases ans with ⟨hnone, _⟩ | ⟨keys, amount, swapTimes, _, _, _, hstats,
      hsucc, _, _, _⟩
    · rw [hnone] at htx
      exact Option.noConfusion htx
    · rw [hstats] at htx
      simp only [Option.some.injEq] at htx
      rw [hsucc, ← htx]
      exact ⟨(hloop amount swapTimes keys).1, (hloop amount swapTimes keys).2.2.1⟩
  · intro hnone
    rcases runSwapping_cases ans with ⟨_, hzero, _⟩ | ⟨keys, amount, swapTimes, _, _, _, hstats,
      _⟩
    · exact hzero
    · rw [hstats] at hnone
      exact Option.noConfusion hnone
  · intro keys k hkeys hswap
    have := hbound keys k hkeys hswap
    rwa [Nat.ceil_natCast] at this

/-! ## The supply counter of `NFTCollection` -/

theorem Mapping.get_set (m : Mapping) (key value key' : Nat) :
    (m.set key value).get key' = if key' = key then value else m.get key' := rfl

theorem lookupEntry_ne_zero (entries : List (Nat × Nat)) (key : Nat)
    (h : lookupEntry entries key ≠ 0) : key ∈ entries.map Prod.fst := by
  induction entries with
  | nil => exact absurd rfl h
  | cons e rest ih =>
    obtain ⟨k, v⟩ := e
    simp only [lookupEntry] at h
    simp only [List.map_cons, List.mem_cons]
    by_cases hk : key = k
    · exact Or.inl hk
    · rw [if_neg hk] at h
      exact Or.inr (ih h)

/-- The support of a mapping is the set of the keys that hold a value other
than 0. -/
theorem Mapping.mem_support (m : Mapping) (key : Nat) :
    key ∈ m.support ↔ m.get key ≠ 0 := by
  unfold Mapping.support
  rw [Finset.mem_filter, List.mem_toFinset]
  exact ⟨fun h => h.2, fun h => ⟨lookupEntry_ne_zero m.entries key h, h⟩⟩

theorem Mapping.support_set_new (m : Mapping) (key value : Nat) (hold : m.get key = 0)
    (hnew : value ≠ 0) :
    (m.set key value).support.card = m.support.card + 1 := by
  have hnot : key ∉ m.support := by
    rw [Mapping.mem_support]
    exact fun h => h hold
  have heq : (m.set key value).support = insert key m.support := by
    ext k
    rw [Mapping.mem_support, Finset.mem_insert, Mapping.mem_support, Mapping.get_set]
    by_cases hk : k = key
    · simp [hk, hnew]
    · simp [hk]
  rw [heq, Finset.card_insert_of_not_mem hnot]

theorem Mapping.support_set_zero (m : Mapping) (key : Nat) (hold : m.get key ≠ 0) :
    (m.set key 0).support.card + 1 = m.support.card := by
  have hmem : key ∈ m.support := (Mapping.mem_support m key).mpr hold
  have heq : (m.set key 0).support = m.support.erase key := by
    ext k
    rw [Mapping.mem_support, Finset.mem_erase, Mapping.mem_support, Mapping.get_set]
    by_cases hk : k = key
    · simp [hk]
    · simp [hk]
  rw [heq, Finset.card_erase_of_mem hmem]
  have : 0 < m.support.card := Finset.card_pos.mpr ⟨key, hmem⟩
  omega

/-- A call of `mint` that does not revert: the token had no owner, the
recipient is not the zero address, the supply was below the maximum, and the
storage is updated. -/
theorem NFTCollection.mint_ok (sender to_ tokenId : Nat) (c c' : NFTCollection.Storage)
    (h : NFTCollection.mint sender to_ tokenId c = Except.ok c') :
    c.owners.get tokenId = 0 ∧ to_ ≠ 0 ∧ c.totalSupply < c.maxSupply ∧
    c' = { c with
           owners := c.owners.set tokenId to_
           balances := c.balances.set to_ (c.balances.get to_ + 1)
           totalSupply := c.totalSupply + 1 } := by
  unfold NFTCollection.mint at h
  by_cases h₁ : sender ≠ c.owner
  · rw [if_pos h₁] at h
    cases h
  rw [if_neg h₁] at h
  by_cases h₂ : to_ = 0
  · rw [if_pos h₂] at h
    cases h
  rw [if_neg h₂] at h
  by_cases h₃ : c.owners.get tokenId ≠ 0
  · rw [if_pos h₃] at h
    cases h
  rw [if_neg h₃] at h
  by_cases h₄ : ¬ c.totalSupply < c.maxSupply
  · rw [if_pos h₄] at h
    cases h
  rw [if_neg h₄] at h
  by_cases h₅ : c.balances.get to_ = uint256Max
  · rw [if_pos h₅] at h
    cases h
  rw [if_neg h₅] at h
  by_cases h₆ : c.totalSupply = uint256Max
  · rw [if_pos h₆] at h
    cases h
  rw [if_neg h₆] at h
  cases h
  exact ⟨not_not.mp h₃, h₂, not_not.mp h₄, rfl⟩

/-- A call of `burn` that does not revert: the token had an owner, and the
storage is updated. -/
theorem NFTCollection.burn_ok (sender tokenId : Nat) (c c' : NFTCollection.Storage)
    (h : NFTCollection.burn sender tokenId c = Except.ok c') :
    c.owners.get tokenId ≠ 0 ∧ c.totalSupply ≠ 0 ∧
    c' = { c with
           owners := c.owners.set tokenId 0
           balances := c.balances.set (c.owners.get tokenId)
             (c.balances.get (c.owners.get tokenId) - 1)
           totalSupply := c.totalSupply - 1 } := by
  unfold NFTCollection.burn at h
  by_cases h₁ : c.owners.get tokenId = 0
  · rw [if_pos h₁] at h
    cases h
  rw [if_neg h₁] at h
  simp only at h
  by_cases h₂ : ¬ (sender = c.owners.get tokenId ∨ sender = c.owner)
  · rw [if_pos h₂] at h
    cases h
  rw [if_neg h₂] at h
  by_cases h₃ : c.balances.get (c.owners.get tokenId) = 0
  · rw [if_pos h₃] at h
    cases h
  rw [if_neg h₃] at h
  by_cases h₄ : c.totalSupply = 0
  · rw [if_pos h₄] at h
    cases h
  rw [if_neg h₄] at h
  cases h
  exact ⟨h₁, h₄, rfl⟩

/-- The invariant of the contract: `totalSupply` is 99 more than the number of
existing tokens, and that number is at most `maxSupply - 99`. -/
theorem NFTCollection.call_invariant (c : NFTCollection.Storage) (call : NFTCollection.Call)
    (hsupply : c.totalSupply = 99 + (NFTCollection.existing c).card)
    (hmax : (NFTCollection.existing c).card ≤ c.maxSupply - 99) :
    (NFTCollection.call c call).totalSupply
      = 99 + (NFTCollection.existing (NFTCollection.call c call)).card ∧
    (NFTCollection.existing (NFTCollection.call c call)).card
      ≤ (NFTCollection.call c call).maxSupply - 99 ∧
    (NFTCollection.call c call).maxSupply = c.maxSupply := by
  cases call with
  | mint sender to_ tokenId =>
    unfold NFTCollection.call
    simp only
    cases hres : NFTCollection.mint sender to_ tokenId c with
    | error reason => exact ⟨hsupply, hmax, rfl⟩
    | ok c' =>
      obtain ⟨hold, hto, hlt, hc'⟩ := NFTCollection.mint_ok sender to_ tokenId c c' hres
      have hcard := Mapping.support_set_new c.owners tokenId to_ hold hto
      unfold NFTCollection.existing at hsupply hmax
      subst hc'
      refine ⟨?_, ?_, rfl⟩
      · show c.totalSupply + 1 = 99 + (c.owners.set tokenId to_).support.card
        omega
      · show (c.owners.set tokenId to_).support.card ≤ c.maxSupply - 99
        omega
  | burn sender tokenId =>
    unfold NFTCollection.call
    simp only
    cases hres : NFTCollection.burn sender tokenId c with
    | error reason => exact ⟨hsupply, hmax, rfl⟩
    | ok c' =>
      obtain ⟨hold, _, hc'⟩ := NFTCollection.burn_ok sender tokenId c c' hres
      have hcard := Mapping.support_set_zero c.owners tokenId hold
      unfold NFTCollection.existing at hsupply hmax
      subst hc'
      refine ⟨?_, ?_, rfl⟩
      · show c.totalSupply - 1 = 99 + (c.owners.set tokenId 0).support.card
        omega
      · show (c.owners.set tokenId 0).support.card ≤ c.maxSupply - 99
        omega

theorem NFTCollection.run_invariant (calls : List NFTCollection.Call) :
    ∀ c : NFTCollection.Storage,
      c.totalSupply = 99 + (NFTCollection.existing c).card →
      (NFTCollection.existing c).card ≤ c.maxSupply - 99 →
      (NFTCollection.run c calls).totalSupply
        = 99 + (NFTCollection.existing (NFTCollection.run c calls)).card ∧
      (NFTCollection.existing (NFTCollection.run c calls)).card
        ≤ (NFTCollection.run c calls).maxSupply - 99 ∧
      (NFTCollection.run c calls).maxSupply = c.maxSupply := by
  induction calls with
  | nil =>
    intro c h₁ h₂
    exact ⟨h₁, h₂, rfl⟩
  | cons call rest ih =>
    intro c h₁ h₂
    obtain ⟨g₁, g₂, g₃⟩ := NFTCollection.call_invariant c call h₁ h₂
    obtain ⟨k₁, k₂, k₃⟩ := ih (NFTCollection.call c call) g₁ g₂
    exact ⟨k₁, k₂, k₃.trans g₃⟩

/-! ## C30 -/

/-- C30. After the deployment of `NFTCollection` by any sender with any
`maxSupply`, and any sequence of calls of `mint` and `burn` by any senders,
reverted calls included, `totalSupply` equals 99 plus the number of token ids
that have an owner; that number is at most `maxSupply - 99`, which is 0 when
`maxSupply ≤ 99`; and on a collection deployed with `maxSupply ≤ 99` every
call of `mint` reverts. -/
theorem totalSupply_is_99_plus_existing (sender maxSupply : Nat)
    (calls : List NFTCollection.Call) :
    (NFTCollection.run (NFTCollection.deploy sender maxSupply) calls).totalSupply
      = 99 + (NFTCollection.existing
          (NFTCollection.run (NFTCollection.deploy sender maxSupply) calls)).card ∧
    (∀ tokenId, tokenId ∈ NFTCollection.existing
          (NFTCollection.run (NFTCollection.deploy sender maxSupply) calls) ↔
      (NFTCollection.run (NFTCollection.deploy sender maxSupply) calls).owners.get tokenId
        ≠ 0) ∧
    (NFTCollection.existing
        (NFTCollection.run (NFTCollection.deploy sender maxSupply) calls)).card
      ≤ maxSupply - 99 ∧
    (maxSupply ≤ 99 →
      (NFTCollection.existing
        (NFTCollection.run (NFTCollection.deploy sender maxSupply) calls)).card = 0 ∧
      ∀ caller to_ tokenId, ∃ reason,
        NFTCollection.mint caller to_ tokenId
            (NFTCollection.run (NFTCollection.deploy sender maxSupply) calls)
          = Except.error reason) := by
  have hinit₁ : (NFTCollection.deploy sender maxSupply).totalSupply
      = 99 + (NFTCollection.existing (NFTCollection.deploy sender maxSupply)).card := rfl
  have hinit₂ : (NFTCollection.existing (NFTCollection.deploy sender maxSupply)).card
      ≤ (NFTCollection.deploy sender maxSupply).maxSupply - 99 := Nat.zero_le _
  obtain ⟨h₁, h₂, h₃⟩ := NFTCollection.run_invariant calls
    (NFTCollection.deploy sender maxSupply) hinit₁ hinit₂
  have h₃' : (NFTCollection.run (NFTCollection.deploy sender maxSupply) calls).maxSupply
      = maxSupply := h₃
  rw [h₃'] at h₂
  refine ⟨h₁, fun tokenId => Mapping.mem_support _ tokenId, h₂, ?_⟩
  intro hsmall
  refine ⟨by omega, ?_⟩
  intro caller to_ tokenId
  have hfull : ¬ (NFTCollection.run (NFTCollection.deploy sender maxSupply) calls).totalSupply
      < (NFTCollection.run (NFTCollection.deploy sender maxSupply) calls).maxSupply := by
    rw [h₃', h₁]
    omega
  cases hres : NFTCollection.mint caller to_ tokenId
      (NFTCollection.run (NFTCollection.deploy sender maxSupply) calls) with
  | error reason => exact ⟨reason, rfl⟩
  | ok c' => exact absurd (NFTCollection.mint_ok _ _ _ _ _ hres).2.2.1 hfull

end Swapping
